import Mathlib

/-!
BookMyShow reservation engine (`06_FAANG_DeepDives/03_BookMyShow/bookmyshow.cpp`)

A shallow embedding of the seat state machine (`Seat`), of the payment
strategies and of `BookingManager::create_booking`, followed by the properties
proved about them.  The command pattern, the State-pattern vending machines,
the vending machine and the parking lot of the same repository follow, each
under its own heading; all definitions come first, all theorems after them.

Modelling conventions.

* The seats of a show are distinct heap objects held through
  `shared_ptr<Seat>` (as `main` builds them with one `make_shared` each).  The
  heap is the list `Show.seats`; a `shared_ptr<Seat>` stored in `locked_seats`
  or `booked_seats` is the position of the seat it points to.
* Calls run one after another (no interleaving); the per-seat mutex is
  therefore not represented.
* `int` is a 32-bit two's complement integer; the two places where the code
  does arithmetic on it (`total += s->price`, `next_booking_id++`) wrap through
  `wrapInt32`.
* `show->seats[idx]` with `idx` outside `0 .. size-1` has no defined behaviour
  in C++; the embedding stops there with the outcome `Outcome.undefined`.
* Console output is not represented.  Instead every call of `try_lock_seat`,
  `release_lock`, `confirm_booking` and `pay` made by `create_booking` is
  recorded, in order, in a trace of `Event`s.
-/

namespace BookMyShow

/-! ## Enums -/

/-- Enum `enum class SeatType`. -/
inductive SeatType where
  | REGULAR
  | VIP
  deriving DecidableEq, Repr

/-- Enum `enum class SeatStatus`. -/
inductive SeatStatus where
  | AVAILABLE
  | LOCKED
  | BOOKED
  deriving DecidableEq, Repr

/-- Enum `enum class BookingStatus`. -/
inductive BookingStatus where
  | PENDING
  | CONFIRMED
  | CANCELLED
  deriving DecidableEq, Repr

/-! ## Entities -/

/-- Entity `struct Movie`. -/
structure Movie where
  title : String
  genre : String
  duration_min : Int
  deriving DecidableEq, Repr

/-- Entity `struct Seat` (the mutex is not state of the sequential model). -/
structure Seat where
  row : Int
  col : Int
  type : SeatType
  status : SeatStatus
  price : Int
  deriving DecidableEq, Repr

namespace Seat

/-- Constructor `Seat(int r, int c, SeatType t, int p)`: the status starts
`AVAILABLE` (default member initialiser). -/
def new (r c : Int) (t : SeatType) (p : Int) : Seat :=
  { row := r, col := c, type := t, status := SeatStatus.AVAILABLE, price := p }

/-- Member `bool Seat::try_lock_seat()`: the returned flag and the seat afterwards. -/
def try_lock_seat (s : Seat) : Bool × Seat :=
  if s.status = SeatStatus.AVAILABLE then
    (true, { s with status := SeatStatus.LOCKED })
  else
    (false, s)

/-- Member `void Seat::confirm_booking()`: assigns `BOOKED` without looking at the
current status; the function returns nothing and throws nothing. -/
def confirm_booking (s : Seat) : Seat :=
  { s with status := SeatStatus.BOOKED }

/-- Member `void Seat::release_lock()`. -/
def release_lock (s : Seat) : Seat :=
  if s.status = SeatStatus.LOCKED then
    { s with status := SeatStatus.AVAILABLE }
  else
    s

end Seat

/-- The three mutating member functions of `Seat`, as data, to speak about
sequences of calls on one seat. -/
inductive SeatOp where
  | try_lock_seat
  | release_lock
  | confirm_booking
  deriving DecidableEq, Repr

/-- Effect of one member-function call on the seat. -/
def SeatOp.apply : SeatOp → Seat → Seat
  | SeatOp.try_lock_seat, s => (s.try_lock_seat).2
  | SeatOp.release_lock, s => s.release_lock
  | SeatOp.confirm_booking, s => s.confirm_booking

/-- Effect of a sequence of member-function calls, first call first. -/
def apply_ops (ops : List SeatOp) (s : Seat) : Seat :=
  ops.foldl (fun acc op => op.apply acc) s

/-- The transitions the specification allows in one step (staying put
included): `AVAILABLE→LOCKED`, `LOCKED→BOOKED`, `LOCKED→AVAILABLE`. -/
def legal_transition : SeatStatus → SeatStatus → Bool
  | SeatStatus.AVAILABLE, SeatStatus.AVAILABLE => true
  | SeatStatus.LOCKED, SeatStatus.LOCKED => true
  | SeatStatus.BOOKED, SeatStatus.BOOKED => true
  | SeatStatus.AVAILABLE, SeatStatus.LOCKED => true
  | SeatStatus.LOCKED, SeatStatus.BOOKED => true
  | SeatStatus.LOCKED, SeatStatus.AVAILABLE => true
  | _, _ => false

/-- Entity `struct Show`. -/
structure Show where
  movie : Movie
  time_slot : String
  hall_name : String
  seats : List Seat
  deriving DecidableEq, Repr

/-! ## Payment strategy -/

/-- What a call of the pure virtual `IPaymentStrategy::pay` can do: return a
`bool`, or leave by an exception. -/
inductive PayResult where
  | returned (ok : Bool)
  | threw
  deriving DecidableEq, Repr

/-- A payment strategy, seen through its only member `bool pay(int amount)`.
`create_booking` owns the strategy (`unique_ptr`) and calls it at most once. -/
abbrev IPaymentStrategy := Int → PayResult

/-- Strategy `CreditCardPayment::pay`. -/
def CreditCardPayment : IPaymentStrategy := fun _ => PayResult.returned true

/-- Strategy `UPIPayment::pay`. -/
def UPIPayment : IPaymentStrategy := fun _ => PayResult.returned true

/-! ## Booking -/

/-- Entity `struct Booking`.  `booked_seats` holds the positions (in `show->seats`) of
the seats pointed to; the `Show* show` back pointer is the show the call was
made on and is not stored. -/
structure Booking where
  booking_id : Int
  user_name : String
  booked_seats : List Nat
  total_price : Int
  status : BookingStatus
  deriving DecidableEq, Repr

/-- Class `class BookingManager`: its only member is `next_booking_id = 1000`. -/
structure BookingManager where
  next_booking_id : Int
  deriving DecidableEq, Repr

/-- A freshly constructed `BookingManager`. -/
def BookingManager.new : BookingManager := { next_booking_id := 1000 }

/-- Wrap-around of 32-bit two's complement `int` arithmetic. -/
def wrapInt32 (x : Int) : Int :=
  (x + 2147483648) % 4294967296 - 2147483648

/-- Calls made by `create_booking` on its collaborators, in program order. -/
inductive Event where
  | try_lock (seat : Nat) (ok : Bool)
  | release (seat : Nat)
  | confirm (seat : Nat)
  | pay (amount : Int) (result : PayResult)
  deriving DecidableEq, Repr

/-- Access `show->seats[idx]` for an `int idx`: defined only for `0 ≤ idx < size`. -/
def seat_at (seats : List Seat) (idx : Int) : Option Seat :=
  if 0 ≤ idx then seats[idx.toNat]? else none

/-- Run a member function on the seat at position `i` of the heap. -/
def update_seat (seats : List Seat) (i : Nat) (f : Seat → Seat) : List Seat :=
  match seats[i]? with
  | some s => seats.set i (f s)
  | none => seats

/-- Loop `for (auto& s : locked_seats) s->f();` -/
def for_each_seat (seats : List Seat) (locked_seats : List Nat) (f : Seat → Seat) :
    List Seat :=
  locked_seats.foldl (fun acc i => update_seat acc i f) seats

/-- The seat left behind by `try_lock_seat` (its `bool` result dropped). -/
def lock_effect (s : Seat) : Seat := (s.try_lock_seat).2

/-- How the locking loop (step 1) ended. -/
inductive LockOutcome where
  | all_locked
  | lock_failed
  | out_of_range
  deriving DecidableEq, Repr

/-- State at the end of step 1. -/
structure LockResult where
  outcome : LockOutcome
  seats : List Seat
  locked_seats : List Nat
  trace : List Event
  deriving DecidableEq, Repr

/-- Step 1 of `create_booking`: `for (int idx : seat_indices)`, with the
rollback `for (auto& s : locked_seats) s->release_lock(); return nullptr;` in
the `else` branch. -/
def lock_loop (seats : List Seat) (locked_seats : List Nat) (trace : List Event) :
    List Int → LockResult
  | [] => ⟨LockOutcome.all_locked, seats, locked_seats, trace⟩
  | idx :: rest =>
    match seat_at seats idx with
    | none => ⟨LockOutcome.out_of_range, seats, locked_seats, trace⟩
    | some s =>
      if (s.try_lock_seat).1 = true then
        lock_loop (seats.set idx.toNat (s.try_lock_seat).2)
          (locked_seats ++ [idx.toNat])
          (trace ++ [Event.try_lock idx.toNat true]) rest
      else
        ⟨LockOutcome.lock_failed,
          for_each_seat (seats.set idx.toNat (s.try_lock_seat).2) locked_seats
            Seat.release_lock,
          locked_seats,
          trace ++ [Event.try_lock idx.toNat false] ++ locked_seats.map Event.release⟩

/-- Step 2 of `create_booking`: `int total = 0; for (auto& s : locked_seats)
total += s->price;`. -/
def total_price (seats : List Seat) (locked_seats : List Nat) : Int :=
  locked_seats.foldl
    (fun total i =>
      match seats[i]? with
      | some s => wrapInt32 (total + s.price)
      | none => total)
    0

/-- What the caller of `create_booking` gets. -/
inductive Outcome where
  | booking (b : Booking)
  | null
  | exception
  | undefined
  deriving DecidableEq, Repr

/-- Result of one `create_booking` call: what is returned, and the show, the
manager and the trace of collaborator calls when the call ends. -/
structure CallResult where
  outcome : Outcome
  show_after : Show
  manager : BookingManager
  trace : List Event

/-- Member `Booking* BookingManager::create_booking(user, show, seat_indices,
payment)`. -/
def create_booking (mgr : BookingManager) (user : String) (sh : Show)
    (seat_indices : List Int) (payment : IPaymentStrategy) : CallResult :=
  let r := lock_loop sh.seats [] [] seat_indices
  match r.outcome with
  | LockOutcome.out_of_range =>
    ⟨Outcome.undefined, { sh with seats := r.seats }, mgr, r.trace⟩
  | LockOutcome.lock_failed =>
    ⟨Outcome.null, { sh with seats := r.seats }, mgr, r.trace⟩
  | LockOutcome.all_locked =>
    let total := total_price r.seats r.locked_seats
    match payment total with
    | PayResult.threw =>
      ⟨Outcome.exception, { sh with seats := r.seats }, mgr,
        r.trace ++ [Event.pay total PayResult.threw]⟩
    | PayResult.returned false =>
      ⟨Outcome.null,
        { sh with seats := for_each_seat r.seats r.locked_seats Seat.release_lock },
        mgr,
        r.trace ++ [Event.pay total (PayResult.returned false)]
          ++ r.locked_seats.map Event.release⟩
    | PayResult.returned true =>
      ⟨Outcome.booking
          { booking_id := mgr.next_booking_id
            user_name := user
            booked_seats := r.locked_seats
            total_price := total
            status := BookingStatus.CONFIRMED },
        { sh with seats := for_each_seat r.seats r.locked_seats Seat.confirm_booking },
        { next_booking_id := wrapInt32 (mgr.next_booking_id + 1) },
        r.trace ++ [Event.pay total (PayResult.returned true)]
          ++ r.locked_seats.map Event.confirm⟩

/-- The show built by `main`: 2 rows × 5 columns, row 0 VIP at 15, row 1
REGULAR at 10. -/
def main_show : Show :=
  { movie := { title := "Avengers: Endgame", genre := "Action", duration_min := 181 }
    time_slot := "7:00 PM"
    hall_name := "Screen 1"
    seats :=
      (List.range 2).flatMap fun r =>
        (List.range 5).map fun c =>
          Seat.new r (c + 1) (if r = 0 then SeatType.VIP else SeatType.REGULAR)
            (if r = 0 then 15 else 10) }

/-- The show of `main` after Alice's booking of seats A1 and A2 (`b1`). -/
def show_after_alice : Show :=
  (create_booking BookingManager.new "Alice" main_show [0, 1] CreditCardPayment).show_after

/-- A payment stub that declines every amount. -/
def DecliningPayment : IPaymentStrategy := fun _ => PayResult.returned false

/-- One `create_booking` call as data: the arguments a caller chooses. -/
structure Call where
  user : String
  seat_indices : List Int
  payment : IPaymentStrategy

/-- The program state between calls, together with the bookings returned so
far (oldest first). -/
structure System where
  show_now : Show
  manager : BookingManager
  bookings : List Booking

/-- One more `create_booking` call on the same show and manager; a returned
booking is appended to the ones the callers hold. -/
def System.step (st : System) (c : Call) : System :=
  let r := create_booking st.manager c.user st.show_now c.seat_indices c.payment
  { show_now := r.show_after
    manager := r.manager
    bookings :=
      match r.outcome with
      | Outcome.booking b => st.bookings ++ [b]
      | _ => st.bookings }

/-- A finite sequence of `create_booking` calls made one after another. -/
def run_calls (st : System) (calls : List Call) : System :=
  calls.foldl System.step st

/-- What can happen to a show between two observations: a direct call of a
`Seat` member function on the seat at position `i`, or a `create_booking`
call. -/
inductive Action where
  | seat_op (i : Nat) (op : SeatOp)
  | book (c : Call)

/-- Effect of one action on the program state. -/
def System.act (st : System) : Action → System
  | Action.seat_op i op =>
    { show_now := { st.show_now with seats := update_seat st.show_now.seats i op.apply }
      manager := st.manager
      bookings := st.bookings }
  | Action.book c => st.step c

/-- A finite sequence of actions, first action first. -/
def run_actions (st : System) (actions : List Action) : System :=
  actions.foldl System.act st

/-- Whether a recorded call is a call of `pay`. -/
def Event.is_pay : Event → Bool
  | Event.pay _ _ => true
  | _ => false

/-- Number of `pay` calls recorded in a trace. -/
def pay_calls (trace : List Event) : Nat :=
  trace.countP Event.is_pay

/-- The seats on which `try_lock_seat` was called, in call order. -/
def lock_attempts (trace : List Event) : List Nat :=
  trace.filterMap fun e =>
    match e with
    | Event.try_lock i _ => some i
    | _ => none

/-- The exact (unbounded) sum of the `price` fields of the seats at the given
positions. -/
def price_sum (seats : List Seat) (idxs : List Nat) : Int :=
  (idxs.map fun i =>
    match seats[i]? with
    | some s => s.price
    | none => 0).sum

/-- The values an `int` can hold. -/
def in_int32 (x : Int) : Prop :=
  -2147483648 ≤ x ∧ x ≤ 2147483647

instance (x : Int) : Decidable (in_int32 x) := by
  unfold in_int32; infer_instance

/-- A payment strategy whose `pay` leaves by an exception. -/
def ThrowingPayment : IPaymentStrategy := fun _ => PayResult.threw

/-- A show with two seats priced 1073741824 (a valid `int`) each. -/
def pricey_show : Show :=
  { movie := { title := "Premiere", genre := "Gala", duration_min := 120 }
    time_slot := "9:00 PM"
    hall_name := "Screen 2"
    seats := [Seat.new 0 1 SeatType.VIP 1073741824, Seat.new 0 2 SeatType.VIP 1073741824] }

/-- A call with an empty seat list and a payment that succeeds. -/
def empty_call : Call :=
  { user := "Eve", seat_indices := [], payment := CreditCardPayment }

/-- As many empty calls as there are `int` values from 1000 up, plus one:
2147482649 calls. -/
def many_empty_calls : List Call :=
  List.replicate 2147482649 empty_call

/-- The `booking_id`s of the bookings returned so far, oldest first. -/
def System.ids (st : System) : List Int :=
  st.bookings.map Booking.booking_id

/-- Status of the seat at position `i`, if there is one. -/
def status_at (seats : List Seat) (i : Nat) : Option SeatStatus :=
  (seats[i]?).map Seat.status

/-- All seats held by the bookings returned so far, oldest booking first. -/
def System.booked (st : System) : List Nat :=
  (st.bookings.map Booking.booked_seats).flatten

/-- Invariant of a run: no seat is held twice by the returned bookings, and
every seat they hold is `BOOKED` in the show. -/
def System.sound (st : System) : Prop :=
  st.booked.Nodup ∧
  ∀ i ∈ st.booked, status_at st.show_now.seats i = some SeatStatus.BOOKED

/-- Statuses of all seats of a show, in seat order. -/
def Show.statuses (sh : Show) : List SeatStatus :=
  sh.seats.map Seat.status

/-- Every requested index denotes a seat of the heap that is `AVAILABLE`. -/
def all_available (seats : List Seat) (req : List Int) : Prop :=
  ∀ idx ∈ req, ∃ s, seat_at seats idx = some s ∧ s.status = SeatStatus.AVAILABLE

/-- An index that `show->seats[idx]` may be used with. -/
def in_range (sh : Show) (idx : Int) : Prop :=
  0 ≤ idx ∧ idx < (sh.seats.length : Int)

instance (sh : Show) (idx : Int) : Decidable (in_range sh idx) := by
  unfold in_range; infer_instance

/-- The show of `main` after a request for seats 1 and 4 whose payment threw. -/
def show_after_throw : Show :=
  (create_booking BookingManager.new "Tom" main_show [1, 4] ThrowingPayment).show_after

/-- One empty call fewer than there are `int` values from 1000 up: 2147482647
calls, after which the counter of a fresh manager is the largest `int`. -/
def nearly_many_empty_calls : List Call :=
  List.replicate 2147482647 empty_call

/-- The fields of a seat that no member function assigns. -/
def Seat.fixed_part (s : Seat) : Int × Int × SeatType × Int :=
  (s.row, s.col, s.type, s.price)

end BookMyShow

/-!
Command pattern (`04_BEHAVIORAL/03_Command/command.cpp`)

The receiver `BankAccount`, the concrete command `BankAccountCommand` and the
two loops of `main` (call every command in order, then undo every command in
reverse order).  All `int` arithmetic wraps through `BookMyShow.wrapInt32`.
Every command refers to the same account; the account is threaded through the
calls.
-/

namespace CommandBank

open BookMyShow (wrapInt32 in_int32)

/-- Receiver `struct BankAccount`. -/
structure BankAccount where
  balance : Int
  overdraft_limit : Int
  deriving DecidableEq, Repr

namespace BankAccount

/-- A default-initialised account: `balance = 0`, `overdraft_limit = -500`. -/
def new : BankAccount := { balance := 0, overdraft_limit := -500 }

/-- Member `void deposit(int amount)`. -/
def deposit (a : BankAccount) (amount : Int) : BankAccount :=
  { a with balance := wrapInt32 (a.balance + amount) }

/-- Member `bool withdraw(int amount)`: the flag returned and the account
afterwards. -/
def withdraw (a : BankAccount) (amount : Int) : Bool × BankAccount :=
  if wrapInt32 (a.balance - amount) ≥ a.overdraft_limit then
    (true, { a with balance := wrapInt32 (a.balance - amount) })
  else
    (false, a)

end BankAccount

/-- Enum `BankAccountCommand::Action`. -/
inductive Action where
  | deposit
  | withdraw
  deriving DecidableEq, Repr

/-- Concrete command `struct BankAccountCommand` (the `account` reference is the
account passed to `call` and `undo`). -/
structure BankAccountCommand where
  action : Action
  amount : Int
  succeeded : Bool
  deriving DecidableEq, Repr

namespace BankAccountCommand

/-- Constructor `BankAccountCommand(account, action, amount)`: `succeeded`
starts false. -/
def new (action : Action) (amount : Int) : BankAccountCommand :=
  { action := action, amount := amount, succeeded := false }

/-- Member `void call()`: the account and the command afterwards. -/
def call (c : BankAccountCommand) (account : BankAccount) :
    BankAccount × BankAccountCommand :=
  match c.action with
  | Action.deposit => (account.deposit c.amount, { c with succeeded := true })
  | Action.withdraw =>
    ((account.withdraw c.amount).2, { c with succeeded := (account.withdraw c.amount).1 })

/-- Member `void undo()`: the account afterwards (the result of the inner
`withdraw` is ignored, as in the source). -/
def undo (c : BankAccountCommand) (account : BankAccount) : BankAccount :=
  if c.succeeded = false then account
  else
    match c.action with
    | Action.deposit => (account.withdraw c.amount).2
    | Action.withdraw => account.deposit c.amount

end BankAccountCommand

/-- First loop of `main`: `for (auto& cmd : command_history) cmd->call();`. -/
def call_all (account : BankAccount) :
    List BankAccountCommand → BankAccount × List BankAccountCommand
  | [] => (account, [])
  | c :: rest =>
    ((call_all (c.call account).1 rest).1,
      (c.call account).2 :: (call_all (c.call account).1 rest).2)

/-- Second loop of `main`: undo through the history backwards. -/
def undo_all (account : BankAccount) (history : List BankAccountCommand) : BankAccount :=
  history.reverse.foldl (fun acc c => c.undo acc) account

/-- Both loops of `main` on a fresh account: the final account. -/
def call_then_undo (commands : List BankAccountCommand) : BankAccount :=
  undo_all (call_all BankAccount.new commands).1 (call_all BankAccount.new commands).2

/-- The sum of the amounts of a list of commands. -/
def total_amount (commands : List BankAccountCommand) : Int :=
  (commands.map BankAccountCommand.amount).sum

/-- The three commands of `main`. -/
def main_commands : List BankAccountCommand :=
  [BankAccountCommand.new Action.deposit 100, BankAccountCommand.new Action.withdraw 50,
    BankAccountCommand.new Action.withdraw 500]

/-- Three deposits whose amounts are non-negative `int`s and add up to more
than the largest `int`. -/
def overflowing_commands : List BankAccountCommand :=
  [BankAccountCommand.new Action.deposit 2147483647, BankAccountCommand.new Action.deposit 2,
    BankAccountCommand.new Action.deposit 1]

end CommandBank

/-!
State pattern (`04_BEHAVIORAL/04_State/state.cpp`)

The switch-based `Bad::VendingMachine` and the `Good::VendingMachine` with its
four state classes.  A `unique_ptr<State>` to a stateless state object is the
name of its class; a virtual call dispatches on that name to the member of
the class.  `stock_--` wraps through `BookMyShow.wrapInt32`.
-/

namespace StatePattern

open BookMyShow (wrapInt32)

namespace Bad

/-- Enum `Bad::State`. -/
inductive State where
  | Idle
  | HasMoney
  | Dispensing
  | OutOfStock
  deriving DecidableEq, Repr

/-- Class `Bad::VendingMachine`. -/
structure VendingMachine where
  state_ : State
  stock_ : Int
  money_ : Int
  deriving DecidableEq, Repr

namespace VendingMachine

/-- Default member initialisers: `Idle`, stock 2, money 0. -/
def new : VendingMachine := { state_ := State.Idle, stock_ := 2, money_ := 0 }

/-- Member `void insertMoney(int amount)`. -/
def insertMoney (vm : VendingMachine) (amount : Int) : VendingMachine :=
  match vm.state_ with
  | State.Idle => { vm with money_ := amount, state_ := State.HasMoney }
  | State.HasMoney => vm
  | State.Dispensing => vm
  | State.OutOfStock => vm

/-- Member `void selectProduct()`. -/
def selectProduct (vm : VendingMachine) : VendingMachine :=
  match vm.state_ with
  | State.Idle => vm
  | State.HasMoney => { vm with state_ := State.Dispensing }
  | State.Dispensing => vm
  | State.OutOfStock => vm

/-- Member `void dispense()`. -/
def dispense (vm : VendingMachine) : VendingMachine :=
  match vm.state_ with
  | State.Idle => vm
  | State.HasMoney => vm
  | State.Dispensing =>
    { state_ := if wrapInt32 (vm.stock_ - 1) > 0 then State.Idle else State.OutOfStock
      stock_ := wrapInt32 (vm.stock_ - 1)
      money_ := 0 }
  | State.OutOfStock => vm

end VendingMachine

end Bad

namespace Good

/-- The concrete state classes of `Good`, each standing for an object of that
class held in `state_`. -/
inductive State where
  | IdleState
  | HasMoneyState
  | OutOfStockState
  | DispensingState
  deriving DecidableEq, Repr

/-- Class `Good::VendingMachine` (the context). -/
structure VendingMachine where
  state_ : State
  stock_ : Int
  money_ : Int
  deriving DecidableEq, Repr

namespace VendingMachine

/-- Constructor `VendingMachine(int stock)`. -/
def new (stock : Int) : VendingMachine :=
  { state_ := State.IdleState, stock_ := stock, money_ := 0 }

/-- Member `void setState(unique_ptr<State> state)`. -/
def setState (vm : VendingMachine) (state : State) : VendingMachine :=
  { vm with state_ := state }

/-- Member `int getStock() const`. -/
def getStock (vm : VendingMachine) : Int := vm.stock_

/-- Member `void decrementStock()`. -/
def decrementStock (vm : VendingMachine) : VendingMachine :=
  { vm with stock_ := wrapInt32 (vm.stock_ - 1) }

/-- Member `void setMoney(int m)`. -/
def setMoney (vm : VendingMachine) (m : Int) : VendingMachine :=
  { vm with money_ := m }

end VendingMachine

/-- Member `IdleState::insertMoney`. -/
def IdleState_insertMoney (vm : VendingMachine) (amount : Int) : VendingMachine :=
  (vm.setMoney amount).setState State.HasMoneyState

/-- Member `IdleState::selectProduct`. -/
def IdleState_selectProduct (vm : VendingMachine) : VendingMachine := vm

/-- Member `IdleState::dispense`. -/
def IdleState_dispense (vm : VendingMachine) : VendingMachine := vm

/-- Member `HasMoneyState::insertMoney`. -/
def HasMoneyState_insertMoney (vm : VendingMachine) (_amount : Int) : VendingMachine := vm

/-- Member `HasMoneyState::selectProduct`. -/
def HasMoneyState_selectProduct (vm : VendingMachine) : VendingMachine :=
  vm.setState State.DispensingState

/-- Member `HasMoneyState::dispense`. -/
def HasMoneyState_dispense (vm : VendingMachine) : VendingMachine := vm

/-- Member `OutOfStockState::insertMoney`. -/
def OutOfStockState_insertMoney (vm : VendingMachine) (_amount : Int) : VendingMachine := vm

/-- Member `OutOfStockState::selectProduct`. -/
def OutOfStockState_selectProduct (vm : VendingMachine) : VendingMachine := vm

/-- Member `OutOfStockState::dispense`. -/
def OutOfStockState_dispense (vm : VendingMachine) : VendingMachine := vm

/-- Member `DispensingState::insertMoney`. -/
def DispensingState_insertMoney (vm : VendingMachine) (_amount : Int) : VendingMachine := vm

/-- Member `DispensingState::selectProduct`. -/
def DispensingState_selectProduct (vm : VendingMachine) : VendingMachine := vm

/-- Member `DispensingState::dispense`. -/
def DispensingState_dispense (vm : VendingMachine) : VendingMachine :=
  if ((vm.decrementStock).setMoney 0).getStock > 0 then
    ((vm.decrementStock).setMoney 0).setState State.IdleState
  else
    ((vm.decrementStock).setMoney 0).setState State.OutOfStockState

namespace VendingMachine

/-- Member `void insertMoney(int amount)`: `state_->insertMoney(*this, amount)`. -/
def insertMoney (vm : VendingMachine) (amount : Int) : VendingMachine :=
  match vm.state_ with
  | State.IdleState => IdleState_insertMoney vm amount
  | State.HasMoneyState => HasMoneyState_insertMoney vm amount
  | State.OutOfStockState => OutOfStockState_insertMoney vm amount
  | State.DispensingState => DispensingState_insertMoney vm amount

/-- Member `void selectProduct()`: `state_->selectProduct(*this)`. -/
def selectProduct (vm : VendingMachine) : VendingMachine :=
  match vm.state_ with
  | State.IdleState => IdleState_selectProduct vm
  | State.HasMoneyState => HasMoneyState_selectProduct vm
  | State.OutOfStockState => OutOfStockState_selectProduct vm
  | State.DispensingState => DispensingState_selectProduct vm

/-- Member `void dispense()`: `state_->dispense(*this)`. -/
def dispense (vm : VendingMachine) : VendingMachine :=
  match vm.state_ with
  | State.IdleState => IdleState_dispense vm
  | State.HasMoneyState => HasMoneyState_dispense vm
  | State.OutOfStockState => OutOfStockState_dispense vm
  | State.DispensingState => DispensingState_dispense vm

end VendingMachine

end Good

/-- One call on a vending machine, as data. -/
inductive Call where
  | insertMoney (amount : Int)
  | selectProduct
  | dispense
  deriving DecidableEq, Repr

/-- The call made on the switch-based machine. -/
def Bad.step (vm : Bad.VendingMachine) : Call → Bad.VendingMachine
  | Call.insertMoney amount => vm.insertMoney amount
  | Call.selectProduct => vm.selectProduct
  | Call.dispense => vm.dispense

/-- The call made on the State-pattern machine. -/
def Good.step (vm : Good.VendingMachine) : Call → Good.VendingMachine
  | Call.insertMoney amount => vm.insertMoney amount
  | Call.selectProduct => vm.selectProduct
  | Call.dispense => vm.dispense

/-- The state class of `Good` that stands for a value of `Bad::State`. -/
def state_of : Good.State → Bad.State
  | Good.State.IdleState => Bad.State.Idle
  | Good.State.HasMoneyState => Bad.State.HasMoney
  | Good.State.DispensingState => Bad.State.Dispensing
  | Good.State.OutOfStockState => Bad.State.OutOfStock

/-- The (state, stock, money) triple of a switch-based machine. -/
def Bad.triple (vm : Bad.VendingMachine) : Bad.State × Int × Int :=
  (vm.state_, vm.stock_, vm.money_)

/-- The (state, stock, money) triple of a State-pattern machine, its state
named as in `Bad`. -/
def Good.triple (vm : Good.VendingMachine) : Bad.State × Int × Int :=
  (state_of vm.state_, vm.stock_, vm.money_)

/-- The triples a switch-based machine passes through: the one it starts in and
the one after each call. -/
def Bad.triples (vm : Bad.VendingMachine) : List Call → List (Bad.State × Int × Int)
  | [] => [Bad.triple vm]
  | c :: rest => Bad.triple vm :: Bad.triples (Bad.step vm c) rest

/-- The triples a State-pattern machine passes through. -/
def Good.triples (vm : Good.VendingMachine) : List Call → List (Bad.State × Int × Int)
  | [] => [Good.triple vm]
  | c :: rest => Good.triple vm :: Good.triples (Good.step vm c) rest

/-- The calls `main` makes on each machine. -/
def main_calls : List Call :=
  [Call.insertMoney 5, Call.selectProduct, Call.dispense,
    Call.insertMoney 5, Call.selectProduct, Call.dispense, Call.insertMoney 5]

end StatePattern

/-!
Vending machine (`06_FAANG_DeepDives/02_VendingMachine/vending_machine.cpp`)

`Inventory` is an `unordered_map` from product code to (product, quantity),
modelled as a finite partial map given by its lookup function (iteration
order, used only by `display`, is not represented).  `current_state` points to
one of the three state objects the machine owns and is modelled by the name of
its class.  `items.at(code)` throws for an unknown code: a call that would
throw returns `none`.  Besides the machine, a call yields the code of the
product it dispensed, if any (the "Dispensing" message of the source).
`int` arithmetic wraps through `BookMyShow.wrapInt32`.
-/

namespace Vending

open BookMyShow (wrapInt32)

/-- Entity `struct Product`. -/
structure Product where
  name : String
  price : Int
  deriving DecidableEq, Repr

/-- Default `Product("", 0)`, built by `items[code]` for an unknown code. -/
def Product.default : Product := { name := "", price := 0 }

/-- Class `Inventory`: the lookup function of `items`. -/
structure Inventory where
  items : String → Option (Product × Int)

namespace Inventory

/-- An empty inventory. -/
def empty : Inventory := { items := fun _ => none }

/-- Member `void add_product(code, product, qty)`: `items[code] = {product, qty}`. -/
def add_product (inv : Inventory) (code : String) (product : Product) (qty : Int) :
    Inventory :=
  { items := fun c => if c = code then some (product, qty) else inv.items c }

/-- Member `bool is_available(code) const`. -/
def is_available (inv : Inventory) (code : String) : Bool :=
  match inv.items code with
  | some (_, qty) => decide (qty > 0)
  | none => false

/-- Member `Product get_product(code) const`: `items.at(code).first`, which
throws for an unknown code. -/
def get_product (inv : Inventory) (code : String) : Option Product :=
  (inv.items code).map Prod.fst

/-- Member `void reduce_stock(code)`: `items[code].second--` (an unknown code
is first inserted with a default product and quantity 0). -/
def reduce_stock (inv : Inventory) (code : String) : Inventory :=
  { items := fun c =>
      if c = code then
        match inv.items code with
        | some (p, qty) => some (p, wrapInt32 (qty - 1))
        | none => some (Product.default, wrapInt32 (0 - 1))
      else inv.items c }

/-- The quantity recorded for a code, if the code is known. -/
def quantity (inv : Inventory) (code : String) : Option Int :=
  (inv.items code).map Prod.snd

end Inventory

/-- The three state objects of a machine, by class. -/
inductive StateName where
  | IdleState
  | HasMoneyState
  | DispensingState
  deriving DecidableEq, Repr

/-- Class `VendingMachine` (the context); `current_state` names the state
object it points to. -/
structure VendingMachine where
  inventory : Inventory
  balance : Int
  selected_product_code : String
  current_state : StateName

/-- What a call gives back: the machine afterwards and the code of the product
dispensed during the call, if any. -/
structure Result where
  vm : VendingMachine
  dispensed : Option String

namespace VendingMachine

/-- Constructor `VendingMachine()`: empty inventory, balance 0, idle. -/
def new : VendingMachine :=
  { inventory := Inventory.empty, balance := 0, selected_product_code := "",
    current_state := StateName.IdleState }

/-- Member `void set_state(state)`. -/
def set_state (vm : VendingMachine) (state : StateName) : VendingMachine :=
  { vm with current_state := state }

end VendingMachine

/-- Member `IdleState::insert_coin`. -/
def IdleState_insert_coin (vm : VendingMachine) (amount : Int) : Option Result :=
  some ⟨({ vm with balance := wrapInt32 (vm.balance + amount) }).set_state
    StateName.HasMoneyState, none⟩

/-- Member `IdleState::select_product`. -/
def IdleState_select_product (vm : VendingMachine) (_code : String) : Option Result :=
  some ⟨vm, none⟩

/-- Member `IdleState::dispense`. -/
def IdleState_dispense (vm : VendingMachine) : Option Result := some ⟨vm, none⟩

/-- Member `IdleState::cancel`. -/
def IdleState_cancel (vm : VendingMachine) : Option Result := some ⟨vm, none⟩

/-- Member `DispensingState::insert_coin`. -/
def DispensingState_insert_coin (vm : VendingMachine) (_amount : Int) : Option Result :=
  some ⟨vm, none⟩

/-- Member `DispensingState::select_product`. -/
def DispensingState_select_product (vm : VendingMachine) (_code : String) : Option Result :=
  some ⟨vm, none⟩

/-- Member `DispensingState::dispense`. -/
def DispensingState_dispense (vm : VendingMachine) : Option Result :=
  match vm.inventory.get_product vm.selected_product_code with
  | none => none
  | some _ =>
    some ⟨({ vm with
              inventory := vm.inventory.reduce_stock vm.selected_product_code
              balance := 0
              selected_product_code := "" }).set_state StateName.IdleState,
      some vm.selected_product_code⟩

/-- Member `DispensingState::cancel`. -/
def DispensingState_cancel (vm : VendingMachine) : Option Result := some ⟨vm, none⟩

/-- Member `HasMoneyState::insert_coin`. -/
def HasMoneyState_insert_coin (vm : VendingMachine) (amount : Int) : Option Result :=
  some ⟨{ vm with balance := wrapInt32 (vm.balance + amount) }, none⟩

/-- Member `HasMoneyState::dispense`. -/
def HasMoneyState_dispense (vm : VendingMachine) : Option Result := some ⟨vm, none⟩

/-- Member `HasMoneyState::cancel`. -/
def HasMoneyState_cancel (vm : VendingMachine) : Option Result :=
  some ⟨({ vm with balance := 0 }).set_state StateName.IdleState, none⟩

/-- Member `VendingMachine::dispense`: `current_state->dispense(*this)`. -/
def VendingMachine.dispense (vm : VendingMachine) : Option Result :=
  match vm.current_state with
  | StateName.IdleState => IdleState_dispense vm
  | StateName.HasMoneyState => HasMoneyState_dispense vm
  | StateName.DispensingState => DispensingState_dispense vm

/-- Member `HasMoneyState::select_product`, with its auto-triggered
`vm.dispense()`. -/
def HasMoneyState_select_product (vm : VendingMachine) (code : String) : Option Result :=
  if vm.inventory.is_available code = false then some ⟨vm, none⟩
  else
    match vm.inventory.get_product code with
    | none => none
    | some p =>
      if vm.balance < p.price then some ⟨vm, none⟩
      else
        (({ vm with selected_product_code := code }).set_state
          StateName.DispensingState).dispense

namespace VendingMachine

/-- Member `void insert_coin(int amount)`. -/
def insert_coin (vm : VendingMachine) (amount : Int) : Option Result :=
  match vm.current_state with
  | StateName.IdleState => IdleState_insert_coin vm amount
  | StateName.HasMoneyState => HasMoneyState_insert_coin vm amount
  | StateName.DispensingState => DispensingState_insert_coin vm amount

/-- Member `void select_product(code)`. -/
def select_product (vm : VendingMachine) (code : String) : Option Result :=
  match vm.current_state with
  | StateName.IdleState => IdleState_select_product vm code
  | StateName.HasMoneyState => HasMoneyState_select_product vm code
  | StateName.DispensingState => DispensingState_select_product vm code

/-- Member `void cancel()`. -/
def cancel (vm : VendingMachine) : Option Result :=
  match vm.current_state with
  | StateName.IdleState => IdleState_cancel vm
  | StateName.HasMoneyState => HasMoneyState_cancel vm
  | StateName.DispensingState => DispensingState_cancel vm

end VendingMachine

/-- One call a customer can make, as data. -/
inductive Call where
  | insert_coin (amount : Int)
  | select_product (code : String)
  | dispense
  | cancel
  deriving DecidableEq, Repr

/-- The call made on the machine. -/
def step (vm : VendingMachine) : Call → Option Result
  | Call.insert_coin amount => vm.insert_coin amount
  | Call.select_product code => vm.select_product code
  | Call.dispense => vm.dispense
  | Call.cancel => vm.cancel

/-- A finite sequence of calls, first call first; `none` when a call throws. -/
def run (vm : VendingMachine) : List Call → Option VendingMachine
  | [] => some vm
  | c :: rest =>
    match step vm c with
    | none => none
    | some r => run r.vm rest

/-- Stocking a machine: `vm.inventory.add_product(code, product, qty)` for each
entry, in order. -/
def stocked (entries : List (String × Product × Int)) : VendingMachine :=
  { VendingMachine.new with
    inventory :=
      entries.foldl (fun inv e => inv.add_product e.1 e.2.1 e.2.2) Inventory.empty }

/-- The invariant of a machine between calls: no quantity is negative (and
each is a value of `int`), the state is `IdleState` or `HasMoneyState`, and the
balance is 0 in `IdleState`. -/
def safe (vm : VendingMachine) : Prop :=
  (∀ code p qty, vm.inventory.items code = some (p, qty) → 0 ≤ qty ∧ qty ≤ 2147483647) ∧
  (vm.current_state = StateName.IdleState ∨ vm.current_state = StateName.HasMoneyState) ∧
  (vm.current_state = StateName.IdleState → vm.balance = 0)

/-- The stock `main` puts in the machine. -/
def main_stock : List (String × Product × Int) :=
  [("A1", ⟨"Coca-Cola", 150⟩, 5), ("A2", ⟨"Pepsi", 125⟩, 3), ("B1", ⟨"Chips", 100⟩, 2)]

/-- The calls of `main`, transactions 1 to 4. -/
def main_calls : List Call :=
  [Call.insert_coin 100, Call.insert_coin 50, Call.select_product "A1",
    Call.insert_coin 100, Call.insert_coin 25, Call.select_product "B1",
    Call.insert_coin 50, Call.cancel,
    Call.insert_coin 25, Call.select_product "A2"]

end Vending

/-!
Parking lot (`05_PROJECTS/02_ParkingLot/parkinglot.cpp`)

Vehicles, parking spots and `Level::park_vehicle`.  A `Vehicle*` held by a spot
is the vehicle it points to (`nullptr` is `none`).  The scan of
`park_vehicle` reads `spots[i]` for `i = 0, 1, ...`; no spot is written before
the scan ends, so the scan recurses on the part of the initial `spots` not yet
visited.  The loop counters stay between -1 and `spots.size()`;
`available_spots -= spots_needed` wraps through `BookMyShow.wrapInt32`.
-/

namespace ParkingLot

open BookMyShow (wrapInt32)

/-- Enum `enum class VehicleSize`. -/
inductive VehicleSize where
  | Motorcycle
  | Compact
  | Large
  deriving DecidableEq, Repr

/-- Class `Vehicle` (its data members; `print` is not represented). -/
structure Vehicle where
  license_plate : String
  spots_needed : Int
  size : VehicleSize
  deriving DecidableEq, Repr

/-- Constructor `Motorcycle(plate)`. -/
def Motorcycle (plate : String) : Vehicle :=
  { license_plate := plate, spots_needed := 1, size := VehicleSize.Motorcycle }

/-- Constructor `Car(plate)`. -/
def Car (plate : String) : Vehicle :=
  { license_plate := plate, spots_needed := 1, size := VehicleSize.Compact }

/-- Constructor `Bus(plate)`: a bus needs 5 consecutive large spots. -/
def Bus (plate : String) : Vehicle :=
  { license_plate := plate, spots_needed := 5, size := VehicleSize.Large }

/-- Class `ParkingSpot`. -/
structure ParkingSpot where
  vehicle : Option Vehicle
  spot_size : VehicleSize
  row : Int
  spot_number : Int
  deriving DecidableEq, Repr

namespace ParkingSpot

/-- Constructor `ParkingSpot(r, n, sz)`: no vehicle. -/
def new (r n : Int) (sz : VehicleSize) : ParkingSpot :=
  { vehicle := none, spot_size := sz, row := r, spot_number := n }

/-- Member `bool is_available() const`. -/
def is_available (sp : ParkingSpot) : Bool := sp.vehicle.isNone

/-- Member `bool can_fit_vehicle(Vehicle* v) const`. -/
def can_fit_vehicle (sp : ParkingSpot) (v : Vehicle) : Bool :=
  if sp.is_available = false then false
  else if v.size = VehicleSize.Motorcycle then true
  else if v.size = VehicleSize.Compact then
    decide (sp.spot_size = VehicleSize.Compact ∨ sp.spot_size = VehicleSize.Large)
  else decide (sp.spot_size = VehicleSize.Large)

/-- Member `bool park(Vehicle* v)`: the flag returned and the spot afterwards. -/
def park (sp : ParkingSpot) (v : Vehicle) : Bool × ParkingSpot :=
  if sp.can_fit_vehicle v = false then (false, sp)
  else (true, { sp with vehicle := some v })

end ParkingSpot

/-- Class `Level`. -/
structure Level where
  floor : Int
  spots : List ParkingSpot
  available_spots : Int
  deriving DecidableEq, Repr

/-- Run `park(v)` on the spot at position `j`. -/
def park_at (spots : List ParkingSpot) (v : Vehicle) (j : Nat) : List ParkingSpot :=
  match spots[j]? with
  | some sp => spots.set j (sp.park v).2
  | none => spots

/-- Inner loop `for (int j = start_index; j <= i; ++j) spots[j].park(v);`. -/
def park_range (spots : List ParkingSpot) (v : Vehicle) (start_index : Int) (i : Nat) :
    List ParkingSpot :=
  (List.range (i + 1 - start_index.toNat)).foldl
    (fun acc k => park_at acc v (start_index.toNat + k)) spots

/-- The scan `for (int i = 0; i < spots.size(); ++i)` of `park_vehicle`, from
index `i` on, `unvisited` being `spots[i], spots[i+1], ...`. -/
def scan (v : Vehicle) (lvl : Level) (spots_needed : Int) :
    List ParkingSpot → Nat → Int → Int → Bool × Level
  | [], _, _, _ => (false, lvl)
  | sp :: unvisited, i, consecutive_spots, start_index =>
    if sp.can_fit_vehicle v = true then
      if consecutive_spots + 1 = spots_needed then
        (true,
          { lvl with
            spots :=
              park_range lvl.spots v (if start_index = -1 then (i : Int) else start_index) i
            available_spots := wrapInt32 (lvl.available_spots - spots_needed) })
      else
        scan v lvl spots_needed unvisited (i + 1) (consecutive_spots + 1)
          (if start_index = -1 then (i : Int) else start_index)
    else
      scan v lvl spots_needed unvisited (i + 1) 0 (-1)

namespace Level

/-- Spot `i` of a new level with `num_spots` spots: the first half compact, the
rest large, ten spots per row. -/
def new_spot (num_spots : Int) (i : Nat) : ParkingSpot :=
  ParkingSpot.new ((i : Int) / 10) i
    (if (i : Int) < num_spots / 2 then VehicleSize.Compact else VehicleSize.Large)

/-- Constructor `Level(flr, num_spots)`. -/
def new (flr : Int) (num_spots : Int) : Level :=
  { floor := flr
    spots := (List.range num_spots.toNat).map (new_spot num_spots)
    available_spots := num_spots }

/-- Member `bool park_vehicle(Vehicle* v)`: the flag returned and the level
afterwards. -/
def park_vehicle (lvl : Level) (v : Vehicle) : Bool × Level :=
  if lvl.available_spots < v.spots_needed then (false, lvl)
  else scan v lvl v.spots_needed lvl.spots 0 0 (-1)

end Level

/-- The outcome of a successful `park_vehicle`: the `k` spots from `start` on
were empty and fitting and now hold `v`, every other spot is as before, and
`available_spots` went down by `k`. -/
def parked_block (lvl lvl2 : Level) (v : Vehicle) (start k : Nat) : Prop :=
  start + k ≤ lvl.spots.length ∧
  (∀ j, start ≤ j → j < start + k →
    ∃ sp, lvl.spots[j]? = some sp ∧ sp.vehicle = none ∧ sp.can_fit_vehicle v = true ∧
      lvl2.spots[j]? = some { sp with vehicle := some v }) ∧
  (∀ j, (j < start ∨ start + k ≤ j) → lvl2.spots[j]? = lvl.spots[j]?) ∧
  lvl2.spots.length = lvl.spots.length ∧
  lvl2.available_spots = lvl.available_spots - (k : Int) ∧
  lvl2.floor = lvl.floor

/-- Level 0 of `main` (20 spots) after the two cars and the motorcycle parked
in spots 0, 1 and 2. -/
def main_level : Level :=
  (((Level.new 0 20).park_vehicle (Car "CAR-001")).2.park_vehicle (Car "CAR-002")).2.park_vehicle
    (Motorcycle "MOTO-99") |>.2

end ParkingLot

/-! # Theorems -/

namespace BookMyShow

/-! ## Pointwise description of the heap updates -/

theorem getElem?_update_seat (seats : List Seat) (i j : Nat) (f : Seat → Seat) :
    (update_seat seats i f)[j]? = if j = i then (seats[j]?).map f else seats[j]? := by
  unfold update_seat
  cases h : seats[i]? with
  | none =>
    by_cases hj : j = i
    · subst hj; simp [h]
    · simp [hj]
  | some s =>
    have hlt : i < seats.length := (List.getElem?_eq_some.mp h).1
    by_cases hj : j = i
    · subst hj; simp [List.getElem?_set, h, hlt]
    · have hne : i ≠ j := fun e => hj e.symm
      simp [List.getElem?_set, hne, hj]

theorem length_update_seat (seats : List Seat) (i : Nat) (f : Seat → Seat) :
    (update_seat seats i f).length = seats.length := by
  unfold update_seat
  cases seats[i]? <;> simp

theorem for_each_seat_cons (seats : List Seat) (i : Nat) (rest : List Nat)
    (f : Seat → Seat) :
    for_each_seat seats (i :: rest) f = for_each_seat (update_seat seats i f) rest f := by
  simp [for_each_seat]

theorem length_for_each_seat (f : Seat → Seat) (locked : List Nat) :
    ∀ seats : List Seat, (for_each_seat seats locked f).length = seats.length := by
  induction locked with
  | nil => intro seats; simp [for_each_seat]
  | cons i rest ih =>
    intro seats
    rw [for_each_seat_cons, ih, length_update_seat]

/-- For an idempotent member function, the loop over `locked_seats` applies it
once to every seat listed and leaves the others alone. -/
theorem getElem?_for_each_seat (f : Seat → Seat) (hf : ∀ s, f (f s) = f s)
    (locked : List Nat) :
    ∀ (seats : List Seat) (j : Nat),
      (for_each_seat seats locked f)[j]?
        = if j ∈ locked then (seats[j]?).map f else seats[j]? := by
  induction locked with
  | nil => intro seats j; simp [for_each_seat]
  | cons i rest ih =>
    intro seats j
    rw [for_each_seat_cons, ih, getElem?_update_seat]
    by_cases hji : j = i
    · subst hji
      by_cases hr : j ∈ rest
      · cases hs : seats[j]? <;> simp [hr, hf]
      · simp [hr]
    · by_cases hr : j ∈ rest <;> simp [hji, hr]

theorem release_lock_twice (s : Seat) : s.release_lock.release_lock = s.release_lock := by
  obtain ⟨r, c, t, st, p⟩ := s
  cases st <;> simp [Seat.release_lock]

theorem confirm_booking_twice (s : Seat) :
    s.confirm_booking.confirm_booking = s.confirm_booking := by
  simp [Seat.confirm_booking]

theorem try_lock_seat_twice (s : Seat) :
    ((s.try_lock_seat).2.try_lock_seat).2 = (s.try_lock_seat).2 := by
  obtain ⟨r, c, t, st, p⟩ := s
  cases st <;> simp [Seat.try_lock_seat]

theorem set_eq_update_seat (seats : List Seat) (i : Nat) (s : Seat) (f : Seat → Seat)
    (h : seats[i]? = some s) : seats.set i (f s) = update_seat seats i f := by
  simp [update_seat, h]

theorem set_same (seats : List Seat) (i : Nat) (s : Seat) (h : seats[i]? = some s) :
    seats.set i s = seats := by
  apply List.ext_getElem?
  intro j
  have hlt : i < seats.length := (List.getElem?_eq_some.mp h).1
  by_cases hj : i = j
  · subst hj; simp [List.getElem?_set, hlt, h]
  · simp [List.getElem?_set, hj]

theorem seat_at_eq_some (seats : List Seat) (idx : Int) (s : Seat) :
    seat_at seats idx = some s ↔ 0 ≤ idx ∧ seats[idx.toNat]? = some s := by
  unfold seat_at
  by_cases h : 0 ≤ idx <;> simp [h]

theorem seat_at_of_in_range (sh : Show) (idx : Int) (h : in_range sh idx) :
    ∃ s, seat_at sh.seats idx = some s := by
  obtain ⟨h0, h1⟩ := h
  have hlt : idx.toNat < sh.seats.length := by omega
  exact ⟨sh.seats[idx.toNat], by simp [seat_at, h0, hlt]⟩

/-! ## The locking loop, one iteration at a time -/

theorem lock_effect_twice (s : Seat) : lock_effect (lock_effect s) = lock_effect s :=
  try_lock_seat_twice s

theorem lock_loop_cons_none (seats : List Seat) (locked : List Nat) (tr : List Event)
    (idx : Int) (rest : List Int) (h : seat_at seats idx = none) :
    lock_loop seats locked tr (idx :: rest)
      = ⟨LockOutcome.out_of_range, seats, locked, tr⟩ := by
  simp [lock_loop, h]

theorem lock_loop_cons_available (seats : List Seat) (locked : List Nat)
    (tr : List Event) (idx : Int) (rest : List Int) (s : Seat)
    (h : seat_at seats idx = some s) (ha : s.status = SeatStatus.AVAILABLE) :
    lock_loop seats locked tr (idx :: rest)
      = lock_loop (update_seat seats idx.toNat lock_effect) (locked ++ [idx.toNat])
          (tr ++ [Event.try_lock idx.toNat true]) rest := by
  have hs : seats[idx.toNat]? = some s := ((seat_at_eq_some seats idx s).mp h).2
  have h1 : (s.try_lock_seat).1 = true := by simp [Seat.try_lock_seat, ha]
  rw [← set_eq_update_seat seats idx.toNat s lock_effect hs]
  simp [lock_loop, h, h1, lock_effect]

theorem lock_loop_cons_taken (seats : List Seat) (locked : List Nat)
    (tr : List Event) (idx : Int) (rest : List Int) (s : Seat)
    (h : seat_at seats idx = some s) (ha : s.status ≠ SeatStatus.AVAILABLE) :
    lock_loop seats locked tr (idx :: rest)
      = ⟨LockOutcome.lock_failed, for_each_seat seats locked Seat.release_lock, locked,
          tr ++ [Event.try_lock idx.toNat false] ++ locked.map Event.release⟩ := by
  have hs : seats[idx.toNat]? = some s := ((seat_at_eq_some seats idx s).mp h).2
  have h1 : (s.try_lock_seat).1 = false := by simp [Seat.try_lock_seat, ha]
  have h2 : (s.try_lock_seat).2 = s := by simp [Seat.try_lock_seat, ha]
  simp [lock_loop, h, h1, h2, set_same seats idx.toNat s hs]

/-- Position `j` of the heap after `try_lock_seat` succeeded on the `AVAILABLE`
seat `s` at position `i`. -/
theorem getElem?_after_lock (seats : List Seat) (i j : Nat) (s : Seat)
    (hs : seats[i]? = some s) :
    (update_seat seats i lock_effect)[j]?
      = if j = i then some (lock_effect s) else seats[j]? := by
  rw [getElem?_update_seat]
  by_cases hj : j = i
  · subst hj; simp [hs]
  · simp [hj]

theorem lock_effect_available (s : Seat) (ha : s.status = SeatStatus.AVAILABLE) :
    lock_effect s = { s with status := SeatStatus.LOCKED } := by
  simp [lock_effect, Seat.try_lock_seat, ha]

theorem release_lock_lock_effect (s : Seat) (ha : s.status = SeatStatus.AVAILABLE) :
    (lock_effect s).release_lock = s := by
  obtain ⟨r, c, t, st, p⟩ := s
  simp at ha
  subst ha
  simp [lock_effect, Seat.try_lock_seat, Seat.release_lock]

theorem release_lock_of_not_locked (s : Seat) (h : s.status ≠ SeatStatus.LOCKED) :
    s.release_lock = s := by
  simp [Seat.release_lock, h]

/-- Rolling back after one more successful lock undoes that lock as well. -/
theorem release_after_lock (seats : List Seat) (locked : List Nat) (i : Nat) (s : Seat)
    (hs : seats[i]? = some s) (ha : s.status = SeatStatus.AVAILABLE) :
    for_each_seat (update_seat seats i lock_effect) (locked ++ [i]) Seat.release_lock
      = for_each_seat seats locked Seat.release_lock := by
  apply List.ext_getElem?
  intro j
  rw [getElem?_for_each_seat _ release_lock_twice, getElem?_for_each_seat _ release_lock_twice,
    getElem?_after_lock seats i j s hs]
  by_cases hj : j = i
  · subst hj
    have hna : s.status ≠ SeatStatus.LOCKED := by rw [ha]; decide
    simp [hs, release_lock_lock_effect s ha, release_lock_of_not_locked s hna]
  · simp [hj]

/-- When the loop ends on a failed `try_lock_seat`, the heap is the one the
loop started from with `release_lock` run on the seats already in
`locked_seats`. -/
theorem lock_loop_failed_seats (req : List Int) :
    ∀ (seats : List Seat) (locked : List Nat) (tr : List Event),
      (lock_loop seats locked tr req).outcome = LockOutcome.lock_failed →
      (lock_loop seats locked tr req).seats
        = for_each_seat seats locked Seat.release_lock := by
  induction req with
  | nil => intro seats locked tr h; simp [lock_loop] at h
  | cons idx rest ih =>
    intro seats locked tr h
    cases hsa : seat_at seats idx with
    | none => rw [lock_loop_cons_none _ _ _ _ _ hsa] at h; simp at h
    | some s =>
      have hs : seats[idx.toNat]? = some s := ((seat_at_eq_some seats idx s).mp hsa).2
      by_cases ha : s.status = SeatStatus.AVAILABLE
      · rw [lock_loop_cons_available _ _ _ _ _ s hsa ha] at h ⊢
        rw [ih _ _ _ h, release_after_lock seats locked idx.toNat s hs ha]
      · rw [lock_loop_cons_taken _ _ _ _ _ s hsa ha]

theorem lock_loop_length (req : List Int) :
    ∀ (seats : List Seat) (locked : List Nat) (tr : List Event),
      (lock_loop seats locked tr req).seats.length = seats.length := by
  induction req with
  | nil => intro seats locked tr; simp [lock_loop]
  | cons idx rest ih =>
    intro seats locked tr
    cases hsa : seat_at seats idx with
    | none => rw [lock_loop_cons_none _ _ _ _ _ hsa]
    | some s =>
      by_cases ha : s.status = SeatStatus.AVAILABLE
      · rw [lock_loop_cons_available _ _ _ _ _ s hsa ha, ih, length_update_seat]
      · rw [lock_loop_cons_taken _ _ _ _ _ s hsa ha]
        simp [length_for_each_seat]

/-! ## The locking loop as a whole -/

/-- Looking up index `k` after `try_lock_seat` succeeded at index `idx`. -/
theorem seat_at_after_lock (seats : List Seat) (idx k : Int) (s : Seat)
    (h : seat_at seats idx = some s) :
    seat_at (update_seat seats idx.toNat lock_effect) k
      = if k = idx then some (lock_effect s) else seat_at seats k := by
  obtain ⟨h0, hs⟩ := (seat_at_eq_some seats idx s).mp h
  by_cases hk : 0 ≤ k
  · have hiff : k.toNat = idx.toNat ↔ k = idx := by omega
    simp only [seat_at, hk, if_true]
    rw [getElem?_after_lock seats idx.toNat k.toNat s hs]
    by_cases hki : k = idx
    · simp [hki]
    · have hne : ¬ k.toNat = idx.toNat := fun e => hki (hiff.mp e)
      simp [hki, hne]
  · have hki : k ≠ idx := by omega
    simp [seat_at, hk, hki]

theorem lock_effect_status_ne_available (s : Seat) :
    (lock_effect s).status ≠ SeatStatus.AVAILABLE := by
  obtain ⟨r, c, t, st, p⟩ := s
  cases st <;> simp [lock_effect, Seat.try_lock_seat]

/-- The loop locks every requested seat exactly when no index is repeated and
every index denotes an `AVAILABLE` seat. -/
theorem lock_loop_all_locked_iff (req : List Int) :
    ∀ (seats : List Seat) (locked : List Nat) (tr : List Event),
      (lock_loop seats locked tr req).outcome = LockOutcome.all_locked
        ↔ req.Nodup ∧ all_available seats req := by
  induction req with
  | nil => intro seats locked tr; simp [lock_loop, all_available]
  | cons idx rest ih =>
    intro seats locked tr
    cases hsa : seat_at seats idx with
    | none =>
      rw [lock_loop_cons_none _ _ _ _ _ hsa]
      constructor
      · intro h; simp at h
      · rintro ⟨-, hav⟩
        obtain ⟨s, hs, -⟩ := hav idx (List.mem_cons_self _ _)
        rw [hsa] at hs; simp at hs
    | some s =>
      by_cases ha : s.status = SeatStatus.AVAILABLE
      · rw [lock_loop_cons_available _ _ _ _ _ s hsa ha, ih]
        constructor
        · rintro ⟨hnd, hav⟩
          have hnot : idx ∉ rest := by
            intro hmem
            obtain ⟨s2, hs2, ha2⟩ := hav idx hmem
            rw [seat_at_after_lock seats idx idx s hsa] at hs2
            simp at hs2
            exact lock_effect_status_ne_available s (hs2 ▸ ha2)
          refine ⟨List.nodup_cons.mpr ⟨hnot, hnd⟩, ?_⟩
          intro k hk
          rcases List.mem_cons.mp hk with rfl | hk
          · exact ⟨s, hsa, ha⟩
          · obtain ⟨s2, hs2, ha2⟩ := hav k hk
            have hne : k ≠ idx := fun e => hnot (e ▸ hk)
            rw [seat_at_after_lock seats idx k s hsa] at hs2
            simp [hne] at hs2
            exact ⟨s2, hs2, ha2⟩
        · rintro ⟨hnd, hav⟩
          obtain ⟨hnot, hnd2⟩ := List.nodup_cons.mp hnd
          refine ⟨hnd2, ?_⟩
          intro k hk
          have hne : k ≠ idx := fun e => hnot (e ▸ hk)
          obtain ⟨s2, hs2, ha2⟩ := hav k (List.mem_cons_of_mem _ hk)
          refine ⟨s2, ?_, ha2⟩
          rw [seat_at_after_lock seats idx k s hsa]
          simp [hne, hs2]
      · rw [lock_loop_cons_taken _ _ _ _ _ s hsa ha]
        constructor
        · intro h; simp at h
        · rintro ⟨-, hav⟩
          obtain ⟨s2, hs2, ha2⟩ := hav idx (List.mem_cons_self _ _)
          rw [hsa] at hs2
          simp at hs2
          exact absurd (hs2 ▸ ha2) ha

/-- What the loop leaves when it locked every requested seat: the requested
positions appended to `locked_seats` in request order, `try_lock_seat` run on
each of them, and one successful lock event per request. -/
theorem lock_loop_all_locked_result (req : List Int) :
    ∀ (seats : List Seat) (locked : List Nat) (tr : List Event),
      (lock_loop seats locked tr req).outcome = LockOutcome.all_locked →
      (lock_loop seats locked tr req).locked_seats = locked ++ req.map Int.toNat ∧
      (lock_loop seats locked tr req).seats
        = for_each_seat seats (req.map Int.toNat) lock_effect ∧
      (lock_loop seats locked tr req).trace
        = tr ++ req.map (fun idx => Event.try_lock idx.toNat true) := by
  induction req with
  | nil => intro seats locked tr _; simp [lock_loop, for_each_seat]
  | cons idx rest ih =>
    intro seats locked tr h
    cases hsa : seat_at seats idx with
    | none => rw [lock_loop_cons_none _ _ _ _ _ hsa] at h; simp at h
    | some s =>
      by_cases ha : s.status = SeatStatus.AVAILABLE
      · rw [lock_loop_cons_available _ _ _ _ _ s hsa ha] at h ⊢
        obtain ⟨h1, h2, h3⟩ := ih _ _ _ h
        refine ⟨?_, ?_, ?_⟩
        · rw [h1]; simp
        · rw [h2, List.map_cons, for_each_seat_cons]
        · rw [h3]; simp
      · rw [lock_loop_cons_taken _ _ _ _ _ s hsa ha] at h; simp at h

/-- A `BOOKED` seat is not touched by the locking loop, however it ends. -/
theorem lock_loop_booked_unchanged (req : List Int) :
    ∀ (seats : List Seat) (locked : List Nat) (tr : List Event) (j : Nat) (s : Seat),
      seats[j]? = some s → s.status = SeatStatus.BOOKED →
      (lock_loop seats locked tr req).seats[j]? = some s := by
  induction req with
  | nil => intro seats locked tr j s hj _; simpa [lock_loop] using hj
  | cons idx rest ih =>
    intro seats locked tr j s hj hb
    cases hsa : seat_at seats idx with
    | none => rw [lock_loop_cons_none _ _ _ _ _ hsa]; exact hj
    | some s0 =>
      have hs0 : seats[idx.toNat]? = some s0 := ((seat_at_eq_some seats idx s0).mp hsa).2
      by_cases ha : s0.status = SeatStatus.AVAILABLE
      · rw [lock_loop_cons_available _ _ _ _ _ s0 hsa ha]
        apply ih _ _ _ j s _ hb
        rw [getElem?_after_lock seats idx.toNat j s0 hs0]
        have hne : j ≠ idx.toNat := by
          intro e
          rw [e, hs0] at hj
          simp at hj
          rw [hj, hb] at ha
          exact absurd ha (by decide)
        simp [hne, hj]
      · rw [lock_loop_cons_taken _ _ _ _ _ s0 hsa ha]
        show (for_each_seat seats locked Seat.release_lock)[j]? = some s
        rw [getElem?_for_each_seat _ release_lock_twice, hj]
        have hr : s.release_lock = s :=
          release_lock_of_not_locked s (by rw [hb]; decide)
        by_cases hm : j ∈ locked <;> simp [hm, hr]

/-- A failed `try_lock_seat` in the trace means the loop ended in the rollback
branch. -/
theorem lock_loop_failed_of_trace (req : List Int) :
    ∀ (seats : List Seat) (locked : List Nat) (tr : List Event),
      (∀ i, Event.try_lock i false ∉ tr) →
      (∃ i, Event.try_lock i false ∈ (lock_loop seats locked tr req).trace) →
      (lock_loop seats locked tr req).outcome = LockOutcome.lock_failed := by
  induction req with
  | nil =>
    intro seats locked tr h0 h
    obtain ⟨i, hi⟩ := h
    exact absurd (by simpa [lock_loop] using hi) (h0 i)
  | cons idx rest ih =>
    intro seats locked tr h0 h
    cases hsa : seat_at seats idx with
    | none =>
      rw [lock_loop_cons_none _ _ _ _ _ hsa] at h
      obtain ⟨i, hi⟩ := h
      exact absurd hi (h0 i)
    | some s =>
      by_cases ha : s.status = SeatStatus.AVAILABLE
      · rw [lock_loop_cons_available _ _ _ _ _ s hsa ha] at h ⊢
        apply ih _ _ _ _ h
        intro i hi
        rcases List.mem_append.mp hi with hi | hi
        · exact h0 i hi
        · simp at hi
      · rw [lock_loop_cons_taken _ _ _ _ _ s hsa ha]

/-- Every seat the loop locked (a successful `try_lock_seat` in the trace) was
`AVAILABLE` when the loop started. -/
theorem lock_loop_locked_was_available (req : List Int) :
    ∀ (seats : List Seat) (locked : List Nat) (tr : List Event) (i : Nat),
      Event.try_lock i true ∈ (lock_loop seats locked tr req).trace →
      Event.try_lock i true ∈ tr ∨ status_at seats i = some SeatStatus.AVAILABLE := by
  induction req with
  | nil => intro seats locked tr i h; left; simpa [lock_loop] using h
  | cons idx rest ih =>
    intro seats locked tr i h
    cases hsa : seat_at seats idx with
    | none => rw [lock_loop_cons_none _ _ _ _ _ hsa] at h; exact Or.inl h
    | some s =>
      have hs : seats[idx.toNat]? = some s := ((seat_at_eq_some seats idx s).mp hsa).2
      by_cases ha : s.status = SeatStatus.AVAILABLE
      · rw [lock_loop_cons_available _ _ _ _ _ s hsa ha] at h
        rcases ih _ _ _ i h with h1 | h1
        · rcases List.mem_append.mp h1 with h2 | h2
          · exact Or.inl h2
          · right
            simp at h2
            subst h2
            simp [status_at, hs, ha]
        · right
          unfold status_at at h1 ⊢
          rw [getElem?_after_lock seats idx.toNat i s hs] at h1
          by_cases hi : i = idx.toNat
          · subst hi
            simp at h1
            exact absurd h1 (lock_effect_status_ne_available s)
          · simpa [hi] using h1
      · rw [lock_loop_cons_taken _ _ _ _ _ s hsa ha] at h
        left
        simp at h
        exact h

/-! ## `create_booking`, by the way the locking loop ended -/

theorem create_booking_of_out_of_range (mgr : BookingManager) (user : String) (sh : Show)
    (req : List Int) (payment : IPaymentStrategy)
    (h : (lock_loop sh.seats [] [] req).outcome = LockOutcome.out_of_range) :
    create_booking mgr user sh req payment
      = ⟨Outcome.undefined, { sh with seats := (lock_loop sh.seats [] [] req).seats }, mgr,
          (lock_loop sh.seats [] [] req).trace⟩ := by
  simp [create_booking, h]

theorem create_booking_of_lock_failed (mgr : BookingManager) (user : String) (sh : Show)
    (req : List Int) (payment : IPaymentStrategy)
    (h : (lock_loop sh.seats [] [] req).outcome = LockOutcome.lock_failed) :
    create_booking mgr user sh req payment
      = ⟨Outcome.null, sh, mgr, (lock_loop sh.seats [] [] req).trace⟩ := by
  have hs := lock_loop_failed_seats req sh.seats [] [] h
  simp only [for_each_seat, List.foldl_nil] at hs
  simp [create_booking, h, hs]

theorem create_booking_of_threw (mgr : BookingManager) (user : String) (sh : Show)
    (req : List Int) (payment : IPaymentStrategy)
    (h : (lock_loop sh.seats [] [] req).outcome = LockOutcome.all_locked)
    (hp : payment (total_price (lock_loop sh.seats [] [] req).seats
      (lock_loop sh.seats [] [] req).locked_seats) = PayResult.threw) :
    create_booking mgr user sh req payment
      = ⟨Outcome.exception, { sh with seats := (lock_loop sh.seats [] [] req).seats }, mgr,
          (lock_loop sh.seats [] [] req).trace
            ++ [Event.pay (total_price (lock_loop sh.seats [] [] req).seats
                  (lock_loop sh.seats [] [] req).locked_seats) PayResult.threw]⟩ := by
  simp [create_booking, h, hp]

theorem create_booking_of_declined (mgr : BookingManager) (user : String) (sh : Show)
    (req : List Int) (payment : IPaymentStrategy)
    (h : (lock_loop sh.seats [] [] req).outcome = LockOutcome.all_locked)
    (hp : payment (total_price (lock_loop sh.seats [] [] req).seats
      (lock_loop sh.seats [] [] req).locked_seats) = PayResult.returned false) :
    create_booking mgr user sh req payment
      = ⟨Outcome.null,
          { sh with
            seats :=
              for_each_seat (lock_loop sh.seats [] [] req).seats
                (lock_loop sh.seats [] [] req).locked_seats Seat.release_lock },
          mgr,
          (lock_loop sh.seats [] [] req).trace
            ++ [Event.pay (total_price (lock_loop sh.seats [] [] req).seats
                  (lock_loop sh.seats [] [] req).locked_seats) (PayResult.returned false)]
            ++ (lock_loop sh.seats [] [] req).locked_seats.map Event.release⟩ := by
  simp [create_booking, h, hp]

theorem create_booking_of_paid (mgr : BookingManager) (user : String) (sh : Show)
    (req : List Int) (payment : IPaymentStrategy)
    (h : (lock_loop sh.seats [] [] req).outcome = LockOutcome.all_locked)
    (hp : payment (total_price (lock_loop sh.seats [] [] req).seats
      (lock_loop sh.seats [] [] req).locked_seats) = PayResult.returned true) :
    create_booking mgr user sh req payment
      = ⟨Outcome.booking
            { booking_id := mgr.next_booking_id
              user_name := user
              booked_seats := (lock_loop sh.seats [] [] req).locked_seats
              total_price := total_price (lock_loop sh.seats [] [] req).seats
                (lock_loop sh.seats [] [] req).locked_seats
              status := BookingStatus.CONFIRMED },
          { sh with
            seats :=
              for_each_seat (lock_loop sh.seats [] [] req).seats
                (lock_loop sh.seats [] [] req).locked_seats Seat.confirm_booking },
          { next_booking_id := wrapInt32 (mgr.next_booking_id + 1) },
          (lock_loop sh.seats [] [] req).trace
            ++ [Event.pay (total_price (lock_loop sh.seats [] [] req).seats
                  (lock_loop sh.seats [] [] req).locked_seats) (PayResult.returned true)]
            ++ (lock_loop sh.seats [] [] req).locked_seats.map Event.confirm⟩ := by
  simp [create_booking, h, hp]

/-- The `try_lock_seat` events of a call are those of its locking loop. -/
theorem create_booking_try_lock_mem (mgr : BookingManager) (user : String) (sh : Show)
    (req : List Int) (payment : IPaymentStrategy) (i : Nat) (b : Bool) :
    Event.try_lock i b ∈ (create_booking mgr user sh req payment).trace
      ↔ Event.try_lock i b ∈ (lock_loop sh.seats [] [] req).trace := by
  cases h : (lock_loop sh.seats [] [] req).outcome with
  | out_of_range => rw [create_booking_of_out_of_range _ _ _ _ _ h]
  | lock_failed => rw [create_booking_of_lock_failed _ _ _ _ _ h]
  | all_locked =>
    cases hp : payment (total_price (lock_loop sh.seats [] [] req).seats
        (lock_loop sh.seats [] [] req).locked_seats) with
    | threw => rw [create_booking_of_threw _ _ _ _ _ h hp]; simp
    | returned ok =>
      cases ok with
      | false => rw [create_booking_of_declined _ _ _ _ _ h hp]; simp
      | true => rw [create_booking_of_paid _ _ _ _ _ h hp]; simp

/-- The amount charged depends on the heap only through the prices. -/
theorem total_price_congr (seats1 seats2 : List Seat)
    (h : ∀ i : Nat, (seats1[i]?).map Seat.price = (seats2[i]?).map Seat.price)
    (locked : List Nat) : total_price seats1 locked = total_price seats2 locked := by
  unfold total_price
  have hstep :
      (fun (total : Int) (i : Nat) =>
        match seats1[i]? with
        | some s => wrapInt32 (total + s.price)
        | none => total)
      = (fun (total : Int) (i : Nat) =>
        match seats2[i]? with
        | some s => wrapInt32 (total + s.price)
        | none => total) := by
    funext total i
    have hi := h i
    cases h1 : seats1[i]? <;> cases h2 : seats2[i]? <;> simp [h1, h2] at hi ⊢
    rw [hi]
  rw [hstep]

theorem lock_effect_price (s : Seat) : (lock_effect s).price = s.price := by
  obtain ⟨r, c, t, st, p⟩ := s
  cases st <;> simp [lock_effect, Seat.try_lock_seat]

theorem total_price_after_locks (seats : List Seat) (l locked : List Nat) :
    total_price (for_each_seat seats l lock_effect) locked = total_price seats locked := by
  apply total_price_congr
  intro i
  rw [getElem?_for_each_seat _ lock_effect_twice]
  by_cases hi : i ∈ l
  · cases hs : seats[i]? <;> simp [hi, lock_effect_price]
  · simp [hi]

/-- In-range indices whose seats are `AVAILABLE`, in the form the loop lemmas
use. -/
theorem all_available_of_status (sh : Show) (req : List Int)
    (hr : ∀ idx ∈ req, in_range sh idx)
    (hav : ∀ idx ∈ req, status_at sh.seats idx.toNat = some SeatStatus.AVAILABLE) :
    all_available sh.seats req := by
  intro idx hidx
  obtain ⟨s, hs⟩ := seat_at_of_in_range sh idx (hr idx hidx)
  refine ⟨s, hs, ?_⟩
  have h2 := ((seat_at_eq_some sh.seats idx s).mp hs).2
  have h3 := hav idx hidx
  simpa [status_at, h2] using h3

/-! ## One call: what it does to booked seats and what a booking holds -/

theorem confirm_booking_of_booked (s : Seat) (h : s.status = SeatStatus.BOOKED) :
    s.confirm_booking = s := by
  obtain ⟨r, c, t, st, p⟩ := s
  simp at h
  subst h
  rfl

theorem lock_effect_of_booked (s : Seat) (h : s.status = SeatStatus.BOOKED) :
    lock_effect s = s := by
  simp [lock_effect, Seat.try_lock_seat, h]

theorem for_each_seat_fixed (f : Seat → Seat) (hf : ∀ s, f (f s) = f s)
    (seats : List Seat) (locked : List Nat) (j : Nat) (s : Seat)
    (hj : seats[j]? = some s) (hs : f s = s) :
    (for_each_seat seats locked f)[j]? = some s := by
  rw [getElem?_for_each_seat f hf, hj]
  by_cases hm : j ∈ locked <;> simp [hm, hs]

/-- A seat that is `BOOKED` before a `create_booking` call is the same seat
after it, whatever the request, the payment and the way the call ends. -/
theorem create_booking_booked_unchanged (mgr : BookingManager) (user : String) (sh : Show)
    (req : List Int) (payment : IPaymentStrategy) (j : Nat) (s : Seat)
    (hj : sh.seats[j]? = some s) (hb : s.status = SeatStatus.BOOKED) :
    (create_booking mgr user sh req payment).show_after.seats[j]? = some s := by
  have hloop := lock_loop_booked_unchanged req sh.seats [] [] j s hj hb
  cases h : (lock_loop sh.seats [] [] req).outcome with
  | out_of_range => rw [create_booking_of_out_of_range _ _ _ _ _ h]; exact hloop
  | lock_failed => rw [create_booking_of_lock_failed _ _ _ _ _ h]; exact hj
  | all_locked =>
    cases hp : payment (total_price (lock_loop sh.seats [] [] req).seats
        (lock_loop sh.seats [] [] req).locked_seats) with
    | threw => rw [create_booking_of_threw _ _ _ _ _ h hp]; exact hloop
    | returned ok =>
      cases ok with
      | false =>
        rw [create_booking_of_declined _ _ _ _ _ h hp]
        exact for_each_seat_fixed _ release_lock_twice _ _ j s hloop
          (release_lock_of_not_locked s (by rw [hb]; decide))
      | true =>
        rw [create_booking_of_paid _ _ _ _ _ h hp]
        exact for_each_seat_fixed _ confirm_booking_twice _ _ j s hloop
          (confirm_booking_of_booked s hb)

/-- The number of seats of a show never changes. -/
theorem create_booking_length (mgr : BookingManager) (user : String) (sh : Show)
    (req : List Int) (payment : IPaymentStrategy) :
    (create_booking mgr user sh req payment).show_after.seats.length = sh.seats.length := by
  have hloop := lock_loop_length req sh.seats [] []
  cases h : (lock_loop sh.seats [] [] req).outcome with
  | out_of_range => rw [create_booking_of_out_of_range _ _ _ _ _ h]; exact hloop
  | lock_failed => rw [create_booking_of_lock_failed _ _ _ _ _ h]
  | all_locked =>
    cases hp : payment (total_price (lock_loop sh.seats [] [] req).seats
        (lock_loop sh.seats [] [] req).locked_seats) with
    | threw => rw [create_booking_of_threw _ _ _ _ _ h hp]; exact hloop
    | returned ok =>
      cases ok with
      | false =>
        rw [create_booking_of_declined _ _ _ _ _ h hp]
        simp [length_for_each_seat, hloop]
      | true =>
        rw [create_booking_of_paid _ _ _ _ _ h hp]
        simp [length_for_each_seat, hloop]

/-- A booking is returned only from the branch in which every lock succeeded
and `pay` returned true, and it holds the locked seats. -/
theorem create_booking_booking_inv (mgr : BookingManager) (user : String) (sh : Show)
    (req : List Int) (payment : IPaymentStrategy) (b : Booking)
    (hb : (create_booking mgr user sh req payment).outcome = Outcome.booking b) :
    (lock_loop sh.seats [] [] req).outcome = LockOutcome.all_locked ∧
    payment (total_price (lock_loop sh.seats [] [] req).seats
      (lock_loop sh.seats [] [] req).locked_seats) = PayResult.returned true ∧
    b.booked_seats = (lock_loop sh.seats [] [] req).locked_seats := by
  cases h : (lock_loop sh.seats [] [] req).outcome with
  | out_of_range => rw [create_booking_of_out_of_range _ _ _ _ _ h] at hb; simp at hb
  | lock_failed => rw [create_booking_of_lock_failed _ _ _ _ _ h] at hb; simp at hb
  | all_locked =>
    cases hp : payment (total_price (lock_loop sh.seats [] [] req).seats
        (lock_loop sh.seats [] [] req).locked_seats) with
    | threw => rw [create_booking_of_threw _ _ _ _ _ h hp] at hb; simp at hb
    | returned ok =>
      cases ok with
      | false => rw [create_booking_of_declined _ _ _ _ _ h hp] at hb; simp at hb
      | true =>
        rw [create_booking_of_paid _ _ _ _ _ h hp] at hb
        simp at hb
        refine ⟨rfl, rfl, ?_⟩
        rw [← hb]

/-- The seats of a returned booking are pairwise different, were `AVAILABLE`
before the call and are `BOOKED` after it. -/
theorem create_booking_booking_seats (mgr : BookingManager) (user : String) (sh : Show)
    (req : List Int) (payment : IPaymentStrategy) (b : Booking)
    (hb : (create_booking mgr user sh req payment).outcome = Outcome.booking b) :
    b.booked_seats.Nodup ∧
    ∀ i ∈ b.booked_seats,
      status_at sh.seats i = some SeatStatus.AVAILABLE ∧
      status_at (create_booking mgr user sh req payment).show_after.seats i
        = some SeatStatus.BOOKED := by
  obtain ⟨hall, hp, hseats⟩ := create_booking_booking_inv mgr user sh req payment b hb
  obtain ⟨hnd, hav⟩ := (lock_loop_all_locked_iff req sh.seats [] []).mp hall
  obtain ⟨h1, h2, -⟩ := lock_loop_all_locked_result req sh.seats [] [] hall
  rw [List.nil_append] at h1
  have h0 : ∀ idx ∈ req, 0 ≤ idx := by
    intro idx hidx
    obtain ⟨s, hs, -⟩ := hav idx hidx
    exact ((seat_at_eq_some sh.seats idx s).mp hs).1
  rw [hseats, h1]
  constructor
  · apply List.Nodup.map_on _ hnd
    intro x hx y hy hxy
    have := h0 x hx
    have := h0 y hy
    omega
  · intro i hi
    obtain ⟨idx, hidx, rfl⟩ := List.mem_map.mp hi
    obtain ⟨s, hs, ha⟩ := hav idx hidx
    have hs2 := ((seat_at_eq_some sh.seats idx s).mp hs).2
    constructor
    · simp [status_at, hs2, ha]
    · rw [create_booking_of_paid _ _ _ _ _ hall hp]
      unfold status_at
      simp only [h1, h2]
      rw [getElem?_for_each_seat _ confirm_booking_twice,
        getElem?_for_each_seat _ lock_effect_twice]
      simp [hi, hs2, Seat.confirm_booking]

/-! ## Sequences of calls -/

theorem status_at_eq_some (seats : List Seat) (i : Nat) (st : SeatStatus) :
    status_at seats i = some st ↔ ∃ s, seats[i]? = some s ∧ s.status = st := by
  unfold status_at
  cases seats[i]? <;> simp

theorem status_at_lt_length (seats : List Seat) (i : Nat) (st : SeatStatus)
    (h : status_at seats i = some st) : i < seats.length := by
  obtain ⟨s, hs, -⟩ := (status_at_eq_some seats i st).mp h
  exact (List.getElem?_eq_some.mp hs).1

theorem step_booked_unchanged (st : System) (c : Call) (j : Nat) (s : Seat)
    (hj : st.show_now.seats[j]? = some s) (hb : s.status = SeatStatus.BOOKED) :
    (st.step c).show_now.seats[j]? = some s :=
  create_booking_booked_unchanged st.manager c.user st.show_now c.seat_indices c.payment
    j s hj hb

theorem step_length (st : System) (c : Call) :
    (st.step c).show_now.seats.length = st.show_now.seats.length :=
  create_booking_length st.manager c.user st.show_now c.seat_indices c.payment

theorem step_status_booked (st : System) (c : Call) (j : Nat)
    (h : status_at st.show_now.seats j = some SeatStatus.BOOKED) :
    status_at (st.step c).show_now.seats j = some SeatStatus.BOOKED := by
  obtain ⟨s, hs, hb⟩ := (status_at_eq_some _ _ _).mp h
  exact (status_at_eq_some _ _ _).mpr ⟨s, step_booked_unchanged st c j s hs hb, hb⟩

/-- One more call keeps the invariant: a new booking holds only seats that
were `AVAILABLE`, hence held by no earlier booking. -/
theorem step_sound (st : System) (c : Call) (h : st.sound) : (st.step c).sound := by
  obtain ⟨hnd, hbk⟩ := h
  cases ho : (create_booking st.manager c.user st.show_now c.seat_indices c.payment).outcome with
  | booking b =>
    obtain ⟨hbn, hbs⟩ :=
      create_booking_booking_seats st.manager c.user st.show_now c.seat_indices c.payment b ho
    have hbooked : (st.step c).booked = st.booked ++ b.booked_seats := by
      simp [System.booked, System.step, ho]
    constructor
    · rw [hbooked]
      refine List.nodup_append.mpr ⟨hnd, hbn, ?_⟩
      intro i hi1 hi2
      have h1 := hbk i hi1
      have h2 := (hbs i hi2).1
      rw [h1] at h2
      exact absurd h2 (by decide)
    · intro i hi
      rw [hbooked] at hi
      rcases List.mem_append.mp hi with hi | hi
      · exact step_status_booked st c i (hbk i hi)
      · exact (hbs i hi).2
  | null =>
    have hbooked : (st.step c).booked = st.booked := by
      simp [System.booked, System.step, ho]
    exact ⟨hbooked ▸ hnd, fun i hi => step_status_booked st c i (hbk i (hbooked ▸ hi))⟩
  | exception =>
    have hbooked : (st.step c).booked = st.booked := by
      simp [System.booked, System.step, ho]
    exact ⟨hbooked ▸ hnd, fun i hi => step_status_booked st c i (hbk i (hbooked ▸ hi))⟩
  | undefined =>
    have hbooked : (st.step c).booked = st.booked := by
      simp [System.booked, System.step, ho]
    exact ⟨hbooked ▸ hnd, fun i hi => step_status_booked st c i (hbk i (hbooked ▸ hi))⟩

theorem run_calls_sound (calls : List Call) :
    ∀ st : System, st.sound → (run_calls st calls).sound := by
  induction calls with
  | nil => intro st h; simpa [run_calls] using h
  | cons c rest ih =>
    intro st h
    simp only [run_calls, List.foldl_cons]
    exact ih (st.step c) (step_sound st c h)

theorem run_calls_length (calls : List Call) :
    ∀ st : System,
      (run_calls st calls).show_now.seats.length = st.show_now.seats.length := by
  induction calls with
  | nil => intro st; simp [run_calls]
  | cons c rest ih =>
    intro st
    simp only [run_calls, List.foldl_cons]
    have h := ih (st.step c)
    simp only [run_calls] at h
    rw [h, step_length]

/-- A duplicate-free list of positions below `n` has at most `n` entries. -/
theorem nodup_length_le (l : List Nat) (n : Nat) (h : l.Nodup) (hs : ∀ i ∈ l, i < n) :
    l.length ≤ n := by
  have h1 := (List.subperm_of_subset h (fun i hi => List.mem_range.mpr (hs i hi))).length_le
  simpa using h1

theorem seat_op_of_booked (op : SeatOp) (s : Seat) (h : s.status = SeatStatus.BOOKED) :
    op.apply s = s := by
  cases op
  · exact lock_effect_of_booked s h
  · exact release_lock_of_not_locked s (by rw [h]; decide)
  · exact confirm_booking_of_booked s h

theorem act_booked_unchanged (st : System) (a : Action) (j : Nat) (s : Seat)
    (hj : st.show_now.seats[j]? = some s) (hb : s.status = SeatStatus.BOOKED) :
    (st.act a).show_now.seats[j]? = some s := by
  cases a with
  | seat_op i op =>
    show (update_seat st.show_now.seats i op.apply)[j]? = some s
    rw [getElem?_update_seat, hj]
    by_cases hji : j = i <;> simp [hji, seat_op_of_booked op s hb]
  | book c => exact step_booked_unchanged st c j s hj hb

/-! ## More about the locking loop: definedness, payments, order of attempts -/

theorem pay_calls_append (t1 t2 : List Event) :
    pay_calls (t1 ++ t2) = pay_calls t1 + pay_calls t2 := by
  simp [pay_calls, List.countP_append]

theorem pay_calls_map_release (l : List Nat) : pay_calls (l.map Event.release) = 0 := by
  induction l with
  | nil => rfl
  | cons i rest ih =>
    simp only [pay_calls, List.map_cons] at ih ⊢
    rw [List.countP_cons, ih]
    rfl

theorem pay_calls_map_confirm (l : List Nat) : pay_calls (l.map Event.confirm) = 0 := by
  induction l with
  | nil => rfl
  | cons i rest ih =>
    simp only [pay_calls, List.map_cons] at ih ⊢
    rw [List.countP_cons, ih]
    rfl

theorem pay_calls_eq_zero (t : List Event) :
    pay_calls t = 0 ↔ ∀ a r, Event.pay a r ∉ t := by
  induction t with
  | nil => simp [pay_calls]
  | cons e rest ih =>
    have hc : pay_calls (e :: rest) = pay_calls rest + (if e.is_pay = true then 1 else 0) := by
      simp [pay_calls, List.countP_cons]
    rw [hc]
    cases e with
    | pay a r =>
      simp only [Event.is_pay, if_true]
      constructor
      · intro h; omega
      · intro h; exact absurd (List.mem_cons_self _ _) (h a r)
    | try_lock i b => simpa [Event.is_pay] using ih
    | release i => simpa [Event.is_pay] using ih
    | confirm i => simpa [Event.is_pay] using ih

/-- The locking loop never calls `pay`. -/
theorem lock_loop_pay_calls (req : List Int) :
    ∀ (seats : List Seat) (locked : List Nat) (tr : List Event),
      pay_calls (lock_loop seats locked tr req).trace = pay_calls tr := by
  induction req with
  | nil => intro seats locked tr; simp [lock_loop]
  | cons idx rest ih =>
    intro seats locked tr
    cases hsa : seat_at seats idx with
    | none => rw [lock_loop_cons_none _ _ _ _ _ hsa]
    | some s =>
      by_cases ha : s.status = SeatStatus.AVAILABLE
      · rw [lock_loop_cons_available _ _ _ _ _ s hsa ha, ih, pay_calls_append]
        rfl
      · rw [lock_loop_cons_taken _ _ _ _ _ s hsa ha]
        simp only [pay_calls_append, pay_calls_map_release]
        rfl

theorem seat_at_eq_none (seats : List Seat) (idx : Int) :
    seat_at seats idx = none ↔ ¬ (0 ≤ idx ∧ idx < (seats.length : Int)) := by
  unfold seat_at
  by_cases h : 0 ≤ idx
  · simp only [h, if_true, true_and, List.getElem?_eq_none_iff]
    omega
  · simp [h]

/-- With in-range indices only, the loop never reads `show->seats` out of
bounds. -/
theorem lock_loop_in_range_defined (req : List Int) :
    ∀ (seats : List Seat) (locked : List Nat) (tr : List Event),
      (∀ idx ∈ req, 0 ≤ idx ∧ idx < (seats.length : Int)) →
      (lock_loop seats locked tr req).outcome ≠ LockOutcome.out_of_range := by
  induction req with
  | nil => intro seats locked tr _; simp [lock_loop]
  | cons idx rest ih =>
    intro seats locked tr hr
    cases hsa : seat_at seats idx with
    | none =>
      exact absurd (hr idx (List.mem_cons_self _ _)) ((seat_at_eq_none seats idx).mp hsa)
    | some s =>
      by_cases ha : s.status = SeatStatus.AVAILABLE
      · rw [lock_loop_cons_available _ _ _ _ _ s hsa ha]
        apply ih
        intro k hk
        rw [length_update_seat]
        exact hr k (List.mem_cons_of_mem _ hk)
      · rw [lock_loop_cons_taken _ _ _ _ _ s hsa ha]
        simp

/-- The rollback branch is entered only by a failed `try_lock_seat`. -/
theorem lock_loop_trace_of_failed (req : List Int) :
    ∀ (seats : List Seat) (locked : List Nat) (tr : List Event),
      (lock_loop seats locked tr req).outcome = LockOutcome.lock_failed →
      ∃ i, Event.try_lock i false ∈ (lock_loop seats locked tr req).trace := by
  induction req with
  | nil => intro seats locked tr h; simp [lock_loop] at h
  | cons idx rest ih =>
    intro seats locked tr h
    cases hsa : seat_at seats idx with
    | none => rw [lock_loop_cons_none _ _ _ _ _ hsa] at h; simp at h
    | some s =>
      by_cases ha : s.status = SeatStatus.AVAILABLE
      · rw [lock_loop_cons_available _ _ _ _ _ s hsa ha] at h ⊢
        exact ih _ _ _ h
      · rw [lock_loop_cons_taken _ _ _ _ _ s hsa ha]
        exact ⟨idx.toNat, by simp⟩

/-- When every lock succeeded, every requested seat is `LOCKED` in the heap the
loop leaves (the heap in which step 2 and `pay` run). -/
theorem lock_loop_all_locked_status (req : List Int) (seats : List Seat)
    (locked : List Nat) (tr : List Event)
    (h : (lock_loop seats locked tr req).outcome = LockOutcome.all_locked) :
    ∀ idx ∈ req,
      status_at (lock_loop seats locked tr req).seats idx.toNat
        = some SeatStatus.LOCKED := by
  intro idx hidx
  obtain ⟨-, hav⟩ := (lock_loop_all_locked_iff req seats locked tr).mp h
  obtain ⟨-, h2, -⟩ := lock_loop_all_locked_result req seats locked tr h
  obtain ⟨s, hs, ha⟩ := hav idx hidx
  have hs2 := ((seat_at_eq_some seats idx s).mp hs).2
  have hm : idx.toNat ∈ req.map Int.toNat := List.mem_map.mpr ⟨idx, hidx, rfl⟩
  unfold status_at
  rw [h2, getElem?_for_each_seat _ lock_effect_twice]
  simp [hm, hs2, lock_effect_available s ha]

/-- A run of the loop over `pre ++ rest`, where `pre` lists distinct
`AVAILABLE` seats: all of `pre` is locked, then the loop goes on with `rest`. -/
theorem lock_loop_append (pre : List Int) :
    ∀ (seats : List Seat) (locked : List Nat) (tr : List Event) (rest : List Int),
      pre.Nodup → all_available seats pre →
      lock_loop seats locked tr (pre ++ rest)
        = lock_loop (for_each_seat seats (pre.map Int.toNat) lock_effect)
            (locked ++ pre.map Int.toNat)
            (tr ++ pre.map (fun idx => Event.try_lock idx.toNat true)) rest := by
  induction pre with
  | nil => intro seats locked tr rest _ _; simp [for_each_seat]
  | cons idx more ih =>
    intro seats locked tr rest hnd hav
    obtain ⟨hnot, hnd2⟩ := List.nodup_cons.mp hnd
    obtain ⟨s, hsa, ha⟩ := hav idx (List.mem_cons_self _ _)
    have hav2 : all_available (update_seat seats idx.toNat lock_effect) more := by
      intro k hk
      have hne : k ≠ idx := fun e => hnot (e ▸ hk)
      obtain ⟨s2, hs2, ha2⟩ := hav k (List.mem_cons_of_mem _ hk)
      refine ⟨s2, ?_, ha2⟩
      rw [seat_at_after_lock seats idx k s hsa]
      simp [hne, hs2]
    rw [List.cons_append, lock_loop_cons_available _ _ _ _ _ s hsa ha,
      ih _ _ _ rest hnd2 hav2, List.map_cons, for_each_seat_cons]
    simp

theorem lock_attempts_append (t1 t2 : List Event) :
    lock_attempts (t1 ++ t2) = lock_attempts t1 ++ lock_attempts t2 := by
  simp [lock_attempts, List.filterMap_append]

theorem lock_attempts_map_release (l : List Nat) :
    lock_attempts (l.map Event.release) = [] := by
  induction l with
  | nil => rfl
  | cons i rest ih =>
    simp only [lock_attempts, List.map_cons] at ih ⊢
    rw [List.filterMap_cons]
    exact ih

theorem lock_attempts_map_confirm (l : List Nat) :
    lock_attempts (l.map Event.confirm) = [] := by
  induction l with
  | nil => rfl
  | cons i rest ih =>
    simp only [lock_attempts, List.map_cons] at ih ⊢
    rw [List.filterMap_cons]
    exact ih

/-- The loop attempts locks in the order of the request list as given: the
attempts it adds are an initial segment of the request. -/
theorem lock_loop_attempts (req : List Int) :
    ∀ (seats : List Seat) (locked : List Nat) (tr : List Event),
      ∃ k, k ≤ req.length ∧
        lock_attempts (lock_loop seats locked tr req).trace
          = lock_attempts tr ++ (req.map Int.toNat).take k := by
  induction req with
  | nil => intro seats locked tr; exact ⟨0, by simp, by simp [lock_loop]⟩
  | cons idx rest ih =>
    intro seats locked tr
    cases hsa : seat_at seats idx with
    | none =>
      rw [lock_loop_cons_none _ _ _ _ _ hsa]
      exact ⟨0, by simp, by simp⟩
    | some s =>
      by_cases ha : s.status = SeatStatus.AVAILABLE
      · rw [lock_loop_cons_available _ _ _ _ _ s hsa ha]
        obtain ⟨k, hk, hk2⟩ := ih (update_seat seats idx.toNat lock_effect)
          (locked ++ [idx.toNat]) (tr ++ [Event.try_lock idx.toNat true])
        refine ⟨k + 1, by simpa using hk, ?_⟩
        rw [hk2, lock_attempts_append]
        simp [lock_attempts]
      · rw [lock_loop_cons_taken _ _ _ _ _ s hsa ha]
        refine ⟨1, by simp, ?_⟩
        simp only [lock_attempts_append, lock_attempts_map_release]
        simp [lock_attempts]

/-! ## 32-bit totals -/

theorem wrapInt32_add_wrap (x y : Int) : wrapInt32 (wrapInt32 x + y) = wrapInt32 (x + y) := by
  unfold wrapInt32
  omega

theorem wrapInt32_of_in_int32 (x : Int) (h : in_int32 x) : wrapInt32 x = x := by
  unfold in_int32 at h
  unfold wrapInt32
  omega

theorem in_int32_wrapInt32 (x : Int) : in_int32 (wrapInt32 x) := by
  unfold in_int32 wrapInt32
  omega

theorem price_sum_cons (seats : List Seat) (i : Nat) (rest : List Nat) :
    price_sum seats (i :: rest)
      = (match seats[i]? with
          | some s => s.price
          | none => 0) + price_sum seats rest := by
  simp [price_sum]

/-- The sum loop of step 2, started from any accumulator, agrees with the
exact sum up to 32-bit wrap-around. -/
theorem total_loop_wrap (seats : List Seat) (locked : List Nat) :
    ∀ acc : Int,
      wrapInt32 (locked.foldl
        (fun total i =>
          match seats[i]? with
          | some s => wrapInt32 (total + s.price)
          | none => total) acc)
        = wrapInt32 (acc + price_sum seats locked) := by
  induction locked with
  | nil => intro acc; simp [price_sum]
  | cons i rest ih =>
    intro acc
    rw [List.foldl_cons, ih, price_sum_cons]
    cases seats[i]? with
    | none => simp
    | some s =>
      simp only
      rw [wrapInt32_add_wrap, Int.add_assoc]

theorem total_loop_in_int32 (seats : List Seat) (locked : List Nat) :
    ∀ acc : Int, in_int32 acc →
      in_int32 (locked.foldl
        (fun total i =>
          match seats[i]? with
          | some s => wrapInt32 (total + s.price)
          | none => total) acc) := by
  induction locked with
  | nil => intro acc h; simpa using h
  | cons i rest ih =>
    intro acc h
    rw [List.foldl_cons]
    apply ih
    cases seats[i]? with
    | none => exact h
    | some s => exact in_int32_wrapInt32 _

/-- The total of step 2 is the exact sum of the prices reduced to the range of
`int`. -/
theorem total_price_eq_wrap_sum (seats : List Seat) (locked : List Nat) :
    total_price seats locked = wrapInt32 (price_sum seats locked) := by
  have h1 := total_loop_wrap seats locked 0
  have h2 := total_loop_in_int32 seats locked 0 (by unfold in_int32; omega)
  rw [wrapInt32_of_in_int32 _ h2, Int.zero_add] at h1
  exact h1

/-- A `pay` call recorded in the trace was made after all locks succeeded, with
the total of step 2, and its recorded result is what the strategy answered. -/
theorem create_booking_pay_mem (mgr : BookingManager) (user : String) (sh : Show)
    (req : List Int) (payment : IPaymentStrategy) (a : Int) (res : PayResult)
    (hmem : Event.pay a res ∈ (create_booking mgr user sh req payment).trace) :
    (lock_loop sh.seats [] [] req).outcome = LockOutcome.all_locked ∧
    a = total_price (lock_loop sh.seats [] [] req).seats
      (lock_loop sh.seats [] [] req).locked_seats ∧
    res = payment a := by
  have h0 : pay_calls (lock_loop sh.seats [] [] req).trace = 0 := by
    rw [lock_loop_pay_calls]; rfl
  have hno := (pay_calls_eq_zero _).mp h0
  cases h : (lock_loop sh.seats [] [] req).outcome with
  | out_of_range =>
    rw [create_booking_of_out_of_range _ _ _ _ _ h] at hmem
    exact absurd hmem (hno a res)
  | lock_failed =>
    rw [create_booking_of_lock_failed _ _ _ _ _ h] at hmem
    exact absurd hmem (hno a res)
  | all_locked =>
    refine ⟨rfl, ?_⟩
    cases hp : payment (total_price (lock_loop sh.seats [] [] req).seats
        (lock_loop sh.seats [] [] req).locked_seats) with
    | threw =>
      rw [create_booking_of_threw _ _ _ _ _ h hp] at hmem
      rcases List.mem_append.mp hmem with h1 | h1
      · exact absurd h1 (hno a res)
      · simp at h1
        obtain ⟨rfl, rfl⟩ := h1
        exact ⟨rfl, hp.symm⟩
    | returned ok =>
      cases ok with
      | false =>
        rw [create_booking_of_declined _ _ _ _ _ h hp] at hmem
        rcases List.mem_append.mp hmem with h1 | h1
        · rcases List.mem_append.mp h1 with h2 | h2
          · exact absurd h2 (hno a res)
          · simp at h2
            obtain ⟨rfl, rfl⟩ := h2
            exact ⟨rfl, hp.symm⟩
        · simp at h1
      | true =>
        rw [create_booking_of_paid _ _ _ _ _ h hp] at hmem
        rcases List.mem_append.mp hmem with h1 | h1
        · rcases List.mem_append.mp h1 with h2 | h2
          · exact absurd h2 (hno a res)
          · simp at h2
            obtain ⟨rfl, rfl⟩ := h2
            exact ⟨rfl, hp.symm⟩
        · simp at h1

/-- After all locks succeeded, the total of step 2 is the wrapped sum of the
prices the requested seats had before the call. -/
theorem total_price_of_all_locked (sh : Show) (req : List Int)
    (h : (lock_loop sh.seats [] [] req).outcome = LockOutcome.all_locked) :
    total_price (lock_loop sh.seats [] [] req).seats
      (lock_loop sh.seats [] [] req).locked_seats
      = wrapInt32 (price_sum sh.seats (req.map Int.toNat)) := by
  obtain ⟨h1, h2, -⟩ := lock_loop_all_locked_result req sh.seats [] [] h
  rw [List.nil_append] at h1
  rw [h1, h2, total_price_after_locks, total_price_eq_wrap_sum]

/-! ## Booking ids along a run -/

/-- What a call does to the manager: a returned booking takes the current
`next_booking_id`, which is then incremented; a call that returns no booking
leaves the manager alone. -/
theorem create_booking_manager (mgr : BookingManager) (user : String) (sh : Show)
    (req : List Int) (payment : IPaymentStrategy) :
    (∀ b, (create_booking mgr user sh req payment).outcome = Outcome.booking b →
      b.booking_id = mgr.next_booking_id ∧
      (create_booking mgr user sh req payment).manager
        = { next_booking_id := wrapInt32 (mgr.next_booking_id + 1) }) ∧
    ((∀ b, (create_booking mgr user sh req payment).outcome ≠ Outcome.booking b) →
      (create_booking mgr user sh req payment).manager = mgr) := by
  cases h : (lock_loop sh.seats [] [] req).outcome with
  | out_of_range => rw [create_booking_of_out_of_range _ _ _ _ _ h]; simp
  | lock_failed => rw [create_booking_of_lock_failed _ _ _ _ _ h]; simp
  | all_locked =>
    cases hp : payment (total_price (lock_loop sh.seats [] [] req).seats
        (lock_loop sh.seats [] [] req).locked_seats) with
    | threw => rw [create_booking_of_threw _ _ _ _ _ h hp]; simp
    | returned ok =>
      cases ok with
      | false => rw [create_booking_of_declined _ _ _ _ _ h hp]; simp
      | true =>
        rw [create_booking_of_paid _ _ _ _ _ h hp]
        constructor
        · intro b hb
          simp only [Outcome.booking.injEq] at hb
          rw [← hb]
          exact ⟨rfl, rfl⟩
        · intro hno
          exact absurd rfl (hno _)

/-- One more call keeps the ids in step with the counter: the `k`-th returned
booking (from 0) has id `1000 + k` wrapped to `int`. -/
theorem step_ids (st : System) (c : Call)
    (h1 : st.manager.next_booking_id = wrapInt32 (1000 + (st.bookings.length : Int)))
    (h2 : st.ids
      = (List.range st.bookings.length).map fun k : Nat => wrapInt32 (1000 + (k : Int))) :
    (st.step c).manager.next_booking_id
      = wrapInt32 (1000 + ((st.step c).bookings.length : Int)) ∧
    (st.step c).ids
      = (List.range (st.step c).bookings.length).map
          fun k : Nat => wrapInt32 (1000 + (k : Int)) := by
  obtain ⟨hb1, hb2⟩ :=
    create_booking_manager st.manager c.user st.show_now c.seat_indices c.payment
  cases ho : (create_booking st.manager c.user st.show_now c.seat_indices c.payment).outcome with
  | booking b =>
    obtain ⟨hid, hm⟩ := hb1 b ho
    have hbk : (st.step c).bookings = st.bookings ++ [b] := by
      simp [System.step, ho]
    have hmg : (st.step c).manager
        = { next_booking_id := wrapInt32 (st.manager.next_booking_id + 1) } := hm
    constructor
    · rw [hmg, hbk, h1, wrapInt32_add_wrap]
      simp only [List.length_append, List.length_singleton]
      push_cast
      rw [Int.add_assoc]
    · unfold System.ids at h2 ⊢
      rw [hbk, List.map_append, h2, List.length_append, List.length_singleton,
        List.range_succ, List.map_append]
      simp only [List.map_cons, List.map_nil]
      rw [hid, h1]
  | null =>
    have hno : ∀ b, (create_booking st.manager c.user st.show_now c.seat_indices
        c.payment).outcome ≠ Outcome.booking b := by rw [ho]; simp
    have hbk : (st.step c).bookings = st.bookings := by simp [System.step, ho]
    have hmg : (st.step c).manager = st.manager := hb2 hno
    unfold System.ids at h2 ⊢
    rw [hmg, hbk]
    exact ⟨h1, h2⟩
  | exception =>
    have hno : ∀ b, (create_booking st.manager c.user st.show_now c.seat_indices
        c.payment).outcome ≠ Outcome.booking b := by rw [ho]; simp
    have hbk : (st.step c).bookings = st.bookings := by simp [System.step, ho]
    have hmg : (st.step c).manager = st.manager := hb2 hno
    unfold System.ids at h2 ⊢
    rw [hmg, hbk]
    exact ⟨h1, h2⟩
  | undefined =>
    have hno : ∀ b, (create_booking st.manager c.user st.show_now c.seat_indices
        c.payment).outcome ≠ Outcome.booking b := by rw [ho]; simp
    have hbk : (st.step c).bookings = st.bookings := by simp [System.step, ho]
    have hmg : (st.step c).manager = st.manager := hb2 hno
    unfold System.ids at h2 ⊢
    rw [hmg, hbk]
    exact ⟨h1, h2⟩

theorem run_calls_ids (calls : List Call) :
    ∀ st : System,
      st.manager.next_booking_id = wrapInt32 (1000 + (st.bookings.length : Int)) →
      st.ids
        = (List.range st.bookings.length).map (fun k : Nat => wrapInt32 (1000 + (k : Int))) →
      (run_calls st calls).ids
        = (List.range (run_calls st calls).bookings.length).map
            fun k : Nat => wrapInt32 (1000 + (k : Int)) := by
  induction calls with
  | nil => intro st _ h2; simpa [run_calls] using h2
  | cons c rest ih =>
    intro st h1 h2
    obtain ⟨h3, h4⟩ := step_ids st c h1 h2
    simp only [run_calls, List.foldl_cons]
    exact ih (st.step c) h3 h4

/-- From a fresh manager, the `k`-th returned booking (from 0) has id
`1000 + k` wrapped to `int`. -/
theorem run_calls_ids_fresh (sh : Show) (calls : List Call) :
    (run_calls ⟨sh, BookingManager.new, []⟩ calls).ids
      = (List.range (run_calls ⟨sh, BookingManager.new, []⟩ calls).bookings.length).map
          fun k : Nat => wrapInt32 (1000 + (k : Int)) :=
  run_calls_ids calls ⟨sh, BookingManager.new, []⟩
    (by show (1000 : Int) = wrapInt32 (1000 + ((0 : Nat) : Int)); decide)
    (by simp [System.ids])

/-- An empty call with a succeeding payment always returns a booking. -/
theorem step_empty_call (st : System) :
    (st.step empty_call).bookings.length = st.bookings.length + 1 := by
  simp [System.step, empty_call, create_booking, lock_loop, CreditCardPayment]

theorem run_replicate_empty_call (n : Nat) :
    ∀ st : System,
      (run_calls st (List.replicate n empty_call)).bookings.length
        = st.bookings.length + n := by
  induction n with
  | zero => intro st; rfl
  | succ m ih =>
    intro st
    rw [List.replicate_succ]
    show (run_calls (st.step empty_call) (List.replicate m empty_call)).bookings.length = _
    rw [ih, step_empty_call]
    omega

/-! ## Rollback after a declined payment, whatever the request -/

/-- Struct eta for shows: putting the seats back gives the show back. -/
theorem show_with_seats (sh : Show) : { sh with seats := sh.seats } = sh := by
  cases sh
  rfl

/-- After all locks succeeded, releasing the locked seats restores the heap the
call started from. -/
theorem release_all_locked (sh : Show) (req : List Int)
    (h : (lock_loop sh.seats [] [] req).outcome = LockOutcome.all_locked) :
    for_each_seat (lock_loop sh.seats [] [] req).seats
      (lock_loop sh.seats [] [] req).locked_seats Seat.release_lock = sh.seats := by
  obtain ⟨-, hav⟩ := (lock_loop_all_locked_iff req sh.seats [] []).mp h
  obtain ⟨h1, h2, -⟩ := lock_loop_all_locked_result req sh.seats [] [] h
  rw [List.nil_append] at h1
  rw [h1, h2]
  apply List.ext_getElem?
  intro j
  rw [getElem?_for_each_seat _ release_lock_twice, getElem?_for_each_seat _ lock_effect_twice]
  by_cases hj : j ∈ req.map Int.toNat
  · obtain ⟨idx, hidx, rfl⟩ := List.mem_map.mp hj
    obtain ⟨s, hs, ha⟩ := hav idx hidx
    have hs2 := ((seat_at_eq_some sh.seats idx s).mp hs).2
    simp [hj, hs2, release_lock_lock_effect s ha]
  · simp [hj]

/-- The lock attempts of a call are those of its locking loop. -/
theorem create_booking_lock_attempts (mgr : BookingManager) (user : String) (sh : Show)
    (req : List Int) (payment : IPaymentStrategy) :
    lock_attempts (create_booking mgr user sh req payment).trace
      = lock_attempts (lock_loop sh.seats [] [] req).trace := by
  cases h : (lock_loop sh.seats [] [] req).outcome with
  | out_of_range => rw [create_booking_of_out_of_range _ _ _ _ _ h]
  | lock_failed => rw [create_booking_of_lock_failed _ _ _ _ _ h]
  | all_locked =>
    cases hp : payment (total_price (lock_loop sh.seats [] [] req).seats
        (lock_loop sh.seats [] [] req).locked_seats) with
    | threw =>
      rw [create_booking_of_threw _ _ _ _ _ h hp, lock_attempts_append]
      simp [lock_attempts]
    | returned ok =>
      cases ok with
      | false =>
        rw [create_booking_of_declined _ _ _ _ _ h hp, lock_attempts_append,
          lock_attempts_append, lock_attempts_map_release]
        simp [lock_attempts]
      | true =>
        rw [create_booking_of_paid _ _ _ _ _ h hp, lock_attempts_append,
          lock_attempts_append, lock_attempts_map_confirm]
        simp [lock_attempts]

/-! ## Where a failing call stops -/

theorem lock_attempts_map_try_lock (l : List Int) :
    lock_attempts (l.map fun k => Event.try_lock k.toNat true) = l.map Int.toNat := by
  induction l with
  | nil => rfl
  | cons a more ih =>
    simp only [lock_attempts, List.map_cons] at ih ⊢
    rw [List.filterMap_cons, ih]

/-- When the loop ends on a failed `try_lock_seat`, the request splits at the
failing index: everything before it was locked, the failing attempt is the last
lock attempt, and the rollback releases what was locked. -/
theorem lock_loop_failed_split (req : List Int) :
    ∀ (seats : List Seat) (locked : List Nat) (tr : List Event),
      (lock_loop seats locked tr req).outcome = LockOutcome.lock_failed →
      ∃ pre idx post, req = pre ++ idx :: post ∧
        (lock_loop seats locked tr req).locked_seats = locked ++ pre.map Int.toNat ∧
        (lock_loop seats locked tr req).trace
          = tr ++ pre.map (fun k => Event.try_lock k.toNat true)
              ++ Event.try_lock idx.toNat false
                :: (locked ++ pre.map Int.toNat).map Event.release := by
  induction req with
  | nil => intro seats locked tr h; simp [lock_loop] at h
  | cons idx rest ih =>
    intro seats locked tr h
    cases hsa : seat_at seats idx with
    | none => rw [lock_loop_cons_none _ _ _ _ _ hsa] at h; simp at h
    | some s =>
      by_cases ha : s.status = SeatStatus.AVAILABLE
      · rw [lock_loop_cons_available _ _ _ _ _ s hsa ha] at h ⊢
        obtain ⟨pre, bad, post, h1, h2, h3⟩ := ih _ _ _ h
        refine ⟨idx :: pre, bad, post, by rw [h1]; rfl, ?_, ?_⟩
        · rw [h2]; simp
        · rw [h3]; simp
      · rw [lock_loop_cons_taken _ _ _ _ _ s hsa ha]
        exact ⟨[], idx, rest, rfl, by simp, by simp⟩

/-! ## What one call can do to one seat -/

theorem all_available_cons_of_after_lock (seats : List Seat) (idx : Int) (s : Seat)
    (pre : List Int) (hsa : seat_at seats idx = some s)
    (ha : s.status = SeatStatus.AVAILABLE) (hnd : pre.Nodup)
    (hav : all_available (update_seat seats idx.toNat lock_effect) pre) :
    (idx :: pre).Nodup ∧ all_available seats (idx :: pre) := by
  have hnot : idx ∉ pre := by
    intro hmem
    obtain ⟨s2, hs2, ha2⟩ := hav idx hmem
    rw [seat_at_after_lock seats idx idx s hsa] at hs2
    simp at hs2
    exact lock_effect_status_ne_available s (hs2 ▸ ha2)
  refine ⟨List.nodup_cons.mpr ⟨hnot, hnd⟩, ?_⟩
  intro k hk
  rcases List.mem_cons.mp hk with rfl | hk
  · exact ⟨s, hsa, ha⟩
  · obtain ⟨s2, hs2, ha2⟩ := hav k hk
    have hne : k ≠ idx := fun e => hnot (e ▸ hk)
    rw [seat_at_after_lock seats idx k s hsa] at hs2
    simp [hne] at hs2
    exact ⟨s2, hs2, ha2⟩

/-- When the loop stops at an out-of-range index, the indices before it were
distinct `AVAILABLE` seats, and they are the seats the loop has locked. -/
theorem lock_loop_out_of_range_split (req : List Int) :
    ∀ (seats : List Seat) (locked : List Nat) (tr : List Event),
      (lock_loop seats locked tr req).outcome = LockOutcome.out_of_range →
      ∃ pre bad post, req = pre ++ bad :: post ∧ pre.Nodup ∧ all_available seats pre ∧
        (lock_loop seats locked tr req).seats
          = for_each_seat seats (pre.map Int.toNat) lock_effect := by
  induction req with
  | nil => intro seats locked tr h; simp [lock_loop] at h
  | cons idx rest ih =>
    intro seats locked tr h
    cases hsa : seat_at seats idx with
    | none =>
      rw [lock_loop_cons_none _ _ _ _ _ hsa]
      exact ⟨[], idx, rest, rfl, List.nodup_nil, by intro k hk; simp at hk,
        by simp [for_each_seat]⟩
    | some s =>
      by_cases ha : s.status = SeatStatus.AVAILABLE
      · rw [lock_loop_cons_available _ _ _ _ _ s hsa ha] at h ⊢
        obtain ⟨pre, bad, post, h1, h2, h3, h4⟩ := ih _ _ _ h
        obtain ⟨h5, h6⟩ := all_available_cons_of_after_lock seats idx s pre hsa ha h2 h3
        refine ⟨idx :: pre, bad, post, by rw [h1]; rfl, h5, h6, ?_⟩
        rw [h4, List.map_cons, for_each_seat_cons]
      · rw [lock_loop_cons_taken _ _ _ _ _ s hsa ha] at h; simp at h

/-- The heap a call leaves, in every way the call can end: for some distinct
requested seats `L` that were `AVAILABLE`, either the heap is as before, or the
seats of `L` are locked, or they are locked and then confirmed. -/
theorem create_booking_seats_form (mgr : BookingManager) (user : String) (sh : Show)
    (req : List Int) (payment : IPaymentStrategy) :
    ∃ L : List Int, (∀ idx ∈ L, idx ∈ req) ∧ L.Nodup ∧ all_available sh.seats L ∧
      ((create_booking mgr user sh req payment).show_after.seats = sh.seats ∨
        (create_booking mgr user sh req payment).show_after.seats
          = for_each_seat sh.seats (L.map Int.toNat) lock_effect ∨
        (create_booking mgr user sh req payment).show_after.seats
          = for_each_seat (for_each_seat sh.seats (L.map Int.toNat) lock_effect)
              (L.map Int.toNat) Seat.confirm_booking) := by
  cases h : (lock_loop sh.seats [] [] req).outcome with
  | out_of_range =>
    obtain ⟨pre, bad, post, h1, h2, h3, h4⟩ :=
      lock_loop_out_of_range_split req sh.seats [] [] h
    rw [create_booking_of_out_of_range _ _ _ _ _ h]
    exact ⟨pre, fun idx hidx => by rw [h1]; simp [hidx], h2, h3, Or.inr (Or.inl h4)⟩
  | lock_failed =>
    rw [create_booking_of_lock_failed _ _ _ _ _ h]
    exact ⟨[], by simp, List.nodup_nil, by intro k hk; simp at hk, Or.inl rfl⟩
  | all_locked =>
    obtain ⟨hnd, hav⟩ := (lock_loop_all_locked_iff req sh.seats [] []).mp h
    obtain ⟨h1, h2, -⟩ := lock_loop_all_locked_result req sh.seats [] [] h
    rw [List.nil_append] at h1
    refine ⟨req, fun _ hidx => hidx, hnd, hav, ?_⟩
    cases hp : payment (total_price (lock_loop sh.seats [] [] req).seats
        (lock_loop sh.seats [] [] req).locked_seats) with
    | threw =>
      rw [create_booking_of_threw _ _ _ _ _ h hp]
      exact Or.inr (Or.inl h2)
    | returned ok =>
      cases ok with
      | false =>
        rw [create_booking_of_declined _ _ _ _ _ h hp]
        exact Or.inl (release_all_locked sh req h)
      | true =>
        rw [create_booking_of_paid _ _ _ _ _ h hp]
        right; right
        simp only [h1, h2]

/-- The fate of the seat at position `j` in one call: it is left as it was, or
it is a requested seat that was `AVAILABLE` and is now the same seat with
status `LOCKED` or `BOOKED`. -/
theorem create_booking_seat_fate (mgr : BookingManager) (user : String) (sh : Show)
    (req : List Int) (payment : IPaymentStrategy) (j : Nat) :
    (create_booking mgr user sh req payment).show_after.seats[j]? = sh.seats[j]? ∨
    ((∃ idx ∈ req, 0 ≤ idx ∧ idx.toNat = j) ∧
      ∃ s, sh.seats[j]? = some s ∧ s.status = SeatStatus.AVAILABLE ∧
        ((create_booking mgr user sh req payment).show_after.seats[j]?
            = some { s with status := SeatStatus.LOCKED } ∨
          (create_booking mgr user sh req payment).show_after.seats[j]?
            = some { s with status := SeatStatus.BOOKED })) := by
  obtain ⟨L, hsub, -, hav, hform⟩ := create_booking_seats_form mgr user sh req payment
  by_cases hj : j ∈ L.map Int.toNat
  · obtain ⟨idx, hidx, rfl⟩ := List.mem_map.mp hj
    obtain ⟨s, hs, ha⟩ := hav idx hidx
    obtain ⟨h0, hs2⟩ := (seat_at_eq_some sh.seats idx s).mp hs
    rcases hform with hf | hf | hf
    · left; rw [hf]
    · right
      refine ⟨⟨idx, hsub idx hidx, h0, rfl⟩, s, hs2, ha, Or.inl ?_⟩
      rw [hf, getElem?_for_each_seat _ lock_effect_twice]
      simp [hj, hs2, lock_effect_available s ha]
    · right
      refine ⟨⟨idx, hsub idx hidx, h0, rfl⟩, s, hs2, ha, Or.inr ?_⟩
      rw [hf, getElem?_for_each_seat _ confirm_booking_twice,
        getElem?_for_each_seat _ lock_effect_twice]
      simp [hj, hs2, Seat.confirm_booking, lock_effect_available s ha]
  · left
    rcases hform with hf | hf | hf
    · rw [hf]
    · rw [hf, getElem?_for_each_seat _ lock_effect_twice]
      simp [hj]
    · rw [hf, getElem?_for_each_seat _ confirm_booking_twice,
        getElem?_for_each_seat _ lock_effect_twice]
      simp [hj]

/-- A seat that is not `AVAILABLE` before a call is the same seat after it. -/
theorem create_booking_taken_unchanged (mgr : BookingManager) (user : String) (sh : Show)
    (req : List Int) (payment : IPaymentStrategy) (j : Nat) (s : Seat)
    (hj : sh.seats[j]? = some s) (hs : s.status ≠ SeatStatus.AVAILABLE) :
    (create_booking mgr user sh req payment).show_after.seats[j]? = some s := by
  rcases create_booking_seat_fate mgr user sh req payment j with h | ⟨-, s2, h2, ha, -⟩
  · rw [h, hj]
  · rw [hj] at h2
    simp at h2
    exact absurd (h2 ▸ ha) hs

theorem run_calls_taken_unchanged (calls : List Call) :
    ∀ (st : System) (j : Nat) (s : Seat),
      st.show_now.seats[j]? = some s → s.status ≠ SeatStatus.AVAILABLE →
      (run_calls st calls).show_now.seats[j]? = some s := by
  induction calls with
  | nil => intro st j s hj _; simpa [run_calls] using hj
  | cons c rest ih =>
    intro st j s hj hs
    simp only [run_calls, List.foldl_cons]
    exact ih (st.step c) j s
      (create_booking_taken_unchanged st.manager c.user st.show_now c.seat_indices
        c.payment j s hj hs) hs

/-! ## Success condition -/

theorem status_of_all_available (seats : List Seat) (req : List Int)
    (hav : all_available seats req) :
    ∀ idx ∈ req, status_at seats idx.toNat = some SeatStatus.AVAILABLE := by
  intro idx hidx
  obtain ⟨s, hs, ha⟩ := hav idx hidx
  have hs2 := ((seat_at_eq_some seats idx s).mp hs).2
  simp [status_at, hs2, ha]

/-- After all locks succeeded, the trace holds the `pay` call on the total. -/
theorem create_booking_pay_of_all_locked (mgr : BookingManager) (user : String) (sh : Show)
    (req : List Int) (payment : IPaymentStrategy)
    (h : (lock_loop sh.seats [] [] req).outcome = LockOutcome.all_locked) :
    Event.pay (total_price sh.seats (req.map Int.toNat))
        (payment (total_price sh.seats (req.map Int.toNat)))
      ∈ (create_booking mgr user sh req payment).trace := by
  have ht : total_price (lock_loop sh.seats [] [] req).seats
      (lock_loop sh.seats [] [] req).locked_seats
      = total_price sh.seats (req.map Int.toNat) := by
    rw [total_price_of_all_locked sh req h, total_price_eq_wrap_sum]
  cases hp : payment (total_price (lock_loop sh.seats [] [] req).seats
      (lock_loop sh.seats [] [] req).locked_seats) with
  | threw =>
    rw [create_booking_of_threw _ _ _ _ _ h hp, ← ht, hp]
    simp
  | returned ok =>
    cases ok with
    | false =>
      rw [create_booking_of_declined _ _ _ _ _ h hp, ← ht, hp]
      simp
    | true =>
      rw [create_booking_of_paid _ _ _ _ _ h hp, ← ht, hp]
      simp

/-! ## Frame of a call -/

/-- A call changes nothing of the show but its seats. -/
theorem create_booking_show_fields (mgr : BookingManager) (user : String) (sh : Show)
    (req : List Int) (payment : IPaymentStrategy) :
    (create_booking mgr user sh req payment).show_after.movie = sh.movie ∧
    (create_booking mgr user sh req payment).show_after.time_slot = sh.time_slot ∧
    (create_booking mgr user sh req payment).show_after.hall_name = sh.hall_name := by
  cases h : (lock_loop sh.seats [] [] req).outcome with
  | out_of_range => rw [create_booking_of_out_of_range _ _ _ _ _ h]; exact ⟨rfl, rfl, rfl⟩
  | lock_failed => rw [create_booking_of_lock_failed _ _ _ _ _ h]; exact ⟨rfl, rfl, rfl⟩
  | all_locked =>
    cases hp : payment (total_price (lock_loop sh.seats [] [] req).seats
        (lock_loop sh.seats [] [] req).locked_seats) with
    | threw => rw [create_booking_of_threw _ _ _ _ _ h hp]; exact ⟨rfl, rfl, rfl⟩
    | returned ok =>
      cases ok with
      | false => rw [create_booking_of_declined _ _ _ _ _ h hp]; exact ⟨rfl, rfl, rfl⟩
      | true => rw [create_booking_of_paid _ _ _ _ _ h hp]; exact ⟨rfl, rfl, rfl⟩

theorem run_calls_next_id (calls : List Call) :
    ∀ st : System,
      st.manager.next_booking_id = wrapInt32 (1000 + (st.bookings.length : Int)) →
      st.ids
        = (List.range st.bookings.length).map (fun k : Nat => wrapInt32 (1000 + (k : Int))) →
      (run_calls st calls).manager.next_booking_id
        = wrapInt32 (1000 + ((run_calls st calls).bookings.length : Int)) := by
  induction calls with
  | nil => intro st h1 _; simpa [run_calls] using h1
  | cons c rest ih =>
    intro st h1 h2
    obtain ⟨h3, h4⟩ := step_ids st c h1 h2
    simp only [run_calls, List.foldl_cons]
    exact ih (st.step c) h3 h4

/-- The counter of a fresh manager after a run is 1000 plus the number of
bookings returned, wrapped to `int`. -/
theorem run_calls_next_id_fresh (sh : Show) (calls : List Call) :
    (run_calls ⟨sh, BookingManager.new, []⟩ calls).manager.next_booking_id
      = wrapInt32 (1000
          + ((run_calls ⟨sh, BookingManager.new, []⟩ calls).bookings.length : Int)) :=
  run_calls_next_id calls ⟨sh, BookingManager.new, []⟩
    (by show (1000 : Int) = wrapInt32 (1000 + ((0 : Nat) : Int)); decide)
    (by simp [System.ids])

/-- An empty call with a succeeding payment increments the counter (with
wrap-around). -/
theorem step_empty_call_next_id (st : System) :
    (st.step empty_call).manager.next_booking_id
      = wrapInt32 (st.manager.next_booking_id + 1) := by
  simp [System.step, empty_call, create_booking, lock_loop, CreditCardPayment]

/-! ## Requests that list the same seats in another order -/

theorem for_each_seat_perm (f : Seat → Seat) (hf : ∀ s, f (f s) = f s) (seats : List Seat)
    (l1 l2 : List Nat) (h : l1.Perm l2) :
    for_each_seat seats l1 f = for_each_seat seats l2 f := by
  apply List.ext_getElem?
  intro j
  rw [getElem?_for_each_seat f hf, getElem?_for_each_seat f hf]
  by_cases hj : j ∈ l1
  · simp [hj, h.mem_iff.mp hj]
  · have hj2 : j ∉ l2 := fun e => hj (h.mem_iff.mpr e)
    simp [hj, hj2]

theorem total_price_perm (seats : List Seat) (l1 l2 : List Nat) (h : l1.Perm l2) :
    total_price seats l1 = total_price seats l2 := by
  rw [total_price_eq_wrap_sum, total_price_eq_wrap_sum]
  unfold price_sum
  rw [(h.map _).sum_eq]

theorem lock_loop_all_locked_perm (seats : List Seat) (r r2 : List Int) (hp : r.Perm r2)
    (h : (lock_loop seats [] [] r).outcome = LockOutcome.all_locked) :
    (lock_loop seats [] [] r2).outcome = LockOutcome.all_locked := by
  obtain ⟨hnd, hav⟩ := (lock_loop_all_locked_iff r seats [] []).mp h
  exact (lock_loop_all_locked_iff r2 seats [] []).mpr
    ⟨hp.nodup_iff.mp hnd, fun idx hidx => hav idx (hp.mem_iff.mpr hidx)⟩

/-- The whole result of a call, but for the trace and the order of
`booked_seats`, is the same for a permuted request. -/
theorem create_booking_perm (mgr : BookingManager) (user : String) (sh : Show)
    (r r2 : List Int) (payment : IPaymentStrategy)
    (hr : ∀ idx ∈ r, in_range sh idx) (hp : r.Perm r2) :
    (create_booking mgr user sh r payment).show_after
      = (create_booking mgr user sh r2 payment).show_after ∧
    (create_booking mgr user sh r payment).manager
      = (create_booking mgr user sh r2 payment).manager ∧
    (create_booking mgr user sh r payment).outcome ≠ Outcome.undefined ∧
    ((create_booking mgr user sh r payment).outcome = Outcome.null →
      (create_booking mgr user sh r2 payment).outcome = Outcome.null) ∧
    ((create_booking mgr user sh r payment).outcome = Outcome.exception →
      (create_booking mgr user sh r2 payment).outcome = Outcome.exception) ∧
    (∀ b1, (create_booking mgr user sh r payment).outcome = Outcome.booking b1 →
      ∃ b2, (create_booking mgr user sh r2 payment).outcome = Outcome.booking b2 ∧
        b2.booking_id = b1.booking_id ∧ b2.user_name = b1.user_name ∧
        b2.total_price = b1.total_price ∧ b2.status = b1.status ∧
        b2.booked_seats.Perm b1.booked_seats) ∧
    (∀ a res, Event.pay a res ∈ (create_booking mgr user sh r payment).trace →
      Event.pay a res ∈ (create_booking mgr user sh r2 payment).trace) := by
  have hr2 : ∀ idx ∈ r2, in_range sh idx := fun idx hidx => hr idx (hp.mem_iff.mpr hidx)
  have hdef := lock_loop_in_range_defined r sh.seats [] [] hr
  have hdef2 := lock_loop_in_range_defined r2 sh.seats [] [] hr2
  have hpm := hp.map Int.toNat
  cases h : (lock_loop sh.seats [] [] r).outcome with
  | out_of_range => exact absurd h hdef
  | lock_failed =>
    have h2 : (lock_loop sh.seats [] [] r2).outcome = LockOutcome.lock_failed := by
      cases hc : (lock_loop sh.seats [] [] r2).outcome with
      | out_of_range => exact absurd hc hdef2
      | lock_failed => rfl
      | all_locked =>
        have := lock_loop_all_locked_perm sh.seats r2 r hp.symm hc
        rw [h] at this
        exact absurd this (by decide)
    have h0 : pay_calls (lock_loop sh.seats [] [] r).trace = 0 := by
      rw [lock_loop_pay_calls]; rfl
    rw [create_booking_of_lock_failed _ _ _ _ _ h, create_booking_of_lock_failed _ _ _ _ _ h2]
    refine ⟨rfl, rfl, by simp, fun _ => rfl, fun hx => by simp at hx,
      fun b1 hb => by simp at hb, ?_⟩
    intro a res hmem
    exact absurd hmem ((pay_calls_eq_zero _).mp h0 a res)
  | all_locked =>
    have h2 := lock_loop_all_locked_perm sh.seats r r2 hp h
    obtain ⟨hl1, hs1, -⟩ := lock_loop_all_locked_result r sh.seats [] [] h
    obtain ⟨hl2, hs2, -⟩ := lock_loop_all_locked_result r2 sh.seats [] [] h2
    rw [List.nil_append] at hl1 hl2
    have hseats : (lock_loop sh.seats [] [] r).seats = (lock_loop sh.seats [] [] r2).seats := by
      rw [hs1, hs2]
      exact for_each_seat_perm _ lock_effect_twice _ _ _ hpm
    have htot : total_price (lock_loop sh.seats [] [] r).seats
        (lock_loop sh.seats [] [] r).locked_seats
        = total_price (lock_loop sh.seats [] [] r2).seats
            (lock_loop sh.seats [] [] r2).locked_seats := by
      rw [← hseats, hl1, hl2]
      exact total_price_perm _ _ _ hpm
    have hpay : ∀ a res, Event.pay a res ∈ (create_booking mgr user sh r payment).trace →
        Event.pay a res ∈ (create_booking mgr user sh r2 payment).trace := by
      intro a res hmem
      obtain ⟨-, ha, hres⟩ := create_booking_pay_mem mgr user sh r payment a res hmem
      have hb := create_booking_pay_of_all_locked mgr user sh r2 payment h2
      have he : a = total_price sh.seats (r2.map Int.toNat) := by
        rw [ha, htot, total_price_of_all_locked sh r2 h2, total_price_eq_wrap_sum]
      rw [hres, he]
      exact hb
    cases hpA : payment (total_price (lock_loop sh.seats [] [] r).seats
        (lock_loop sh.seats [] [] r).locked_seats) with
    | threw =>
      have hpB := hpA
      rw [htot] at hpB
      refine ⟨?_, ?_, ?_, ?_, ?_, ?_, hpay⟩
      all_goals
        rw [create_booking_of_threw _ _ _ _ _ h hpA]
        try rw [create_booking_of_threw _ _ _ _ _ h2 hpB]
      · simp only [hseats]
      · simp
      · intro hx; simp at hx
      · intro _; trivial
      · intro b1 hb; simp at hb
    | returned ok =>
      cases ok with
      | false =>
        have hpB := hpA
        rw [htot] at hpB
        refine ⟨?_, ?_, ?_, ?_, ?_, ?_, hpay⟩
        all_goals
          rw [create_booking_of_declined _ _ _ _ _ h hpA]
          try rw [create_booking_of_declined _ _ _ _ _ h2 hpB]
        · simp only [release_all_locked sh r h, release_all_locked sh r2 h2]
        · simp
        · intro _; trivial
        · intro hx; simp at hx
        · intro b1 hb; simp at hb
      | true =>
        have hpB := hpA
        rw [htot] at hpB
        refine ⟨?_, ?_, ?_, ?_, ?_, ?_, hpay⟩
        all_goals
          rw [create_booking_of_paid _ _ _ _ _ h hpA]
          try rw [create_booking_of_paid _ _ _ _ _ h2 hpB]
        · have hc : for_each_seat (lock_loop sh.seats [] [] r).seats
              (lock_loop sh.seats [] [] r).locked_seats Seat.confirm_booking
              = for_each_seat (lock_loop sh.seats [] [] r2).seats
                  (lock_loop sh.seats [] [] r2).locked_seats Seat.confirm_booking := by
            rw [← hseats, hl1, hl2]
            exact for_each_seat_perm _ confirm_booking_twice _ _ _ hpm
          simp only [hc]
        · simp
        · intro hx; simp at hx
        · intro hx; simp at hx
        · intro b1 hb
          simp only [Outcome.booking.injEq] at hb
          refine ⟨_, rfl, ?_⟩
          rw [← hb]
          refine ⟨rfl, rfl, htot.symm, rfl, ?_⟩
          simp only [hl1, hl2]
          exact hpm.symm

/-! ## The seat state machine -/

/-- C5: `try_lock_seat` returns true exactly when the seat is `AVAILABLE`; on
true the seat is the same seat with status `LOCKED`; on false (status `LOCKED`
or `BOOKED`) the seat is left completely unchanged. -/
theorem try_lock_seat_iff_available (s : Seat) :
    ((s.try_lock_seat).1 = true ↔ s.status = SeatStatus.AVAILABLE) ∧
    ((s.try_lock_seat).1 = true →
      (s.try_lock_seat).2 = { s with status := SeatStatus.LOCKED }) ∧
    ((s.try_lock_seat).1 = false →
      (s.status = SeatStatus.LOCKED ∨ s.status = SeatStatus.BOOKED) ∧
      (s.try_lock_seat).2 = s) := by
  obtain ⟨r, c, t, st, p⟩ := s
  cases st <;> simp [Seat.try_lock_seat]

/-- C6: `release_lock` turns a `LOCKED` seat into the same seat with status
`AVAILABLE`, and returns an `AVAILABLE` or `BOOKED` seat as it was, so a
rollback may call it on a seat that is not `LOCKED` without changing anything.
(A seat records no holder: the status is all `release_lock` looks at.) -/
theorem release_lock_locked_or_noop (s : Seat) :
    (s.status = SeatStatus.LOCKED →
      s.release_lock = { s with status := SeatStatus.AVAILABLE }) ∧
    (s.status = SeatStatus.AVAILABLE ∨ s.status = SeatStatus.BOOKED →
      s.release_lock = s) := by
  obtain ⟨r, c, t, st, p⟩ := s
  cases st <;> simp [Seat.release_lock]

/-- C7: releasing twice in a row gives the same seat as releasing once,
releasing an `AVAILABLE` seat leaves it as it is, and `release_lock` is a total
function (every call returns a seat: there is no failing branch). -/
theorem release_lock_idempotent (s : Seat) :
    s.release_lock.release_lock = s.release_lock ∧
    (s.status = SeatStatus.AVAILABLE → s.release_lock = s) ∧
    (∃ s1 : Seat, s.release_lock = s1) := by
  obtain ⟨r, c, t, st, p⟩ := s
  cases st <;> simp [Seat.release_lock]

/-- C8 (as stated, refuted): on the `AVAILABLE` seat A1 of `main`, which is not
`LOCKED`, `confirm_booking` does change the state: the seat comes out
`BOOKED`. -/
theorem confirm_booking_available_counterexample :
    (Seat.new 0 1 SeatType.VIP 15).status = SeatStatus.AVAILABLE ∧
    (Seat.new 0 1 SeatType.VIP 15).confirm_booking.status = SeatStatus.BOOKED ∧
    (Seat.new 0 1 SeatType.VIP 15).confirm_booking ≠ Seat.new 0 1 SeatType.VIP 15 := by
  decide

/-- C8 (amended): `confirm_booking` makes no check: from every status,
`LOCKED`, `AVAILABLE` or `BOOKED`, it yields the same seat with status
`BOOKED`; on a `LOCKED` seat this is the transition `LOCKED→BOOKED`. -/
theorem confirm_booking_always_booked (s : Seat) :
    s.confirm_booking = { s with status := SeatStatus.BOOKED } ∧
    s.confirm_booking.status = SeatStatus.BOOKED ∧
    s.confirm_booking.row = s.row ∧ s.confirm_booking.col = s.col ∧
    s.confirm_booking.type = s.type ∧ s.confirm_booking.price = s.price := by
  simp [Seat.confirm_booking]

/-- C9 (as stated, refuted): one call of `confirm_booking` on the `AVAILABLE`
seat A1 of `main` takes it from `AVAILABLE` directly to `BOOKED`, which is not
one of the allowed transitions. -/
theorem legal_transition_counterexample :
    (Seat.new 0 1 SeatType.VIP 15).status = SeatStatus.AVAILABLE ∧
    (SeatOp.confirm_booking.apply (Seat.new 0 1 SeatType.VIP 15)).status
      = SeatStatus.BOOKED ∧
    legal_transition (Seat.new 0 1 SeatType.VIP 15).status
      (SeatOp.confirm_booking.apply (Seat.new 0 1 SeatType.VIP 15)).status = false := by
  decide

/-- C9 (amended): every single call of `try_lock_seat`, `release_lock` or
`confirm_booking` either makes an allowed transition (same status,
`AVAILABLE→LOCKED`, `LOCKED→BOOKED`, `LOCKED→AVAILABLE`), or it is
`confirm_booking` called on an `AVAILABLE` seat, which goes to `BOOKED`. -/
theorem legal_transition_or_confirm_available (op : SeatOp) (s : Seat) :
    legal_transition s.status (op.apply s).status = true ∨
    (op = SeatOp.confirm_booking ∧ s.status = SeatStatus.AVAILABLE ∧
      (op.apply s).status = SeatStatus.BOOKED) := by
  obtain ⟨r, c, t, st, p⟩ := s
  cases op <;> cases st <;>
    simp [SeatOp.apply, Seat.try_lock_seat, Seat.release_lock, Seat.confirm_booking,
      legal_transition]

/-! ## Reservation attempts -/

/-- C1: rollback on an unavailable seat.  For every request list (of in-range
indices or not: a call whose lock fails returns before it reads any later
index), if some `try_lock_seat` of the call returned false, then
`create_booking` returns `nullptr` and the show is exactly as before the call
(every seat has the status it had); every seat the attempt itself locked is
`AVAILABLE` again, and a seat that is `LOCKED` afterwards was `LOCKED` before. -/
theorem create_booking_rollback_on_lock_failure (mgr : BookingManager) (user : String)
    (sh : Show) (req : List Int) (payment : IPaymentStrategy)
    (hfail : ∃ i, Event.try_lock i false ∈ (create_booking mgr user sh req payment).trace) :
    (create_booking mgr user sh req payment).outcome = Outcome.null ∧
    (create_booking mgr user sh req payment).show_after = sh ∧
    (create_booking mgr user sh req payment).show_after.statuses = sh.statuses ∧
    (∀ i, Event.try_lock i true ∈ (create_booking mgr user sh req payment).trace →
      status_at (create_booking mgr user sh req payment).show_after.seats i
        = some SeatStatus.AVAILABLE) ∧
    (∀ i, status_at (create_booking mgr user sh req payment).show_after.seats i
        = some SeatStatus.LOCKED →
      status_at sh.seats i = some SeatStatus.LOCKED) := by
  have hloop : (lock_loop sh.seats [] [] req).outcome = LockOutcome.lock_failed := by
    apply lock_loop_failed_of_trace req sh.seats [] [] (by simp)
    obtain ⟨i, hi⟩ := hfail
    exact ⟨i, (create_booking_try_lock_mem mgr user sh req payment i false).mp hi⟩
  have hlocked : ∀ i, Event.try_lock i true ∈ (create_booking mgr user sh req payment).trace →
      status_at sh.seats i = some SeatStatus.AVAILABLE := by
    intro i hi
    have h1 := (create_booking_try_lock_mem mgr user sh req payment i true).mp hi
    rcases lock_loop_locked_was_available req sh.seats [] [] i h1 with h2 | h2
    · simp at h2
    · exact h2
  rw [create_booking_of_lock_failed mgr user sh req payment hloop] at hlocked ⊢
  exact ⟨rfl, rfl, rfl, hlocked, fun i h => h⟩

/-- C1, witness: in the show of `main` after Alice's booking, a request for
seats 4 and 0 locks seat 4, fails on the booked seat 0, and rolls back. -/
theorem create_booking_rollback_on_lock_failure_witness :
    (∃ i, Event.try_lock i false
      ∈ (create_booking ⟨1001⟩ "Bob" show_after_alice [4, 0] UPIPayment).trace) ∧
    (create_booking ⟨1001⟩ "Bob" show_after_alice [4, 0] UPIPayment).outcome = Outcome.null ∧
    (create_booking ⟨1001⟩ "Bob" show_after_alice [4, 0] UPIPayment).show_after
      = show_after_alice ∧
    status_at (create_booking ⟨1001⟩ "Bob" show_after_alice [4, 0] UPIPayment).show_after.seats
      4 = some SeatStatus.AVAILABLE :=
  have h := create_booking_rollback_on_lock_failure ⟨1001⟩ "Bob" show_after_alice [4, 0]
    UPIPayment ⟨0, by decide⟩
  ⟨⟨0, by decide⟩, h.1, h.2.1, h.2.2.2.1 4 (by decide)⟩

/-- C2: rollback on declined payment.  For a request list of distinct
in-range indices whose seats are all `AVAILABLE`, if `pay` returns false on
the total (the sum loop of step 2 over the requested seats), `create_booking`
returns `nullptr`, the show is exactly as before the call, and every requested
seat is `AVAILABLE`. -/
theorem create_booking_rollback_on_declined_payment (mgr : BookingManager) (user : String)
    (sh : Show) (req : List Int) (payment : IPaymentStrategy)
    (hr : ∀ idx ∈ req, in_range sh idx) (hnd : req.Nodup)
    (hav : ∀ idx ∈ req, status_at sh.seats idx.toNat = some SeatStatus.AVAILABLE)
    (hpay : payment (total_price sh.seats (req.map Int.toNat)) = PayResult.returned false) :
    (create_booking mgr user sh req payment).outcome = Outcome.null ∧
    (create_booking mgr user sh req payment).show_after = sh ∧
    (create_booking mgr user sh req payment).show_after.statuses = sh.statuses ∧
    (∀ idx ∈ req,
      status_at (create_booking mgr user sh req payment).show_after.seats idx.toNat
        = some SeatStatus.AVAILABLE) := by
  have hall : (lock_loop sh.seats [] [] req).outcome = LockOutcome.all_locked :=
    (lock_loop_all_locked_iff req sh.seats [] []).mpr
      ⟨hnd, all_available_of_status sh req hr hav⟩
  obtain ⟨h1, h2, -⟩ := lock_loop_all_locked_result req sh.seats [] [] hall
  rw [List.nil_append] at h1
  have hp : payment (total_price (lock_loop sh.seats [] [] req).seats
      (lock_loop sh.seats [] [] req).locked_seats) = PayResult.returned false := by
    rw [h1, h2, total_price_after_locks]; exact hpay
  have hback : for_each_seat (for_each_seat sh.seats (req.map Int.toNat) lock_effect)
      (req.map Int.toNat) Seat.release_lock = sh.seats := by
    apply List.ext_getElem?
    intro j
    rw [getElem?_for_each_seat _ release_lock_twice, getElem?_for_each_seat _ lock_effect_twice]
    by_cases hj : j ∈ req.map Int.toNat
    · obtain ⟨idx, hidx, rfl⟩ := List.mem_map.mp hj
      have h3 := hav idx hidx
      unfold status_at at h3
      cases hs : sh.seats[idx.toNat]? with
      | none => simp [hs] at h3
      | some s =>
        have ha : s.status = SeatStatus.AVAILABLE := by simpa [hs] using h3
        simp [hj, release_lock_lock_effect s ha]
    · simp [hj]
  have hshow : (create_booking mgr user sh req payment).show_after = sh := by
    rw [create_booking_of_declined mgr user sh req payment hall hp]
    simp only [h1, h2, hback]
  refine ⟨?_, hshow, by rw [hshow], ?_⟩
  · rw [create_booking_of_declined mgr user sh req payment hall hp]
  · intro idx hidx
    rw [hshow]
    exact hav idx hidx

/-- C2, witness: seats 1 and 4 of the untouched show of `main` with a payment
stub that declines. -/
theorem create_booking_rollback_on_declined_payment_witness :
    (create_booking BookingManager.new "Dan" main_show [1, 4] DecliningPayment).outcome
      = Outcome.null ∧
    (create_booking BookingManager.new "Dan" main_show [1, 4] DecliningPayment).show_after
      = main_show :=
  have h := create_booking_rollback_on_declined_payment BookingManager.new "Dan" main_show
    [1, 4] DecliningPayment (by decide) (by decide) (by decide) rfl
  ⟨h.1, h.2.1⟩

/-- C3: successful reservation.  For a request list (non-empty or not) of
distinct in-range indices whose seats are all `AVAILABLE`, if `pay` returns true on the
total, `create_booking` returns a `Booking` with status `CONFIRMED`, the given
user name and `booked_seats` equal to the requested seats in request order,
and every requested seat is `BOOKED` after the call. -/
theorem create_booking_success (mgr : BookingManager) (user : String)
    (sh : Show) (req : List Int) (payment : IPaymentStrategy)
    (hr : ∀ idx ∈ req, in_range sh idx) (hnd : req.Nodup)
    (hav : ∀ idx ∈ req, status_at sh.seats idx.toNat = some SeatStatus.AVAILABLE)
    (hpay : payment (total_price sh.seats (req.map Int.toNat)) = PayResult.returned true) :
    (∃ b : Booking,
      (create_booking mgr user sh req payment).outcome = Outcome.booking b ∧
      b.status = BookingStatus.CONFIRMED ∧
      b.user_name = user ∧
      b.booked_seats = req.map Int.toNat) ∧
    (∀ idx ∈ req,
      status_at (create_booking mgr user sh req payment).show_after.seats idx.toNat
        = some SeatStatus.BOOKED) := by
  have hall : (lock_loop sh.seats [] [] req).outcome = LockOutcome.all_locked :=
    (lock_loop_all_locked_iff req sh.seats [] []).mpr
      ⟨hnd, all_available_of_status sh req hr hav⟩
  obtain ⟨h1, h2, -⟩ := lock_loop_all_locked_result req sh.seats [] [] hall
  rw [List.nil_append] at h1
  have hp : payment (total_price (lock_loop sh.seats [] [] req).seats
      (lock_loop sh.seats [] [] req).locked_seats) = PayResult.returned true := by
    rw [h1, h2, total_price_after_locks]; exact hpay
  rw [create_booking_of_paid mgr user sh req payment hall hp]
  refine ⟨⟨_, rfl, rfl, rfl, h1⟩, ?_⟩
  intro idx hidx
  have hj : idx.toNat ∈ req.map Int.toNat := List.mem_map.mpr ⟨idx, hidx, rfl⟩
  have h3 := hav idx hidx
  unfold status_at at h3 ⊢
  simp only [h1, h2]
  rw [getElem?_for_each_seat _ confirm_booking_twice, getElem?_for_each_seat _ lock_effect_twice]
  cases hs : sh.seats[idx.toNat]? with
  | none => simp [hs] at h3
  | some s => simp [hj, Seat.confirm_booking]

/-- C3, witness: Alice's booking of seats A1 and A2 in `main`. -/
theorem create_booking_success_witness :
    (∃ b : Booking,
      (create_booking BookingManager.new "Alice" main_show [0, 1] CreditCardPayment).outcome
        = Outcome.booking b ∧
      b.status = BookingStatus.CONFIRMED ∧ b.user_name = "Alice" ∧
      b.booked_seats = [0, 1]) ∧
    (∀ idx ∈ [(0 : Int), 1],
      status_at (create_booking BookingManager.new "Alice" main_show [0, 1]
        CreditCardPayment).show_after.seats idx.toNat = some SeatStatus.BOOKED) :=
  create_booking_success BookingManager.new "Alice" main_show [0, 1] CreditCardPayment
    (by decide) (by decide) (by decide) rfl

/-- C4: no double booking.  For every finite sequence of `create_booking` calls
made one after another on a show (any users, request lists and payment
outcomes; from any initial seat statuses, all `AVAILABLE` included), no
returned booking holds a seat twice, no seat is held by two different returned
bookings, and the total number of seats over all returned bookings is at most
the number of seats of the show. -/
theorem no_double_booking (sh : Show) (mgr : BookingManager) (calls : List Call) :
    (∀ b ∈ (run_calls ⟨sh, mgr, []⟩ calls).bookings, b.booked_seats.Nodup) ∧
    (run_calls ⟨sh, mgr, []⟩ calls).bookings.Pairwise
      (fun b1 b2 => ∀ i, i ∈ b1.booked_seats → i ∉ b2.booked_seats) ∧
    ((run_calls ⟨sh, mgr, []⟩ calls).bookings.map
      (fun b => b.booked_seats.length)).sum ≤ sh.seats.length := by
  have h0 : System.sound ⟨sh, mgr, []⟩ := by simp [System.sound, System.booked]
  obtain ⟨hnd, hbk⟩ := run_calls_sound calls ⟨sh, mgr, []⟩ h0
  have hlen := run_calls_length calls ⟨sh, mgr, []⟩
  simp only at hlen
  unfold System.booked at hnd hbk
  obtain ⟨h1, h2⟩ := List.nodup_flatten.mp hnd
  refine ⟨?_, ?_, ?_⟩
  · intro b hb
    exact h1 _ (List.mem_map.mpr ⟨b, hb, rfl⟩)
  · rw [List.pairwise_map] at h2
    exact h2.imp (fun {b1 b2} hd i hi1 hi2 => hd hi1 hi2)
  · have h3 := nodup_length_le _ sh.seats.length hnd
      (fun i hi => hlen ▸ status_at_lt_length _ i _ (hbk i hi))
    rw [List.length_flatten, List.map_map] at h3
    exact h3

/-- C10: `BOOKED` is terminal.  A `BOOKED` seat is left as it is by every
finite sequence of `try_lock_seat`, `release_lock` and `confirm_booking` calls
on it, and the seat at position `j` of a show, once `BOOKED`, is the same
`BOOKED` seat after every finite sequence of direct member-function calls (on
it or on other seats) and of `create_booking` calls on its show. -/
theorem booked_is_terminal (st : System) (j : Nat) (s : Seat)
    (hj : st.show_now.seats[j]? = some s) (hb : s.status = SeatStatus.BOOKED) :
    (∀ ops : List SeatOp,
      apply_ops ops s = s ∧ (apply_ops ops s).status = SeatStatus.BOOKED) ∧
    (∀ actions : List Action,
      (run_actions st actions).show_now.seats[j]? = some s ∧
      status_at (run_actions st actions).show_now.seats j = some SeatStatus.BOOKED) := by
  constructor
  · intro ops
    have h : apply_ops ops s = s := by
      induction ops with
      | nil => rfl
      | cons op rest ih =>
        simp only [apply_ops, List.foldl_cons] at ih ⊢
        rw [seat_op_of_booked op s hb]
        exact ih
    rw [h]
    exact ⟨rfl, hb⟩
  · intro actions
    have h : (run_actions st actions).show_now.seats[j]? = some s := by
      induction actions generalizing st with
      | nil => simpa [run_actions] using hj
      | cons a rest ih =>
        simp only [run_actions, List.foldl_cons]
        exact ih (st.act a) (act_booked_unchanged st a j s hj hb)
    exact ⟨h, (status_at_eq_some _ _ _).mpr ⟨s, h, hb⟩⟩

/-- C10, witness: seat A1 of `main` after Alice's booking stays `BOOKED` through
Bob's and Charlie's attempts and direct calls of all three member functions on
it. -/
theorem booked_is_terminal_witness :
    status_at
      (run_actions ⟨show_after_alice, ⟨1001⟩, []⟩
        [Action.book ⟨"Bob", [0, 4], UPIPayment⟩,
          Action.seat_op 0 SeatOp.release_lock,
          Action.seat_op 0 SeatOp.try_lock_seat,
          Action.book ⟨"Charlie", [0], CreditCardPayment⟩,
          Action.seat_op 0 SeatOp.confirm_booking]).show_now.seats 0
      = some SeatStatus.BOOKED :=
  ((booked_is_terminal ⟨show_after_alice, ⟨1001⟩, []⟩ 0
      { row := 0, col := 1, type := SeatType.VIP, status := SeatStatus.BOOKED, price := 15 }
      (by decide) rfl).2
    [Action.book ⟨"Bob", [0, 4], UPIPayment⟩,
      Action.seat_op 0 SeatOp.release_lock,
      Action.seat_op 0 SeatOp.try_lock_seat,
      Action.book ⟨"Charlie", [0], CreditCardPayment⟩,
      Action.seat_op 0 SeatOp.confirm_booking]).2

/-! ## Payment, totals and booking ids -/

/-- C11 (as stated, refuted): the request `[3, 13]` on the show of `main` has
no failing `try_lock_seat` (seat 3 is locked, then `show->seats[13]` is read
outside the vector of ten seats and the call stops there), yet `pay` is not
called once: it is not called at all. -/
theorem pay_once_counterexample :
    ¬ in_range main_show 13 ∧
    (¬ ∃ i, Event.try_lock i false ∈
      (create_booking BookingManager.new "Uma" main_show [3, 13] CreditCardPayment).trace) ∧
    pay_calls (create_booking BookingManager.new "Uma" main_show [3, 13]
      CreditCardPayment).trace = 0 ∧
    pay_calls (create_booking BookingManager.new "Uma" main_show [3, 13]
      CreditCardPayment).trace ≠ 1 := by
  have ht : (create_booking BookingManager.new "Uma" main_show [3, 13]
      CreditCardPayment).trace = [Event.try_lock 3 true] := by
    decide
  rw [ht]
  refine ⟨by decide, ?_, by decide, by decide⟩
  rintro ⟨i, hi⟩
  simp at hi

/-- C11 (amended): payment is contacted at most once per call and only after
every requested seat has been locked.  For every request list: when some
`try_lock_seat` fails, `pay` is not called at all.  A call that stops at an
out-of-range index (which needs such an index in the request) has no failing
`try_lock_seat` and does not call `pay`.  In every other call without a
failing `try_lock_seat`, so in particular whenever all requested indices are
in range, `pay` is called exactly once, the calls before it are one successful
`try_lock_seat` per requested seat (in request order), no lock is attempted
and no second `pay` made after it, and every requested seat is `LOCKED` in the
heap step 1 leaves, which is the heap at the moment of the `pay` call. -/
theorem pay_once_after_all_locks (mgr : BookingManager) (user : String)
    (sh : Show) (req : List Int) (payment : IPaymentStrategy) :
    ((∃ i, Event.try_lock i false ∈ (create_booking mgr user sh req payment).trace) →
      pay_calls (create_booking mgr user sh req payment).trace = 0 ∧
      ∀ a r, Event.pay a r ∉ (create_booking mgr user sh req payment).trace) ∧
    ((create_booking mgr user sh req payment).outcome = Outcome.undefined →
      (∃ idx ∈ req, ¬ in_range sh idx) ∧
      (¬ ∃ i, Event.try_lock i false ∈ (create_booking mgr user sh req payment).trace) ∧
      pay_calls (create_booking mgr user sh req payment).trace = 0) ∧
    ((∀ idx ∈ req, in_range sh idx) →
      (create_booking mgr user sh req payment).outcome ≠ Outcome.undefined) ∧
    ((¬ ∃ i, Event.try_lock i false ∈ (create_booking mgr user sh req payment).trace) →
      (create_booking mgr user sh req payment).outcome ≠ Outcome.undefined →
      pay_calls (create_booking mgr user sh req payment).trace = 1 ∧
      (∀ idx ∈ req,
        status_at (lock_loop sh.seats [] [] req).seats idx.toNat
          = some SeatStatus.LOCKED) ∧
      ∃ amount res tail,
        (create_booking mgr user sh req payment).trace
          = req.map (fun idx => Event.try_lock idx.toNat true)
              ++ Event.pay amount res :: tail ∧
        pay_calls tail = 0 ∧ lock_attempts tail = []) := by
  have hloop_pay := lock_loop_pay_calls req sh.seats [] []
  have h0loop : pay_calls (lock_loop sh.seats [] [] req).trace = 0 := by
    rw [hloop_pay]; rfl
  cases h : (lock_loop sh.seats [] [] req).outcome with
  | out_of_range =>
    rw [create_booking_of_out_of_range mgr user sh req payment h]
    refine ⟨fun _ => ⟨h0loop, (pay_calls_eq_zero _).mp h0loop⟩,
      fun _ => ⟨?_, ?_, h0loop⟩,
      fun hr => absurd h (lock_loop_in_range_defined req sh.seats [] [] hr),
      fun _ hd => absurd rfl hd⟩
    · by_contra hall
      push_neg at hall
      exact lock_loop_in_range_defined req sh.seats [] [] hall h
    · intro hf
      have hl := lock_loop_failed_of_trace req sh.seats [] [] (by simp) hf
      rw [h] at hl
      exact absurd hl (by decide)
  | lock_failed =>
    rw [create_booking_of_lock_failed mgr user sh req payment h]
    refine ⟨fun _ => ⟨h0loop, (pay_calls_eq_zero _).mp h0loop⟩,
      fun hu => absurd hu (by simp),
      fun _ => by simp,
      fun hno _ => absurd (lock_loop_trace_of_failed req sh.seats [] [] h) hno⟩
  | all_locked =>
    obtain ⟨-, -, h3⟩ := lock_loop_all_locked_result req sh.seats [] [] h
    rw [List.nil_append] at h3
    have hlocked := lock_loop_all_locked_status req sh.seats [] [] h
    have h0 : pay_calls (req.map fun idx => Event.try_lock idx.toNat true) = 0 := by
      rw [← h3, hloop_pay]; rfl
    have hfail : (∃ i, Event.try_lock i false ∈ (create_booking mgr user sh req payment).trace) →
        False := by
      rintro ⟨i, hi⟩
      have hf := lock_loop_failed_of_trace req sh.seats [] [] (by simp)
        ⟨i, (create_booking_try_lock_mem mgr user sh req payment i false).mp hi⟩
      rw [h] at hf
      exact absurd hf (by decide)
    have hdefd : (create_booking mgr user sh req payment).outcome ≠ Outcome.undefined := by
      intro hu
      cases hp : payment (total_price (lock_loop sh.seats [] [] req).seats
          (lock_loop sh.seats [] [] req).locked_seats) with
      | threw =>
        rw [create_booking_of_threw _ _ _ _ _ h hp] at hu
        simp at hu
      | returned ok =>
        cases ok with
        | false =>
          rw [create_booking_of_declined _ _ _ _ _ h hp] at hu
          simp at hu
        | true =>
          rw [create_booking_of_paid _ _ _ _ _ h hp] at hu
          simp at hu
    refine ⟨fun hf => (hfail hf).elim, fun hu => absurd hu hdefd, fun _ => hdefd, ?_⟩
    · intro _ _
      cases hp : payment (total_price (lock_loop sh.seats [] [] req).seats
          (lock_loop sh.seats [] [] req).locked_seats) with
      | threw =>
        rw [create_booking_of_threw _ _ _ _ _ h hp, h3]
        refine ⟨?_, hlocked, _, _, [], rfl, rfl, rfl⟩
        rw [pay_calls_append, h0]; rfl
      | returned ok =>
        cases ok with
        | false =>
          rw [create_booking_of_declined _ _ _ _ _ h hp, h3]
          refine ⟨?_, hlocked, _, _, _, by rw [List.append_assoc]; rfl,
            pay_calls_map_release _, lock_attempts_map_release _⟩
          rw [pay_calls_append, pay_calls_append, h0, pay_calls_map_release]; rfl
        | true =>
          rw [create_booking_of_paid _ _ _ _ _ h hp, h3]
          refine ⟨?_, hlocked, _, _, _, by rw [List.append_assoc]; rfl,
            pay_calls_map_confirm _, lock_attempts_map_confirm _⟩
          rw [pay_calls_append, pay_calls_append, h0, pay_calls_map_confirm]; rfl

/-- C11 (amended), witness: Alice's call in `main` (indices in range, no
failing lock) makes one `pay` call; the request `[0, 13]` after Alice's
booking fails on seat 0 and makes none, although 13 is out of range. -/
theorem pay_once_after_all_locks_witness :
    (∀ idx ∈ [(0 : Int), 1], in_range main_show idx) ∧
    pay_calls (create_booking BookingManager.new "Alice" main_show [0, 1]
      CreditCardPayment).trace = 1 ∧
    ¬ in_range show_after_alice 13 ∧
    Event.try_lock 0 false ∈
      (create_booking ⟨1001⟩ "Bob" show_after_alice [0, 13] UPIPayment).trace ∧
    pay_calls (create_booking ⟨1001⟩ "Bob" show_after_alice [0, 13] UPIPayment).trace = 0 :=
  ⟨by decide,
    ((pay_once_after_all_locks BookingManager.new "Alice" main_show [0, 1]
      CreditCardPayment).2.2.2
      (by
        rintro ⟨i, hi⟩
        have ht : (create_booking BookingManager.new "Alice" main_show [0, 1]
            CreditCardPayment).trace
            = [Event.try_lock 0 true, Event.try_lock 1 true,
                Event.pay 30 (PayResult.returned true), Event.confirm 0, Event.confirm 1] := by
          decide
        rw [ht] at hi
        simp at hi)
      ((pay_once_after_all_locks BookingManager.new "Alice" main_show [0, 1]
        CreditCardPayment).2.2.1 (by decide))).1,
    by decide,
    by decide,
    ((pay_once_after_all_locks ⟨1001⟩ "Bob" show_after_alice [0, 13] UPIPayment).1
      ⟨0, by decide⟩).1⟩

/-- C12 (as stated, refuted): with two seats priced 1073741824 each, both
locked and paid, the amount passed to `pay` and the `total_price` of the
returned booking are -2147483648, while the prices add up to 2147483648 (a
value no `int` holds). -/
theorem total_price_overflow_counterexample :
    (create_booking BookingManager.new "Rich" pricey_show [0, 1] CreditCardPayment).outcome
      = Outcome.booking
          { booking_id := 1000, user_name := "Rich", booked_seats := [0, 1],
            total_price := -2147483648, status := BookingStatus.CONFIRMED } ∧
    Event.pay (-2147483648) (PayResult.returned true)
      ∈ (create_booking BookingManager.new "Rich" pricey_show [0, 1] CreditCardPayment).trace ∧
    price_sum pricey_show.seats [0, 1] = 2147483648 := by
  decide

/-- C12 (amended): the amount of every `pay` call of `create_booking`, and the
`total_price` of every booking it returns, equal the sum of the `price` fields
of the requested seats reduced to the 32-bit range of `int`; they equal the
exact sum whenever that sum is a value of `int`. -/
theorem total_price_is_wrapped_sum (mgr : BookingManager) (user : String)
    (sh : Show) (req : List Int) (payment : IPaymentStrategy) :
    (∀ a res, Event.pay a res ∈ (create_booking mgr user sh req payment).trace →
      a = wrapInt32 (price_sum sh.seats (req.map Int.toNat)) ∧
      (in_int32 (price_sum sh.seats (req.map Int.toNat)) →
        a = price_sum sh.seats (req.map Int.toNat))) ∧
    (∀ b, (create_booking mgr user sh req payment).outcome = Outcome.booking b →
      b.total_price = wrapInt32 (price_sum sh.seats (req.map Int.toNat)) ∧
      (in_int32 (price_sum sh.seats (req.map Int.toNat)) →
        b.total_price = price_sum sh.seats (req.map Int.toNat))) := by
  constructor
  · intro a res hmem
    obtain ⟨hall, ha, -⟩ := create_booking_pay_mem mgr user sh req payment a res hmem
    have h1 : a = wrapInt32 (price_sum sh.seats (req.map Int.toNat)) := by
      rw [ha, total_price_of_all_locked sh req hall]
    exact ⟨h1, fun hin => by rw [h1, wrapInt32_of_in_int32 _ hin]⟩
  · intro b hb
    obtain ⟨hall, hp, -⟩ := create_booking_booking_inv mgr user sh req payment b hb
    rw [create_booking_of_paid mgr user sh req payment hall hp] at hb
    simp only [Outcome.booking.injEq] at hb
    have h1 : b.total_price = wrapInt32 (price_sum sh.seats (req.map Int.toNat)) := by
      rw [← hb, total_price_of_all_locked sh req hall]
    exact ⟨h1, fun hin => by rw [h1, wrapInt32_of_in_int32 _ hin]⟩

/-- C12 (amended), instance: Alice's two VIP seats in `main` cost 15 + 15 = 30,
and that is the `total_price` of her booking. -/
theorem total_price_is_wrapped_sum_witness :
    price_sum main_show.seats [0, 1] = 30 ∧
    ∀ b, (create_booking BookingManager.new "Alice" main_show [0, 1]
        CreditCardPayment).outcome = Outcome.booking b →
      b.total_price = price_sum main_show.seats [0, 1] :=
  ⟨by decide, fun b hb =>
    ((total_price_is_wrapped_sum BookingManager.new "Alice" main_show [0, 1]
      CreditCardPayment).2 b hb).2 (by decide)⟩

/-- C13 (as stated, refuted): on a fresh manager, 2147482649 calls with an empty
seat list and a succeeding payment return 2147482649 bookings; the first has
id 1000 and the last, returned later, has the smaller id -2147483648 (the
counter passed the largest `int`). -/
theorem booking_id_overflow_counterexample :
    (run_calls ⟨main_show, BookingManager.new, []⟩ many_empty_calls).ids[0]? = some 1000 ∧
    (run_calls ⟨main_show, BookingManager.new, []⟩ many_empty_calls).ids[2147482648]?
      = some (-2147483648) ∧
    ((-2147483648 : Int) < 1000) := by
  have hlen : (run_calls ⟨main_show, BookingManager.new, []⟩ many_empty_calls).bookings.length
      = 2147482649 := by
    unfold many_empty_calls
    rw [run_replicate_empty_call]
    rfl
  have hids := run_calls_ids_fresh main_show many_empty_calls
  rw [hlen] at hids
  rw [hids]
  refine ⟨?_, ?_, by decide⟩
  · rw [List.getElem?_map, List.getElem?_range (by decide)]
    rfl
  · rw [List.getElem?_map, List.getElem?_range (by decide)]
    rfl

/-- C13 (amended): for every sequence of `create_booking` calls on a fresh
`BookingManager` that returns at most 2147482648 bookings (the ids 1000 up to
the largest `int`), the `k`-th returned booking (counting from 0) has id
`1000 + k`; so a booking returned later has a strictly larger id than any
returned earlier, and no two returned bookings share an id. -/
theorem booking_ids_increasing (sh : Show) (calls : List Call)
    (hn : (run_calls ⟨sh, BookingManager.new, []⟩ calls).bookings.length ≤ 2147482648) :
    (run_calls ⟨sh, BookingManager.new, []⟩ calls).ids
      = (List.range (run_calls ⟨sh, BookingManager.new, []⟩ calls).bookings.length).map
          (fun k : Nat => (1000 : Int) + (k : Int)) ∧
    (run_calls ⟨sh, BookingManager.new, []⟩ calls).ids.Pairwise (fun a b => a < b) ∧
    (run_calls ⟨sh, BookingManager.new, []⟩ calls).ids.Nodup := by
  have hids := run_calls_ids_fresh sh calls
  have heq : (run_calls ⟨sh, BookingManager.new, []⟩ calls).ids
      = (List.range (run_calls ⟨sh, BookingManager.new, []⟩ calls).bookings.length).map
          (fun k : Nat => (1000 : Int) + (k : Int)) := by
    rw [hids]
    apply List.map_congr_left
    intro k hk
    have hk2 := List.mem_range.mp hk
    apply wrapInt32_of_in_int32
    unfold in_int32
    omega
  have hpw : (run_calls ⟨sh, BookingManager.new, []⟩ calls).ids.Pairwise
      (fun a b => a < b) := by
    rw [heq, List.pairwise_map]
    exact (List.pairwise_lt_range _).imp (fun {a b} hab => by omega)
  exact ⟨heq, hpw, hpw.imp (fun {a b} hab => by omega)⟩

/-- C13 (amended), witness: Alice's booking and a later booking of seat 2 on
the manager of `main` get the ids 1000 and 1001. -/
theorem booking_ids_increasing_witness :
    (run_calls ⟨main_show, BookingManager.new, []⟩
      [⟨"Alice", [0, 1], CreditCardPayment⟩, ⟨"Bob", [0, 4], UPIPayment⟩,
        ⟨"Dan", [2], UPIPayment⟩]).ids = [1000, 1001] ∧
    (run_calls ⟨main_show, BookingManager.new, []⟩
      [⟨"Alice", [0, 1], CreditCardPayment⟩, ⟨"Bob", [0, 4], UPIPayment⟩,
        ⟨"Dan", [2], UPIPayment⟩]).ids.Pairwise (fun a b => a < b) :=
  ⟨by decide,
    (booking_ids_increasing main_show
      [⟨"Alice", [0, 1], CreditCardPayment⟩, ⟨"Bob", [0, 4], UPIPayment⟩,
        ⟨"Dan", [2], UPIPayment⟩] (by decide)).2.1⟩

/-- C14: the caller never receives a Pending booking.  Every `Booking` that
`create_booking` returns has status `CONFIRMED`; it is returned only after a
`pay` call that returned true (on the booking's total), and every seat in its
`booked_seats` is `BOOKED` in the show when the call returns. -/
theorem returned_booking_confirmed (mgr : BookingManager) (user : String)
    (sh : Show) (req : List Int) (payment : IPaymentStrategy) (b : Booking)
    (hb : (create_booking mgr user sh req payment).outcome = Outcome.booking b) :
    b.status = BookingStatus.CONFIRMED ∧
    b.status ≠ BookingStatus.PENDING ∧
    payment b.total_price = PayResult.returned true ∧
    Event.pay b.total_price (PayResult.returned true)
      ∈ (create_booking mgr user sh req payment).trace ∧
    (∀ i ∈ b.booked_seats,
      status_at (create_booking mgr user sh req payment).show_after.seats i
        = some SeatStatus.BOOKED) := by
  obtain ⟨hall, hp, -⟩ := create_booking_booking_inv mgr user sh req payment b hb
  have hseats := (create_booking_booking_seats mgr user sh req payment b hb).2
  have hb2 := hb
  rw [create_booking_of_paid mgr user sh req payment hall hp] at hb2
  simp only [Outcome.booking.injEq] at hb2
  have hst : b.status = BookingStatus.CONFIRMED := by rw [← hb2]
  have htot : b.total_price = total_price (lock_loop sh.seats [] [] req).seats
      (lock_loop sh.seats [] [] req).locked_seats := by rw [← hb2]
  refine ⟨hst, by rw [hst]; decide, by rw [htot]; exact hp, ?_, fun i hi => (hseats i hi).2⟩
  rw [create_booking_of_paid mgr user sh req payment hall hp, htot]
  simp

/-- C14, witness: the booking Alice receives in `main`. -/
theorem returned_booking_confirmed_witness :
    (create_booking BookingManager.new "Alice" main_show [0, 1] CreditCardPayment).outcome
      = Outcome.booking
          { booking_id := 1000, user_name := "Alice", booked_seats := [0, 1],
            total_price := 30, status := BookingStatus.CONFIRMED } ∧
    (∀ i ∈ [0, 1],
      status_at (create_booking BookingManager.new "Alice" main_show [0, 1]
        CreditCardPayment).show_after.seats i = some SeatStatus.BOOKED) :=
  ⟨by decide,
    (returned_booking_confirmed BookingManager.new "Alice" main_show [0, 1] CreditCardPayment
      { booking_id := 1000, user_name := "Alice", booked_seats := [0, 1],
        total_price := 30, status := BookingStatus.CONFIRMED } (by decide)).2.2.2.2⟩

/-! ## Requests the specification wants rejected -/

/-- C15 (as stated, refuted): on the show of `main`, a call with an empty seat
list and a credit-card payment calls `pay(0)` and returns a `CONFIRMED`
booking with no seats. -/
theorem empty_request_counterexample :
    (create_booking BookingManager.new "Eve" main_show [] CreditCardPayment).outcome
      = Outcome.booking
          { booking_id := 1000, user_name := "Eve", booked_seats := [],
            total_price := 0, status := BookingStatus.CONFIRMED } ∧
    (create_booking BookingManager.new "Eve" main_show [] CreditCardPayment).trace
      = [Event.pay 0 (PayResult.returned true)] := by
  decide

/-- C15 (amended): a call with an empty seat list touches no seat and attempts
no lock, but it is not rejected: `pay(0)` is called once, and the call returns
a `CONFIRMED` booking with no seats and total 0 when `pay` returns true,
`nullptr` when it returns false. -/
theorem empty_request_pays_zero (mgr : BookingManager) (user : String) (sh : Show)
    (payment : IPaymentStrategy) :
    (create_booking mgr user sh [] payment).show_after = sh ∧
    (create_booking mgr user sh [] payment).trace = [Event.pay 0 (payment 0)] ∧
    (payment 0 = PayResult.returned true →
      (create_booking mgr user sh [] payment).outcome
        = Outcome.booking
            { booking_id := mgr.next_booking_id, user_name := user, booked_seats := [],
              total_price := 0, status := BookingStatus.CONFIRMED }) ∧
    (payment 0 = PayResult.returned false →
      (create_booking mgr user sh [] payment).outcome = Outcome.null) := by
  have hl : lock_loop sh.seats [] [] [] = ⟨LockOutcome.all_locked, sh.seats, [], []⟩ := rfl
  have ht : total_price sh.seats [] = 0 := rfl
  cases hp : payment 0 with
  | threw =>
    simp [create_booking, hl, ht, hp, show_with_seats]
  | returned ok =>
    cases ok with
    | false => simp [create_booking, hl, ht, hp, for_each_seat, show_with_seats]
    | true => simp [create_booking, hl, ht, hp, for_each_seat, show_with_seats]

/-- C16: a request list of in-range indices in which some index occurs twice
never yields a booking, whatever the payment strategy: the call returns
`nullptr`, `pay` is not called, and the show (hence every seat status) is as
before the call. -/
theorem duplicate_request_fails (mgr : BookingManager) (user : String)
    (sh : Show) (req : List Int) (payment : IPaymentStrategy)
    (hr : ∀ idx ∈ req, in_range sh idx) (hdup : ¬ req.Nodup) :
    (create_booking mgr user sh req payment).outcome = Outcome.null ∧
    (create_booking mgr user sh req payment).show_after = sh ∧
    (create_booking mgr user sh req payment).show_after.statuses = sh.statuses ∧
    pay_calls (create_booking mgr user sh req payment).trace = 0 := by
  have hdef := lock_loop_in_range_defined req sh.seats [] [] hr
  have hnot : (lock_loop sh.seats [] [] req).outcome ≠ LockOutcome.all_locked :=
    fun h => hdup ((lock_loop_all_locked_iff req sh.seats [] []).mp h).1
  have hfail : (lock_loop sh.seats [] [] req).outcome = LockOutcome.lock_failed := by
    cases h : (lock_loop sh.seats [] [] req).outcome with
    | out_of_range => exact absurd h hdef
    | lock_failed => rfl
    | all_locked => exact absurd h hnot
  rw [create_booking_of_lock_failed mgr user sh req payment hfail]
  refine ⟨rfl, rfl, rfl, ?_⟩
  rw [lock_loop_pay_calls]
  rfl

/-- C16, witness: seat 3 of `main` requested twice. -/
theorem duplicate_request_fails_witness :
    (∀ idx ∈ [(3 : Int), 3], in_range main_show idx) ∧ ¬ [(3 : Int), 3].Nodup ∧
    (create_booking BookingManager.new "Dup" main_show [3, 3] CreditCardPayment).outcome
      = Outcome.null ∧
    (create_booking BookingManager.new "Dup" main_show [3, 3] CreditCardPayment).show_after
      = main_show :=
  have h := duplicate_request_fails BookingManager.new "Dup" main_show [3, 3]
    CreditCardPayment (by decide) (by decide)
  ⟨by decide, by decide, h.1, h.2.1⟩

/-- C17 (as stated, refuted): on the show of `main` (10 seats), the request
`[3, 13]` contains the unknown index 13, yet `try_lock_seat` is attempted and
succeeds on seat 3 before index 13 is reached: seat 3 goes from `AVAILABLE` to
`LOCKED`, and nothing releases it. -/
theorem unknown_seat_counterexample :
    ¬ in_range main_show 13 ∧
    status_at main_show.seats 3 = some SeatStatus.AVAILABLE ∧
    (create_booking BookingManager.new "Uma" main_show [3, 13] CreditCardPayment).trace
      = [Event.try_lock 3 true] ∧
    status_at (create_booking BookingManager.new "Uma" main_show [3, 13]
      CreditCardPayment).show_after.seats 3 = some SeatStatus.LOCKED ∧
    (create_booking BookingManager.new "Uma" main_show [3, 13] CreditCardPayment).outcome
      = Outcome.undefined := by
  decide

/-- C17 (amended): `create_booking` does not check indices before locking.  For
a request `pre ++ bad :: post` in which `pre` lists distinct in-range
`AVAILABLE` seats and `bad` is negative or not smaller than the number of
seats, `try_lock_seat` is attempted and succeeds on every seat of `pre`, in
order, before `bad` is reached; there the call reads `show->seats` out of
bounds, with the seats of `pre` `LOCKED` and `pay` not called. -/
theorem unknown_seat_after_locks (mgr : BookingManager) (user : String) (sh : Show)
    (pre : List Int) (bad : Int) (post : List Int) (payment : IPaymentStrategy)
    (hr : ∀ idx ∈ pre, in_range sh idx) (hnd : pre.Nodup)
    (hav : ∀ idx ∈ pre, status_at sh.seats idx.toNat = some SeatStatus.AVAILABLE)
    (hbad : ¬ in_range sh bad) :
    (create_booking mgr user sh (pre ++ bad :: post) payment).trace
      = pre.map (fun idx => Event.try_lock idx.toNat true) ∧
    (create_booking mgr user sh (pre ++ bad :: post) payment).outcome = Outcome.undefined ∧
    (∀ idx ∈ pre,
      status_at (create_booking mgr user sh (pre ++ bad :: post) payment).show_after.seats
        idx.toNat = some SeatStatus.LOCKED) ∧
    pay_calls (create_booking mgr user sh (pre ++ bad :: post) payment).trace = 0 := by
  have hall := all_available_of_status sh pre hr hav
  have hnone : seat_at (for_each_seat sh.seats (pre.map Int.toNat) lock_effect) bad = none := by
    rw [seat_at_eq_none, length_for_each_seat]
    exact hbad
  have hloop : lock_loop sh.seats [] [] (pre ++ bad :: post)
      = ⟨LockOutcome.out_of_range, for_each_seat sh.seats (pre.map Int.toNat) lock_effect,
          pre.map Int.toNat, pre.map (fun idx => Event.try_lock idx.toNat true)⟩ := by
    rw [lock_loop_append pre sh.seats [] [] (bad :: post) hnd hall,
      lock_loop_cons_none _ _ _ _ _ hnone]
    simp
  have hout : (lock_loop sh.seats [] [] (pre ++ bad :: post)).outcome
      = LockOutcome.out_of_range := by rw [hloop]
  rw [create_booking_of_out_of_range mgr user sh _ payment hout, hloop]
  refine ⟨rfl, rfl, ?_, ?_⟩
  · intro idx hidx
    obtain ⟨s, hs, ha⟩ := hall idx hidx
    have hs2 := ((seat_at_eq_some sh.seats idx s).mp hs).2
    have hm : idx.toNat ∈ pre.map Int.toNat := List.mem_map.mpr ⟨idx, hidx, rfl⟩
    unfold status_at
    simp only
    rw [getElem?_for_each_seat _ lock_effect_twice]
    simp [hm, hs2, lock_effect_available s ha]
  · have h0 := lock_loop_pay_calls (pre ++ bad :: post) sh.seats [] []
    rw [hloop] at h0
    exact h0

/-- C17 (amended), witness: the request `[3, 13]` on the show of `main`. -/
theorem unknown_seat_after_locks_witness :
    (create_booking BookingManager.new "Uma" main_show ([3] ++ 13 :: []) CreditCardPayment).trace
      = [Event.try_lock 3 true] ∧
    (∀ idx ∈ [(3 : Int)],
      status_at (create_booking BookingManager.new "Uma" main_show ([3] ++ 13 :: [])
        CreditCardPayment).show_after.seats idx.toNat = some SeatStatus.LOCKED) :=
  have h := unknown_seat_after_locks BookingManager.new "Uma" main_show [3] 13 []
    CreditCardPayment (by decide) (by decide) (by decide) (by decide)
  ⟨h.1, h.2.2.1⟩

/-- C18 (as stated, refuted): after Alice's booking in `main`, Bob's request for
the booked seat 0 fails on the lock and Dan's request for seat 4 fails on a
declined payment; both calls return the same thing, `nullptr`, and leave the
same show and manager: nothing returned carries a failure kind or a seat id. -/
theorem failure_kinds_counterexample :
    Event.try_lock 0 false
      ∈ (create_booking ⟨1001⟩ "Bob" show_after_alice [0] UPIPayment).trace ∧
    Event.pay 15 (PayResult.returned false)
      ∈ (create_booking ⟨1001⟩ "Dan" show_after_alice [4] DecliningPayment).trace ∧
    (create_booking ⟨1001⟩ "Bob" show_after_alice [0] UPIPayment).outcome
      = (create_booking ⟨1001⟩ "Dan" show_after_alice [4] DecliningPayment).outcome ∧
    (create_booking ⟨1001⟩ "Bob" show_after_alice [0] UPIPayment).show_after
      = (create_booking ⟨1001⟩ "Dan" show_after_alice [4] DecliningPayment).show_after ∧
    (create_booking ⟨1001⟩ "Bob" show_after_alice [0] UPIPayment).manager
      = (create_booking ⟨1001⟩ "Dan" show_after_alice [4] DecliningPayment).manager := by
  decide

/-- C18 (amended): when a lock fails and when `pay` returns false,
`create_booking` returns the same result, `nullptr`, with the show and the
manager as before the call; the result carries neither a failure kind nor a
seat id. -/
theorem failures_return_null (mgr : BookingManager) (user : String) (sh : Show)
    (req : List Int) (payment : IPaymentStrategy)
    (hfail : (∃ i, Event.try_lock i false ∈ (create_booking mgr user sh req payment).trace) ∨
      (∃ a, Event.pay a (PayResult.returned false)
        ∈ (create_booking mgr user sh req payment).trace)) :
    (create_booking mgr user sh req payment).outcome = Outcome.null ∧
    (create_booking mgr user sh req payment).show_after = sh ∧
    (create_booking mgr user sh req payment).manager = mgr := by
  rcases hfail with ⟨i, hi⟩ | ⟨a, ha⟩
  · have hloop : (lock_loop sh.seats [] [] req).outcome = LockOutcome.lock_failed :=
      lock_loop_failed_of_trace req sh.seats [] [] (by simp)
        ⟨i, (create_booking_try_lock_mem mgr user sh req payment i false).mp hi⟩
    rw [create_booking_of_lock_failed mgr user sh req payment hloop]
    exact ⟨rfl, rfl, rfl⟩
  · obtain ⟨hall, hamt, hres⟩ := create_booking_pay_mem mgr user sh req payment a _ ha
    have hp : payment (total_price (lock_loop sh.seats [] [] req).seats
        (lock_loop sh.seats [] [] req).locked_seats) = PayResult.returned false := by
      rw [← hamt]; exact hres.symm
    rw [create_booking_of_declined mgr user sh req payment hall hp]
    refine ⟨rfl, ?_, rfl⟩
    simp only [release_all_locked sh req hall, show_with_seats]

/-- C18 (amended), witness: Bob's failed lock after Alice's booking. -/
theorem failures_return_null_witness :
    (create_booking ⟨1001⟩ "Bob" show_after_alice [0] UPIPayment).outcome = Outcome.null ∧
    (create_booking ⟨1001⟩ "Bob" show_after_alice [0] UPIPayment).show_after
      = show_after_alice :=
  have h := failures_return_null ⟨1001⟩ "Bob" show_after_alice [0] UPIPayment
    (Or.inl ⟨0, by decide⟩)
  ⟨h.1, h.2.1⟩

/-- C19 (as stated, refuted): for the request `[4, 0]` on the show of `main`,
`try_lock_seat` is attempted on seat 4 and then on seat 0: the attempts are in
the order listed, not in ascending order, and they are not an initial segment
of the sorted request `[0, 4]`. -/
theorem lock_order_counterexample :
    lock_attempts (create_booking BookingManager.new "Bob" main_show [4, 0] UPIPayment).trace
      = [4, 0] ∧
    ¬ List.Pairwise (fun a b : Nat => a ≤ b)
      (lock_attempts
        (create_booking BookingManager.new "Bob" main_show [4, 0] UPIPayment).trace) ∧
    lock_attempts (create_booking BookingManager.new "Bob" main_show [4, 0] UPIPayment).trace
      ≠ [0, 4] := by
  decide

/-- C19 (amended): `create_booking` does not sort.  For every request list, the
sequence of seats on which `try_lock_seat` is attempted is an initial segment
of the request list in the order the caller gave it. -/
theorem lock_order_is_request_order (mgr : BookingManager) (user : String) (sh : Show)
    (req : List Int) (payment : IPaymentStrategy) :
    ∃ k, k ≤ req.length ∧
      lock_attempts (create_booking mgr user sh req payment).trace
        = (req.map Int.toNat).take k := by
  obtain ⟨k, hk, hk2⟩ := lock_loop_attempts req sh.seats [] []
  refine ⟨k, hk, ?_⟩
  rw [create_booking_lock_attempts, hk2]
  simp [lock_attempts]

/-- C20 (the code at the failing input): on the show of `main`, a request for
seats 1 and 4 with a payment strategy whose `pay` throws ends by the exception
leaving `create_booking`; no `release_lock` is called, and seats 1 and 4, which
were `AVAILABLE`, stay `LOCKED`. -/
theorem throwing_payment_leaves_seats_locked :
    status_at main_show.seats 1 = some SeatStatus.AVAILABLE ∧
    status_at main_show.seats 4 = some SeatStatus.AVAILABLE ∧
    (create_booking BookingManager.new "Tom" main_show [1, 4] ThrowingPayment).outcome
      = Outcome.exception ∧
    (create_booking BookingManager.new "Tom" main_show [1, 4] ThrowingPayment).trace
      = [Event.try_lock 1 true, Event.try_lock 4 true, Event.pay 30 PayResult.threw] ∧
    status_at (create_booking BookingManager.new "Tom" main_show [1, 4]
      ThrowingPayment).show_after.seats 1 = some SeatStatus.LOCKED ∧
    status_at (create_booking BookingManager.new "Tom" main_show [1, 4]
      ThrowingPayment).show_after.seats 4 = some SeatStatus.LOCKED := by
  decide

/-! ## Fail-fast, leases, exact success condition, frame, order independence -/

/-- C21: fail-fast termination.  `create_booking` is a total function (the
locking loop recurses on the request list, so every call returns), and for a
request list of in-range indices it ends with a booking, `nullptr` or the
exception of `pay`, never in an out-of-bounds read.  The seats on which
`try_lock_seat` is attempted are an initial segment of the request (at most
one attempt per listed index, in order).  When some `try_lock_seat` returns
false, the request splits at that index: the failing attempt is the last lock
attempt, only releases of the seats locked before it follow, `pay` is not
called and the call returns `nullptr`. -/
theorem fail_fast (mgr : BookingManager) (user : String)
    (sh : Show) (req : List Int) (payment : IPaymentStrategy)
    (hr : ∀ idx ∈ req, in_range sh idx) :
    (create_booking mgr user sh req payment).outcome ≠ Outcome.undefined ∧
    (∃ k, k ≤ req.length ∧
      lock_attempts (create_booking mgr user sh req payment).trace
        = (req.map Int.toNat).take k) ∧
    ((∃ i, Event.try_lock i false ∈ (create_booking mgr user sh req payment).trace) →
      (create_booking mgr user sh req payment).outcome = Outcome.null ∧
      ∃ pre idx post, req = pre ++ idx :: post ∧
        (create_booking mgr user sh req payment).trace
          = pre.map (fun k => Event.try_lock k.toNat true)
              ++ Event.try_lock idx.toNat false :: (pre.map Int.toNat).map Event.release ∧
        lock_attempts (create_booking mgr user sh req payment).trace
          = pre.map Int.toNat ++ [idx.toNat]) := by
  have hdef := lock_loop_in_range_defined req sh.seats [] [] hr
  refine ⟨?_, ?_, ?_⟩
  · cases h : (lock_loop sh.seats [] [] req).outcome with
    | out_of_range => exact absurd h hdef
    | lock_failed => rw [create_booking_of_lock_failed _ _ _ _ _ h]; simp
    | all_locked =>
      cases hp : payment (total_price (lock_loop sh.seats [] [] req).seats
          (lock_loop sh.seats [] [] req).locked_seats) with
      | threw => rw [create_booking_of_threw _ _ _ _ _ h hp]; simp
      | returned ok =>
        cases ok with
        | false => rw [create_booking_of_declined _ _ _ _ _ h hp]; simp
        | true => rw [create_booking_of_paid _ _ _ _ _ h hp]; simp
  · obtain ⟨k, hk, hk2⟩ := lock_loop_attempts req sh.seats [] []
    refine ⟨k, hk, ?_⟩
    rw [create_booking_lock_attempts, hk2]
    simp [lock_attempts]
  · rintro ⟨i, hi⟩
    have hloop : (lock_loop sh.seats [] [] req).outcome = LockOutcome.lock_failed :=
      lock_loop_failed_of_trace req sh.seats [] [] (by simp)
        ⟨i, (create_booking_try_lock_mem mgr user sh req payment i false).mp hi⟩
    obtain ⟨pre, idx, post, h1, -, h3⟩ := lock_loop_failed_split req sh.seats [] [] hloop
    rw [create_booking_of_lock_failed mgr user sh req payment hloop]
    refine ⟨rfl, pre, idx, post, h1, by simpa using h3, ?_⟩
    simp only [h3, List.nil_append, lock_attempts_append]
    have h4 : lock_attempts (Event.try_lock idx.toNat false
        :: (pre.map Int.toNat).map Event.release) = [idx.toNat] := by
      have h5 := lock_attempts_map_release (pre.map Int.toNat)
      simp only [lock_attempts] at h5 ⊢
      rw [List.filterMap_cons, h5]
    rw [h4]
    have h6 : lock_attempts (pre.map fun k => Event.try_lock k.toNat true)
        = pre.map Int.toNat := lock_attempts_map_try_lock pre
    rw [h6]

/-- C21, witness: in the show of `main` after Alice's booking, the request
`[4, 0, 2]` locks seat 4, fails on the booked seat 0 and never tries seat 2. -/
theorem fail_fast_witness :
    (∀ idx ∈ [(4 : Int), 0, 2], in_range show_after_alice idx) ∧
    (create_booking ⟨1001⟩ "Bob" show_after_alice [4, 0, 2] UPIPayment).outcome
      ≠ Outcome.undefined ∧
    (create_booking ⟨1001⟩ "Bob" show_after_alice [4, 0, 2] UPIPayment).trace
      = [Event.try_lock 4 true, Event.try_lock 0 false, Event.release 4] :=
  ⟨by decide,
    (fail_fast ⟨1001⟩ "Bob" show_after_alice [4, 0, 2] UPIPayment (by decide)).1,
    by decide⟩

/-- C23 (as stated, refuted): seat 1 of `main` is left `LOCKED` by a request
whose payment threw.  However much later, the next request for it finds it
taken: `try_lock_seat` returns false, the call returns `nullptr`, and the seat
is still `LOCKED`; nobody called `release_lock`. -/
theorem lease_counterexample :
    status_at show_after_throw.seats 1 = some SeatStatus.LOCKED ∧
    (create_booking BookingManager.new "Ann" show_after_throw [1] CreditCardPayment).trace
      = [Event.try_lock 1 false] ∧
    (create_booking BookingManager.new "Ann" show_after_throw [1] CreditCardPayment).outcome
      = Outcome.null ∧
    status_at (create_booking BookingManager.new "Ann" show_after_throw [1]
      CreditCardPayment).show_after.seats 1 = some SeatStatus.LOCKED := by
  decide

/-- C23 (amended): a lock has no expiry.  On a `LOCKED` seat `try_lock_seat`
returns false and changes nothing, however often it is called, and every
finite sequence of `create_booking` calls on the show leaves the seat as it
is; only a `release_lock` (to `AVAILABLE`) or a `confirm_booking` (to `BOOKED`)
called on the seat ends the lock. -/
theorem lock_has_no_lease (st : System) (j : Nat) (s : Seat)
    (hj : st.show_now.seats[j]? = some s) (hl : s.status = SeatStatus.LOCKED) :
    (s.try_lock_seat).1 = false ∧
    (∀ n : Nat, apply_ops (List.replicate n SeatOp.try_lock_seat) s = s) ∧
    (∀ calls : List Call,
      (run_calls st calls).show_now.seats[j]? = some s ∧
      status_at (run_calls st calls).show_now.seats j = some SeatStatus.LOCKED) ∧
    s.release_lock.status = SeatStatus.AVAILABLE ∧
    s.confirm_booking.status = SeatStatus.BOOKED := by
  have hna : s.status ≠ SeatStatus.AVAILABLE := by rw [hl]; decide
  have htl : (s.try_lock_seat).2 = s := by simp [Seat.try_lock_seat, hna]
  refine ⟨by simp [Seat.try_lock_seat, hna], ?_, ?_, by simp [Seat.release_lock, hl],
    by simp [Seat.confirm_booking]⟩
  · intro n
    induction n with
    | zero => rfl
    | succ m ih =>
      rw [List.replicate_succ]
      simp only [apply_ops, List.foldl_cons, SeatOp.apply] at ih ⊢
      rw [htl]
      exact ih
  · intro calls
    have h := run_calls_taken_unchanged calls st j s hj hna
    exact ⟨h, (status_at_eq_some _ _ _).mpr ⟨s, h, hl⟩⟩

/-- C23 (amended), witness: seat 1 left `LOCKED` by the throwing payment stays
`LOCKED` through two later requests for it. -/
theorem lock_has_no_lease_witness :
    status_at
      (run_calls ⟨show_after_throw, BookingManager.new, []⟩
        [⟨"Ann", [1], CreditCardPayment⟩, ⟨"Ben", [2, 1], UPIPayment⟩]).show_now.seats 1
      = some SeatStatus.LOCKED :=
  ((lock_has_no_lease ⟨show_after_throw, BookingManager.new, []⟩ 1
      { row := 0, col := 2, type := SeatType.VIP, status := SeatStatus.LOCKED, price := 15 }
      (by decide) rfl).2.2.1
    [⟨"Ann", [1], CreditCardPayment⟩, ⟨"Ben", [2, 1], UPIPayment⟩]).2

/-- C26: exact success condition.  For a request list of in-range indices and
any payment strategy, `create_booking` returns a booking if and only if the
requested indices are pairwise distinct, every requested seat is `AVAILABLE`
before the call, and `pay` returns true on the total of their prices (the sum
loop of step 2 over the requested seats, an `int`); that total is the exact
sum of the prices whenever the exact sum is a value of `int`. -/
theorem booking_iff_distinct_available_paid (mgr : BookingManager) (user : String)
    (sh : Show) (req : List Int) (payment : IPaymentStrategy)
    (hr : ∀ idx ∈ req, in_range sh idx) :
    ((∃ b, (create_booking mgr user sh req payment).outcome = Outcome.booking b) ↔
      req.Nodup ∧
      (∀ idx ∈ req, status_at sh.seats idx.toNat = some SeatStatus.AVAILABLE) ∧
      payment (total_price sh.seats (req.map Int.toNat)) = PayResult.returned true) ∧
    (in_int32 (price_sum sh.seats (req.map Int.toNat)) →
      total_price sh.seats (req.map Int.toNat) = price_sum sh.seats (req.map Int.toNat)) := by
  constructor
  · constructor
    · rintro ⟨b, hb⟩
      obtain ⟨hall, hp, -⟩ := create_booking_booking_inv mgr user sh req payment b hb
      obtain ⟨hnd, hav⟩ := (lock_loop_all_locked_iff req sh.seats [] []).mp hall
      refine ⟨hnd, status_of_all_available sh.seats req hav, ?_⟩
      rw [total_price_of_all_locked sh req hall, ← total_price_eq_wrap_sum] at hp
      exact hp
    · rintro ⟨hnd, hav, hpay⟩
      have hall : (lock_loop sh.seats [] [] req).outcome = LockOutcome.all_locked :=
        (lock_loop_all_locked_iff req sh.seats [] []).mpr
          ⟨hnd, all_available_of_status sh req hr hav⟩
      have hp : payment (total_price (lock_loop sh.seats [] [] req).seats
          (lock_loop sh.seats [] [] req).locked_seats) = PayResult.returned true := by
        rw [total_price_of_all_locked sh req hall, ← total_price_eq_wrap_sum]
        exact hpay
      rw [create_booking_of_paid mgr user sh req payment hall hp]
      exact ⟨_, rfl⟩
  · intro hin
    rw [total_price_eq_wrap_sum, wrapInt32_of_in_int32 _ hin]

/-- C26, witness: Alice's request in `main` meets the condition and returns a
booking; Bob's request for the booked seat 0 does not. -/
theorem booking_iff_distinct_available_paid_witness :
    (∀ idx ∈ [(0 : Int), 1], in_range main_show idx) ∧
    (∃ b, (create_booking BookingManager.new "Alice" main_show [0, 1]
      CreditCardPayment).outcome = Outcome.booking b) ∧
    ¬ (∃ b, (create_booking ⟨1001⟩ "Bob" show_after_alice [0, 4] UPIPayment).outcome
      = Outcome.booking b) :=
  ⟨by decide,
    ((booking_iff_distinct_available_paid BookingManager.new "Alice" main_show [0, 1]
      CreditCardPayment (by decide)).1).mpr ⟨by decide, by decide, rfl⟩,
    fun h =>
      absurd
        ((((booking_iff_distinct_available_paid ⟨1001⟩ "Bob" show_after_alice [0, 4]
          UPIPayment (by decide)).1).mp h).2.1 0 (by decide))
        (by decide)⟩

/-- C27 (as stated, refuted): on a fresh manager, 2147482647 successful calls
bring `next_booking_id` to 2147483647, the largest `int`; the next successful
call returns one more booking and leaves `next_booking_id` at -2147483648: it
did not advance by one. -/
theorem next_id_overflow_counterexample :
    (run_calls ⟨main_show, BookingManager.new, []⟩
      nearly_many_empty_calls).manager.next_booking_id = 2147483647 ∧
    ((run_calls ⟨main_show, BookingManager.new, []⟩
      nearly_many_empty_calls).step empty_call).bookings.length
      = (run_calls ⟨main_show, BookingManager.new, []⟩
          nearly_many_empty_calls).bookings.length + 1 ∧
    ((run_calls ⟨main_show, BookingManager.new, []⟩
      nearly_many_empty_calls).step empty_call).manager.next_booking_id = -2147483648 := by
  have hlen : (run_calls ⟨main_show, BookingManager.new, []⟩
      nearly_many_empty_calls).bookings.length = 2147482647 := by
    unfold nearly_many_empty_calls
    rw [run_replicate_empty_call]
    rfl
  have hid := run_calls_next_id_fresh main_show nearly_many_empty_calls
  rw [hlen] at hid
  have hid2 : (run_calls ⟨main_show, BookingManager.new, []⟩
      nearly_many_empty_calls).manager.next_booking_id = 2147483647 := by
    rw [hid]; decide
  refine ⟨hid2, step_empty_call _, ?_⟩
  rw [step_empty_call_next_id, hid2]
  decide

/-- C27 (amended): frame of a reservation.  For every `create_booking` call,
however it ends: a seat whose index is not in the request list is left exactly
as it was; the show keeps its number of seats, and every seat keeps its row,
column, type and price; movie, time slot and hall name are unchanged.  The
manager is unchanged when no booking is returned.  When a booking is returned
it carries the current `next_booking_id`, which then advances by exactly one
as long as it was below the largest `int` (in general: by one with 32-bit
wrap-around).  From a fresh manager, while at most 2147482648 bookings have
been returned, the `k`-th returned booking (from 0) has id `1000 + k`. -/
theorem reservation_frame (mgr : BookingManager) (user : String)
    (sh : Show) (req : List Int) (payment : IPaymentStrategy) :
    (∀ j : Nat, (j : Int) ∉ req →
      (create_booking mgr user sh req payment).show_after.seats[j]? = sh.seats[j]?) ∧
    (create_booking mgr user sh req payment).show_after.seats.length = sh.seats.length ∧
    (∀ j : Nat,
      ((create_booking mgr user sh req payment).show_after.seats[j]?).map Seat.fixed_part
        = (sh.seats[j]?).map Seat.fixed_part) ∧
    ((create_booking mgr user sh req payment).show_after.movie = sh.movie ∧
      (create_booking mgr user sh req payment).show_after.time_slot = sh.time_slot ∧
      (create_booking mgr user sh req payment).show_after.hall_name = sh.hall_name) ∧
    ((∀ b, (create_booking mgr user sh req payment).outcome ≠ Outcome.booking b) →
      (create_booking mgr user sh req payment).manager = mgr) ∧
    (∀ b, (create_booking mgr user sh req payment).outcome = Outcome.booking b →
      b.booking_id = mgr.next_booking_id ∧
      (create_booking mgr user sh req payment).manager.next_booking_id
        = wrapInt32 (mgr.next_booking_id + 1) ∧
      (in_int32 mgr.next_booking_id → mgr.next_booking_id < 2147483647 →
        (create_booking mgr user sh req payment).manager.next_booking_id
          = mgr.next_booking_id + 1)) ∧
    (∀ (sh0 : Show) (calls : List Call),
      (run_calls ⟨sh0, BookingManager.new, []⟩ calls).bookings.length ≤ 2147482648 →
      (run_calls ⟨sh0, BookingManager.new, []⟩ calls).ids
        = (List.range (run_calls ⟨sh0, BookingManager.new, []⟩ calls).bookings.length).map
            (fun k : Nat => (1000 : Int) + (k : Int))) := by
  obtain ⟨hb1, hb2⟩ := create_booking_manager mgr user sh req payment
  refine ⟨?_, create_booking_length mgr user sh req payment, ?_,
    create_booking_show_fields mgr user sh req payment, hb2, ?_, ?_⟩
  · intro j hj
    rcases create_booking_seat_fate mgr user sh req payment j with h | ⟨⟨idx, hidx, h0, hij⟩, -⟩
    · exact h
    · have : (j : Int) = idx := by omega
      exact absurd (this ▸ hidx) hj
  · intro j
    rcases create_booking_seat_fate mgr user sh req payment j with
      h | ⟨-, s, hs, -, h | h⟩
    · rw [h]
    · rw [h, hs]; rfl
    · rw [h, hs]; rfl
  · intro b hb
    obtain ⟨h1, h2⟩ := hb1 b hb
    refine ⟨h1, by rw [h2], ?_⟩
    intro hin hlt
    rw [h2]
    apply wrapInt32_of_in_int32
    unfold in_int32 at hin ⊢
    omega
  · intro sh0 calls hn
    rw [run_calls_ids_fresh sh0 calls]
    apply List.map_congr_left
    intro k hk
    have hk2 := List.mem_range.mp hk
    apply wrapInt32_of_in_int32
    unfold in_int32
    omega

/-- C27 (amended), instance: Alice's call in `main` changes the status of seats
0 and 1 only, and moves `next_booking_id` from 1000 to 1001. -/
theorem reservation_frame_witness :
    (∀ j : Nat, (j : Int) ∉ [(0 : Int), 1] →
      (create_booking BookingManager.new "Alice" main_show [0, 1]
        CreditCardPayment).show_after.seats[j]? = main_show.seats[j]?) ∧
    (create_booking BookingManager.new "Alice" main_show [0, 1]
      CreditCardPayment).manager.next_booking_id = 1001 :=
  ⟨(reservation_frame BookingManager.new "Alice" main_show [0, 1] CreditCardPayment).1,
    by decide⟩

/-- C28: order independence of the outcome.  For a request list `r` of in-range
indices and a permutation `r2` of it, with the same payment strategy (a
function of the amount) and from the same show and manager, the two calls of
`create_booking` leave the same show (so every seat has the same final status)
and the same manager; one returns `nullptr`, ends by the exception of `pay`,
or returns a booking exactly when the other does; the same `pay` calls (amount
and answer) are made; and two returned bookings have the same id, user, total
price and status, their `booked_seats` being permutations of each other. -/
theorem order_independence (mgr : BookingManager) (user : String) (sh : Show)
    (r r2 : List Int) (payment : IPaymentStrategy)
    (hr : ∀ idx ∈ r, in_range sh idx) (hp : r.Perm r2) :
    (create_booking mgr user sh r payment).show_after
      = (create_booking mgr user sh r2 payment).show_after ∧
    (create_booking mgr user sh r payment).show_after.statuses
      = (create_booking mgr user sh r2 payment).show_after.statuses ∧
    (create_booking mgr user sh r payment).manager
      = (create_booking mgr user sh r2 payment).manager ∧
    ((create_booking mgr user sh r payment).outcome = Outcome.null ↔
      (create_booking mgr user sh r2 payment).outcome = Outcome.null) ∧
    ((create_booking mgr user sh r payment).outcome = Outcome.exception ↔
      (create_booking mgr user sh r2 payment).outcome = Outcome.exception) ∧
    ((∃ b1, (create_booking mgr user sh r payment).outcome = Outcome.booking b1) ↔
      (∃ b2, (create_booking mgr user sh r2 payment).outcome = Outcome.booking b2)) ∧
    (∀ b1 b2, (create_booking mgr user sh r payment).outcome = Outcome.booking b1 →
      (create_booking mgr user sh r2 payment).outcome = Outcome.booking b2 →
      b2.booking_id = b1.booking_id ∧ b2.user_name = b1.user_name ∧
      b2.total_price = b1.total_price ∧ b2.status = b1.status ∧
      b2.booked_seats.Perm b1.booked_seats) ∧
    (∀ a res, Event.pay a res ∈ (create_booking mgr user sh r payment).trace ↔
      Event.pay a res ∈ (create_booking mgr user sh r2 payment).trace) := by
  have hr2 : ∀ idx ∈ r2, in_range sh idx := fun idx hidx => hr idx (hp.mem_iff.mpr hidx)
  obtain ⟨a1, a2, -, a4, a5, a6, a7⟩ := create_booking_perm mgr user sh r r2 payment hr hp
  obtain ⟨-, -, -, b4, b5, b6, b7⟩ :=
    create_booking_perm mgr user sh r2 r payment hr2 hp.symm
  refine ⟨a1, by rw [a1], a2, ⟨a4, b4⟩, ⟨a5, b5⟩, ?_, ?_, fun a res => ⟨a7 a res, b7 a res⟩⟩
  · constructor
    · rintro ⟨b1, hb1⟩
      obtain ⟨b2, hb2, -⟩ := a6 b1 hb1
      exact ⟨b2, hb2⟩
    · rintro ⟨b2, hb2⟩
      obtain ⟨b1, hb1, -⟩ := b6 b2 hb2
      exact ⟨b1, hb1⟩
  · intro b1 b2 hb1 hb2
    obtain ⟨b3, hb3, h⟩ := a6 b1 hb1
    rw [hb2] at hb3
    simp only [Outcome.booking.injEq] at hb3
    rw [hb3]
    exact h

/-- C28, witness: seats 4 and 2 of `main` requested as `[4, 2]` and as
`[2, 4]`. -/
theorem order_independence_witness :
    (∀ idx ∈ [(4 : Int), 2], in_range main_show idx) ∧ [(4 : Int), 2].Perm [2, 4] ∧
    (create_booking BookingManager.new "Ann" main_show [4, 2] CreditCardPayment).show_after
      = (create_booking BookingManager.new "Ann" main_show [2, 4] CreditCardPayment).show_after :=
  ⟨by decide, by decide,
    (order_independence BookingManager.new "Ann" main_show [4, 2] [2, 4] CreditCardPayment
      (by decide) (by decide)).1⟩

end BookMyShow

namespace CommandBank

open BookMyShow (wrapInt32 in_int32)

/-! ## Command pattern: undoing a history -/

theorem undo_all_cons (account : BankAccount) (c : BankAccountCommand)
    (history : List BankAccountCommand) :
    undo_all account (c :: history) = c.undo (undo_all account history) := by
  simp [undo_all, List.foldl_append]

theorem call_all_cons (account : BankAccount) (c : BankAccountCommand)
    (rest : List BankAccountCommand) :
    call_all account (c :: rest)
      = ((call_all (c.call account).1 rest).1,
          (c.call account).2 :: (call_all (c.call account).1 rest).2) := rfl

theorem total_amount_cons (c : BankAccountCommand) (rest : List BankAccountCommand) :
    total_amount (c :: rest) = c.amount + total_amount rest := by
  simp [total_amount]

theorem total_amount_nonneg (cmds : List BankAccountCommand)
    (h : ∀ c ∈ cmds, 0 ≤ c.amount) : 0 ≤ total_amount cmds := by
  induction cmds with
  | nil => simp [total_amount]
  | cons c rest ih =>
    rw [total_amount_cons]
    have h1 := h c (List.mem_cons_self _ _)
    have h2 := ih (fun d hd => h d (List.mem_cons_of_mem _ hd))
    omega

/-- One command called and then undone, with no `int` overflow in reach: the
account is as before, and in between its balance stays above the overdraft
limit and grows by at most the amount. -/
theorem call_undo_step (c : BankAccountCommand) (acc : BankAccount)
    (hl : acc.overdraft_limit = -500) (hb : -500 ≤ acc.balance)
    (ha : 0 ≤ c.amount) (ha2 : c.amount ≤ 2147483147)
    (hs : acc.balance + c.amount ≤ 2147483147) :
    (c.call acc).2.undo (c.call acc).1 = acc ∧
    (c.call acc).1.overdraft_limit = -500 ∧
    -500 ≤ (c.call acc).1.balance ∧
    (c.call acc).1.balance ≤ acc.balance + c.amount := by
  obtain ⟨b, l⟩ := acc
  obtain ⟨act, a, su⟩ := c
  simp only at hl hb ha ha2 hs
  subst hl
  cases act with
  | deposit =>
    have h1 : wrapInt32 (b + a) = b + a := by unfold wrapInt32; omega
    have h2 : wrapInt32 b = b := by unfold wrapInt32; omega
    simp [BankAccountCommand.call, BankAccountCommand.undo, BankAccount.deposit,
      BankAccount.withdraw, h1, h2, hb]
    omega
  | withdraw =>
    have h1 : wrapInt32 (b - a) = b - a := by unfold wrapInt32; omega
    by_cases hc : -500 ≤ b - a
    · have h2 : wrapInt32 b = b := by unfold wrapInt32; omega
      simp [BankAccountCommand.call, BankAccountCommand.undo, BankAccount.deposit,
        BankAccount.withdraw, h1, h2, hc]
      omega
    · simp [BankAccountCommand.call, BankAccountCommand.undo, BankAccount.withdraw, h1, hc, hb]
      omega

/-- Calling a history and undoing it backwards restores the account, as long
as the amounts are non-negative and small enough for `int`. -/
theorem call_undo_restores (cmds : List BankAccountCommand) :
    ∀ acc : BankAccount, acc.overdraft_limit = -500 → -500 ≤ acc.balance →
      (∀ c ∈ cmds, 0 ≤ c.amount) → total_amount cmds ≤ 2147483147 →
      acc.balance + total_amount cmds ≤ 2147483147 →
      undo_all (call_all acc cmds).1 (call_all acc cmds).2 = acc := by
  induction cmds with
  | nil => intro acc _ _ _ _ _; rfl
  | cons c rest ih =>
    intro acc hl hb hpos ht hs
    rw [total_amount_cons] at ht hs
    have hc := hpos c (List.mem_cons_self _ _)
    have hrest : ∀ d ∈ rest, 0 ≤ d.amount := fun d hd => hpos d (List.mem_cons_of_mem _ hd)
    have hr0 := total_amount_nonneg rest hrest
    obtain ⟨h1, h2, h3, h4⟩ := call_undo_step c acc hl hb hc (by omega) (by omega)
    rw [call_all_cons]
    simp only
    rw [undo_all_cons, ih (c.call acc).1 h2 h3 hrest (by omega) (by omega)]
    exact h1

/-- C24 (as stated, refuted): three deposits of 2147483647, 2 and 1 (non-negative
`int` amounts) on a fresh account, called in order and undone in reverse
order, leave the balance at 3, not 0: the second deposit passes the largest
`int`, and two of the undoing withdrawals are refused. -/
theorem undo_overflow_counterexample :
    (∀ c ∈ overflowing_commands, 0 ≤ c.amount ∧ in_int32 c.amount) ∧
    (call_all BankAccount.new overflowing_commands).1.balance = -2147483646 ∧
    (call_then_undo overflowing_commands).balance = 3 := by
  decide

/-- C24 (amended): for every list of deposit/withdraw commands with
non-negative amounts that add up to at most 2147483147 (the largest `int`
minus 500), calling all of them in order on an account with balance 0 and
overdraft limit -500 and then undoing all of them in reverse order gives the
account back, balance 0; a command whose `succeeded` flag is false (a
withdrawal that failed) is not undone: its `undo` changes nothing. -/
theorem undo_restores_account (cmds : List BankAccountCommand)
    (hpos : ∀ c ∈ cmds, 0 ≤ c.amount) (hsum : total_amount cmds ≤ 2147483147) :
    call_then_undo cmds = BankAccount.new ∧
    (call_then_undo cmds).balance = 0 ∧
    (∀ (c : BankAccountCommand) (acc : BankAccount), c.succeeded = false → c.undo acc = acc) ∧
    (∀ (c : BankAccountCommand) (acc : BankAccount), c.action = Action.withdraw →
      ((c.call acc).2.succeeded = false ↔ (acc.withdraw c.amount).1 = false)) := by
  have h : call_then_undo cmds = BankAccount.new :=
    call_undo_restores cmds BankAccount.new rfl (by decide) hpos hsum
      (by show (0 : Int) + total_amount cmds ≤ 2147483147; omega)
  refine ⟨h, by rw [h]; rfl, ?_, ?_⟩
  · intro c acc hc
    simp [BankAccountCommand.undo, hc]
  · intro c acc hc
    simp [BankAccountCommand.call, hc]

/-- C24 (amended), witness: the three commands of `main` (deposit 100, withdraw
50, a failing withdraw 500) bring the balance back to 0. -/
theorem undo_restores_account_witness :
    (∀ c ∈ main_commands, 0 ≤ c.amount) ∧ total_amount main_commands ≤ 2147483147 ∧
    (call_then_undo main_commands).balance = 0 :=
  ⟨by decide, by decide, (undo_restores_account main_commands (by decide) (by decide)).2.1⟩

end CommandBank

namespace StatePattern

/-! ## State pattern: the two vending machines -/

end StatePattern

namespace Vending

open BookMyShow (wrapInt32)

/-! ## Vending machine: stock safety -/

theorem add_product_quantities (inv : Inventory) (code : String) (product : Product)
    (qty : Int) (hq : 0 ≤ qty ∧ qty ≤ 2147483647)
    (h : ∀ c p q, inv.items c = some (p, q) → 0 ≤ q ∧ q ≤ 2147483647) :
    ∀ c p q, (inv.add_product code product qty).items c = some (p, q) →
      0 ≤ q ∧ q ≤ 2147483647 := by
  intro c p q hc
  simp only [Inventory.add_product] at hc
  by_cases hcc : c = code
  · simp [hcc] at hc
    rw [← hc.2]
    exact hq
  · simp [hcc] at hc
    exact h c p q hc

theorem stock_fold_quantities (entries : List (String × Product × Int))
    (hq : ∀ e ∈ entries, 0 ≤ e.2.2 ∧ e.2.2 ≤ 2147483647) :
    ∀ inv : Inventory, (∀ c p q, inv.items c = some (p, q) → 0 ≤ q ∧ q ≤ 2147483647) →
      ∀ c p q,
        (entries.foldl (fun inv e => inv.add_product e.1 e.2.1 e.2.2) inv).items c
          = some (p, q) →
        0 ≤ q ∧ q ≤ 2147483647 := by
  induction entries with
  | nil => intro inv h; simpa using h
  | cons e rest ih =>
    intro inv h
    rw [List.foldl_cons]
    apply ih (fun d hd => hq d (List.mem_cons_of_mem _ hd))
    exact add_product_quantities inv e.1 e.2.1 e.2.2 (hq e (List.mem_cons_self _ _)) h

/-- A freshly stocked machine satisfies the invariant. -/
theorem stocked_safe (entries : List (String × Product × Int))
    (hq : ∀ e ∈ entries, 0 ≤ e.2.2 ∧ e.2.2 ≤ 2147483647) : safe (stocked entries) := by
  refine ⟨?_, Or.inl rfl, fun _ => rfl⟩
  exact stock_fold_quantities entries hq Inventory.empty
    (by intro c p q h; simp [Inventory.empty] at h)

/-- One call on a machine that satisfies the invariant: it does not throw, the
invariant holds afterwards, and the inventory changes only by a dispense. -/
theorem step_safe (vm : VendingMachine) (hs : safe vm) (c : Call) :
    ∃ r, step vm c = some r ∧ safe r.vm ∧
      (r.dispensed = none → ∀ code, r.vm.inventory.items code = vm.inventory.items code) ∧
      (∀ code, r.dispensed = some code →
        c = Call.select_product code ∧
        ∃ p qty, vm.inventory.items code = some (p, qty) ∧ 0 < qty ∧
          p.price ≤ vm.balance ∧
          r.vm.inventory.items code = some (p, qty - 1) ∧
          ∀ other, other ≠ code →
            r.vm.inventory.items other = vm.inventory.items other) := by
  obtain ⟨inv, bal, sel, st⟩ := vm
  obtain ⟨hq, hst, hbal⟩ := hs
  simp only at hq hst hbal
  rcases hst with rfl | rfl
  · -- IdleState
    have hb0 : bal = 0 := hbal rfl
    cases c with
    | insert_coin amount =>
      refine ⟨_, rfl, ⟨hq, Or.inr rfl, ?_⟩, fun _ _ => rfl, ?_⟩
      · intro h; simp [VendingMachine.set_state] at h
      · intro code h; simp at h
    | select_product code =>
      exact ⟨_, rfl, ⟨hq, Or.inl rfl, hbal⟩, fun _ _ => rfl, fun code h => by simp at h⟩
    | dispense =>
      exact ⟨_, rfl, ⟨hq, Or.inl rfl, hbal⟩, fun _ _ => rfl, fun code h => by simp at h⟩
    | cancel =>
      exact ⟨_, rfl, ⟨hq, Or.inl rfl, hbal⟩, fun _ _ => rfl, fun code h => by simp at h⟩
  · -- HasMoneyState
    cases c with
    | insert_coin amount =>
      refine ⟨_, rfl, ⟨hq, Or.inr rfl, ?_⟩, fun _ _ => rfl, ?_⟩
      · intro h; simp at h
      · intro code h; simp at h
    | dispense =>
      refine ⟨_, rfl, ⟨hq, Or.inr rfl, ?_⟩, fun _ _ => rfl, fun code h => by simp at h⟩
      intro h; simp at h
    | cancel =>
      refine ⟨_, rfl, ⟨hq, Or.inl rfl, fun _ => rfl⟩, fun _ _ => rfl, ?_⟩
      intro code h; simp at h
    | select_product code =>
      have hstep : step ⟨inv, bal, sel, StateName.HasMoneyState⟩ (Call.select_product code)
          = HasMoneyState_select_product ⟨inv, bal, sel, StateName.HasMoneyState⟩ code := rfl
      rw [hstep]
      unfold HasMoneyState_select_product
      cases hit : inv.items code with
      | none =>
        have hav : inv.is_available code = false := by simp [Inventory.is_available, hit]
        simp only [hav, if_true]
        refine ⟨_, rfl, ⟨hq, Or.inr rfl, ?_⟩, fun _ _ => rfl, fun code h => by simp at h⟩
        intro h; simp at h
      | some pq =>
        obtain ⟨p, qty⟩ := pq
        obtain ⟨hq0, hq1⟩ := hq code p qty hit
        by_cases hpos : qty > 0
        · have hav : inv.is_available code = true := by
            simp [Inventory.is_available, hit, hpos]
          have hgp : inv.get_product code = some p := by simp [Inventory.get_product, hit]
          simp only [hav, hgp]
          by_cases hlow : bal < p.price
          · simp only [hlow, if_true]
            refine ⟨⟨⟨inv, bal, sel, StateName.HasMoneyState⟩, none⟩, rfl,
              ⟨hq, Or.inr rfl, ?_⟩, fun _ _ => rfl, fun code h => by simp at h⟩
            intro h; simp at h
          · have hw : wrapInt32 (qty - 1) = qty - 1 := by unfold wrapInt32; omega
            simp only [hlow, if_false]
            refine ⟨⟨⟨inv.reduce_stock code, 0, "", StateName.IdleState⟩, some code⟩, ?_, ?_, ?_, ?_⟩
            · simp [VendingMachine.dispense, VendingMachine.set_state,
                DispensingState_dispense, hgp]
            · refine ⟨?_, Or.inl rfl, fun _ => rfl⟩
              intro c2 p2 q2 h2
              simp only [Inventory.reduce_stock] at h2
              by_cases hcc : c2 = code
              · simp [hcc, hit, hw] at h2
                omega
              · simp [hcc] at h2
                exact hq c2 p2 q2 h2
            · intro h; simp at h
            · intro code2 h
              simp only [Option.some.injEq] at h
              subst h
              refine ⟨rfl, p, qty, hit, hpos, by omega, ?_, ?_⟩
              · simp [Inventory.reduce_stock, hit, hw]
              · intro other ho
                simp [Inventory.reduce_stock, ho]
        · have hav : inv.is_available code = false := by
            simp [Inventory.is_available, hit, hpos]
          simp only [hav, if_true]
          refine ⟨_, rfl, ⟨hq, Or.inr rfl, ?_⟩, fun _ _ => rfl, fun code h => by simp at h⟩
          intro h; simp at h

/-- Every finite sequence of calls on a machine that satisfies the invariant
runs to the end (no call throws) and ends in a machine that satisfies it. -/
theorem run_safe (calls : List Call) :
    ∀ vm : VendingMachine, safe vm → ∃ vm2, run vm calls = some vm2 ∧ safe vm2 := by
  induction calls with
  | nil => intro vm h; exact ⟨vm, rfl, h⟩
  | cons c rest ih =>
    intro vm h
    obtain ⟨r, hr, hsafe, -⟩ := step_safe vm h c
    obtain ⟨vm2, h2, h3⟩ := ih r.vm hsafe
    exact ⟨vm2, by simp [run, hr, h2], h3⟩

/-- C30: vending-machine stock safety.  For a machine stocked through
`add_product` with non-negative (`int`) quantities and then driven by any
finite sequence of `insert_coin`, `select_product`, `dispense` and `cancel`
calls: no call throws; in the machine reached no product has a negative
quantity, the state is `IdleState` or `HasMoneyState` (never
`DispensingState`), and the balance is 0 in `IdleState`; and whatever call
comes next, the inventory changes only if a product is dispensed, which
happens only in a `select_product` of that product with the balance at least
its price, and lowers the quantity of exactly that product by one. -/
theorem stock_safety (entries : List (String × Product × Int))
    (hq : ∀ e ∈ entries, 0 ≤ e.2.2 ∧ e.2.2 ≤ 2147483647) (calls : List Call) :
    ∃ vm, run (stocked entries) calls = some vm ∧
      (∀ code qty, vm.inventory.quantity code = some qty → 0 ≤ qty) ∧
      (vm.current_state = StateName.IdleState ∨
        vm.current_state = StateName.HasMoneyState) ∧
      vm.current_state ≠ StateName.DispensingState ∧
      (vm.current_state = StateName.IdleState → vm.balance = 0) ∧
      ∀ c : Call, ∃ r, step vm c = some r ∧
        (r.dispensed = none →
          ∀ code, r.vm.inventory.items code = vm.inventory.items code) ∧
        (∀ code, r.dispensed = some code →
          c = Call.select_product code ∧
          ∃ p qty, vm.inventory.items code = some (p, qty) ∧ 0 < qty ∧
            p.price ≤ vm.balance ∧
            r.vm.inventory.items code = some (p, qty - 1) ∧
            ∀ other, other ≠ code →
              r.vm.inventory.items other = vm.inventory.items other) := by
  obtain ⟨vm, hrun, hsafe⟩ := run_safe calls (stocked entries) (stocked_safe entries hq)
  obtain ⟨h1, h2, h3⟩ := hsafe
  refine ⟨vm, hrun, ?_, h2, ?_, h3, ?_⟩
  · intro code qty hc
    unfold Inventory.quantity at hc
    cases hi : vm.inventory.items code with
    | none => simp [hi] at hc
    | some pq =>
      obtain ⟨p, q⟩ := pq
      simp [hi] at hc
      rw [← hc]
      exact (h1 code p q hi).1
  · rcases h2 with h | h <;> rw [h] <;> decide
  · intro c
    obtain ⟨r, hr, -, h4, h5⟩ := step_safe vm ⟨h1, h2, h3⟩ c
    exact ⟨r, hr, h4, h5⟩

/-- C30, witness: the machine of `main` after the ten calls of `main`. -/
theorem stock_safety_witness :
    (∀ e ∈ main_stock, 0 ≤ e.2.2 ∧ e.2.2 ≤ 2147483647) ∧
    ∃ vm, run (stocked main_stock) main_calls = some vm ∧
      (∀ code qty, vm.inventory.quantity code = some qty → 0 ≤ qty) ∧
      (vm.current_state = StateName.IdleState ∨
        vm.current_state = StateName.HasMoneyState) :=
  ⟨by decide,
    match stock_safety main_stock (by decide) main_calls with
    | ⟨vm, h1, h2, h3, _⟩ => ⟨vm, h1, h2, h3⟩⟩

end Vending

namespace ParkingLot

open BookMyShow (wrapInt32)

/-! ## Parking lot: consecutive spots -/

theorem can_fit_available (sp : ParkingSpot) (v : Vehicle)
    (h : sp.can_fit_vehicle v = true) : sp.vehicle = none := by
  unfold ParkingSpot.can_fit_vehicle ParkingSpot.is_available at h
  cases hv : sp.vehicle with
  | none => rfl
  | some w => simp [hv] at h

theorem park_of_fit (sp : ParkingSpot) (v : Vehicle) (h : sp.can_fit_vehicle v = true) :
    (sp.park v).2 = { sp with vehicle := some v } := by
  simp [ParkingSpot.park, h]

theorem getElem?_park_at (spots : List ParkingSpot) (v : Vehicle) (j m : Nat) :
    (park_at spots v j)[m]?
      = if m = j then (spots[m]?).map (fun sp => (sp.park v).2) else spots[m]? := by
  unfold park_at
  cases h : spots[j]? with
  | none =>
    by_cases hm : m = j
    · subst hm; simp [h]
    · simp [hm]
  | some sp =>
    have hlt : j < spots.length := (List.getElem?_eq_some.mp h).1
    by_cases hm : m = j
    · subst hm; simp [List.getElem?_set, h, hlt]
    · have hne : j ≠ m := fun e => hm e.symm
      simp [List.getElem?_set, hne, hm]

/-- The inner loop over `n` positions from `s` on, position by position. -/
theorem getElem?_park_fold (v : Vehicle) (s N : Nat) (spots : List ParkingSpot)
    (hfit : ∀ m sp, spots[m]? = some sp → s ≤ m → m < s + N →
      sp.can_fit_vehicle v = true) (n : Nat) :
    n ≤ N → ∀ m : Nat,
      ((List.range n).foldl (fun acc k => park_at acc v (s + k)) spots)[m]?
        = if s ≤ m ∧ m < s + n then (spots[m]?).map (fun sp => { sp with vehicle := some v })
          else spots[m]? := by
  induction n with
  | zero =>
    intro _ m
    have h0 : ¬ (s ≤ m ∧ m < s + 0) := by omega
    rw [if_neg h0]
    rfl
  | succ n ih =>
    intro hn m
    rw [List.range_succ, List.foldl_append]
    simp only [List.foldl_cons, List.foldl_nil]
    rw [getElem?_park_at, ih (by omega)]
    by_cases hm : m = s + n
    · subst hm
      have h1 : ¬ (s ≤ s + n ∧ s + n < s + n) := by omega
      have h2 : s ≤ s + n ∧ s + n < s + (n + 1) := by omega
      rw [if_pos rfl, if_neg h1, if_pos h2]
      cases hs : spots[s + n]? with
      | none => rfl
      | some sp =>
        have hf := hfit (s + n) sp hs (by omega) (by omega)
        simp [park_of_fit sp v hf]
    · rw [if_neg hm]
      by_cases hr : s ≤ m ∧ m < s + n
      · have h2 : s ≤ m ∧ m < s + (n + 1) := by omega
        rw [if_pos hr, if_pos h2]
      · have h2 : ¬ (s ≤ m ∧ m < s + (n + 1)) := by omega
        rw [if_neg hr, if_neg h2]

theorem length_park_at (spots : List ParkingSpot) (v : Vehicle) (j : Nat) :
    (park_at spots v j).length = spots.length := by
  unfold park_at
  cases spots[j]? <;> simp

theorem length_park_fold (v : Vehicle) (s : Nat) (n : Nat) :
    ∀ spots : List ParkingSpot,
      ((List.range n).foldl (fun acc k => park_at acc v (s + k)) spots).length
        = spots.length := by
  induction n with
  | zero => intro spots; rfl
  | succ n ih =>
    intro spots
    rw [List.range_succ, List.foldl_append]
    simp only [List.foldl_cons, List.foldl_nil]
    rw [length_park_at, ih]

theorem start_index_value (i c : Nat) (hc : c ≤ i) :
    (if (if c = 0 then (-1 : Int) else ((i - c : Nat) : Int)) = -1 then (i : Int)
      else (if c = 0 then (-1 : Int) else ((i - c : Nat) : Int)))
      = ((i - c : Nat) : Int) := by
  by_cases h0 : c = 0
  · subst h0; simp
  · have h1 : ¬ (((i - c : Nat) : Int) = -1) := by omega
    simp [h0, h1]

/-- The block of spots a successful scan fills, given that the `k` spots from
`s` on fit the vehicle. -/
theorem parked_block_of_range (v : Vehicle) (lvl : Level) (s k : Nat)
    (hlen : s + k ≤ lvl.spots.length)
    (hfit : ∀ j, s ≤ j → j < s + k →
      ∃ sp, lvl.spots[j]? = some sp ∧ sp.can_fit_vehicle v = true)
    (ha1 : (k : Int) ≤ lvl.available_spots) (ha2 : lvl.available_spots ≤ 2147483647) :
    parked_block lvl
      { lvl with
        spots := (List.range k).foldl (fun acc n => park_at acc v (s + n)) lvl.spots
        available_spots := wrapInt32 (lvl.available_spots - (k : Int)) } v s k := by
  have hf2 : ∀ m sp, lvl.spots[m]? = some sp → s ≤ m → m < s + k →
      sp.can_fit_vehicle v = true := by
    intro m sp hm h1 h2
    obtain ⟨sp2, hs2, hc2⟩ := hfit m h1 h2
    rw [hm] at hs2
    simp at hs2
    rw [hs2]
    exact hc2
  have hpt := getElem?_park_fold v s k lvl.spots hf2 k (Nat.le_refl k)
  refine ⟨hlen, ?_, ?_, length_park_fold v s k lvl.spots, ?_, rfl⟩
  · intro j h1 h2
    obtain ⟨sp, hs, hc⟩ := hfit j h1 h2
    refine ⟨sp, hs, can_fit_available sp v hc, hc, ?_⟩
    show ((List.range k).foldl (fun acc n => park_at acc v (s + n)) lvl.spots)[j]? = _
    rw [hpt j, if_pos ⟨h1, h2⟩, hs]
    rfl
  · intro j hj
    show ((List.range k).foldl (fun acc n => park_at acc v (s + n)) lvl.spots)[j]? = _
    have hn : ¬ (s ≤ j ∧ j < s + k) := by omega
    rw [hpt j, if_neg hn]
  · show wrapInt32 (lvl.available_spots - (k : Int)) = lvl.available_spots - (k : Int)
    unfold wrapInt32
    omega

/-- The scan of `park_vehicle`, from any point of the loop: with `c` fitting
spots just before index `i` counted, a scan that returns true has filled a
block of `k` consecutive fitting spots and nothing else, and a scan that
returns false has changed nothing. -/
theorem scan_spec (v : Vehicle) (lvl : Level) (k : Nat)
    (ha1 : (k : Int) ≤ lvl.available_spots) (ha2 : lvl.available_spots ≤ 2147483647) :
    ∀ (unvisited : List ParkingSpot) (i c : Nat),
      lvl.spots.drop i = unvisited → c < k → c ≤ i →
      (∀ j, i - c ≤ j → j < i →
        ∃ sp, lvl.spots[j]? = some sp ∧ sp.can_fit_vehicle v = true) →
      ((scan v lvl k unvisited i c
          (if c = 0 then (-1 : Int) else ((i - c : Nat) : Int))).1 = true →
        ∃ start, parked_block lvl
          (scan v lvl k unvisited i c
            (if c = 0 then (-1 : Int) else ((i - c : Nat) : Int))).2 v start k) ∧
      ((scan v lvl k unvisited i c
          (if c = 0 then (-1 : Int) else ((i - c : Nat) : Int))).1 = false →
        (scan v lvl k unvisited i c
          (if c = 0 then (-1 : Int) else ((i - c : Nat) : Int))).2 = lvl) := by
  intro unvisited
  induction unvisited with
  | nil =>
    intro i c _ _ _ _
    simp [scan]
  | cons sp rest ih =>
    intro i c hdrop hck hci hprev
    have hsp : lvl.spots[i]? = some sp := by
      have h := List.getElem?_drop lvl.spots i 0
      rw [hdrop] at h
      simpa using h.symm
    have hilt : i < lvl.spots.length := (List.getElem?_eq_some.mp hsp).1
    have hdrop2 : lvl.spots.drop (i + 1) = rest := by
      have h := List.drop_drop 1 i lvl.spots
      rw [hdrop] at h
      simpa [Nat.add_comm] using h.symm
    by_cases hfit : sp.can_fit_vehicle v = true
    · by_cases hfull : (c : Int) + 1 = (k : Int)
      · have hk : k = c + 1 := by omega
        have hs : scan v lvl k (sp :: rest) i c
            (if c = 0 then (-1 : Int) else ((i - c : Nat) : Int))
            = (true,
                { lvl with
                  spots := park_range lvl.spots v ((i - c : Nat) : Int) i
                  available_spots := wrapInt32 (lvl.available_spots - (k : Int)) }) := by
          simp only [scan, hfit, hfull, if_true, start_index_value i c hci]
        rw [hs]
        refine ⟨fun _ => ⟨i - c, ?_⟩, fun h => by simp at h⟩
        have hr : park_range lvl.spots v ((i - c : Nat) : Int) i
            = (List.range k).foldl (fun acc n => park_at acc v ((i - c) + n)) lvl.spots := by
          unfold park_range
          have e1 : (((i - c : Nat) : Int)).toNat = i - c := by simp
          rw [e1]
          have e2 : i + 1 - (i - c) = k := by omega
          rw [e2]
        rw [hr]
        apply parked_block_of_range v lvl (i - c) k (by omega) _ ha1 ha2
        intro j h1 h2
        by_cases hji : j = i
        · subst hji; exact ⟨sp, hsp, hfit⟩
        · exact hprev j h1 (by omega)
      · have hs : scan v lvl k (sp :: rest) i c
            (if c = 0 then (-1 : Int) else ((i - c : Nat) : Int))
            = scan v lvl k rest (i + 1) ((c + 1 : Nat) : Int)
                (if c + 1 = 0 then (-1 : Int) else ((i + 1 - (c + 1) : Nat) : Int)) := by
          have e1 : (if c + 1 = 0 then (-1 : Int) else ((i + 1 - (c + 1) : Nat) : Int))
              = ((i - c : Nat) : Int) := by
            have : i + 1 - (c + 1) = i - c := by omega
            simp [this]
          have e2 : ((c + 1 : Nat) : Int) = (c : Int) + 1 := by push_cast; rfl
          rw [e1, e2]
          simp only [scan, hfit, hfull, if_true, if_false, start_index_value i c hci]
        rw [hs]
        apply ih (i + 1) (c + 1) hdrop2 (by omega) (by omega)
        intro j h1 h2
        by_cases hji : j = i
        · subst hji; exact ⟨sp, hsp, hfit⟩
        · exact hprev j (by omega) (by omega)
    · have hs : scan v lvl k (sp :: rest) i c
          (if c = 0 then (-1 : Int) else ((i - c : Nat) : Int))
          = scan v lvl k rest (i + 1) ((0 : Nat) : Int)
              (if (0 : Nat) = 0 then (-1 : Int) else ((i + 1 - 0 : Nat) : Int)) := by
        simp only [scan, hfit]
        simp
      rw [hs]
      apply ih (i + 1) 0 hdrop2 (by omega) (by omega)
      intro j h1 h2
      omega

/-- C25: consecutive-spot parking.  For a vehicle needing `k ≥ 1` spots (5 for a
`Bus`, 1 for a `Car` or a `Motorcycle`) on a level whose `available_spots` is
a value of `int`: whenever `Level::park_vehicle` returns true, there are `k`
spots with consecutive indices that were all empty and fitting (`Large` only,
for a `Bus`) and now hold that vehicle, every other spot is unchanged, and
`available_spots` went down by exactly `k`; whenever it returns false the
level is unchanged. -/
theorem park_vehicle_consecutive (lvl : Level) (v : Vehicle)
    (hk : 1 ≤ v.spots_needed) (hav : lvl.available_spots ≤ 2147483647) :
    ((lvl.park_vehicle v).1 = true →
      ∃ start, parked_block lvl (lvl.park_vehicle v).2 v start v.spots_needed.toNat) ∧
    ((lvl.park_vehicle v).1 = false → (lvl.park_vehicle v).2 = lvl) ∧
    (∀ plate, (Bus plate).spots_needed = 5 ∧ (Car plate).spots_needed = 1 ∧
      (Motorcycle plate).spots_needed = 1) ∧
    (∀ plate (sp : ParkingSpot),
      sp.can_fit_vehicle (Bus plate) = true ↔
        sp.vehicle = none ∧ sp.spot_size = VehicleSize.Large) := by
  have hbus : ∀ plate (sp : ParkingSpot),
      sp.can_fit_vehicle (Bus plate) = true ↔
        sp.vehicle = none ∧ sp.spot_size = VehicleSize.Large := by
    intro plate sp
    cases hv : sp.vehicle <;>
      simp [ParkingSpot.can_fit_vehicle, ParkingSpot.is_available, Bus, hv]
  have hcast : ((v.spots_needed.toNat : Nat) : Int) = v.spots_needed := by omega
  by_cases hg : lvl.available_spots < v.spots_needed
  · have hp : lvl.park_vehicle v = (false, lvl) := by simp [Level.park_vehicle, hg]
    rw [hp]
    exact ⟨fun h => by simp at h, fun _ => rfl, fun _ => ⟨rfl, rfl, rfl⟩, hbus⟩
  · have hp : lvl.park_vehicle v
        = scan v lvl ((v.spots_needed.toNat : Nat) : Int) lvl.spots 0 ((0 : Nat) : Int)
            (if (0 : Nat) = 0 then (-1 : Int) else ((0 - 0 : Nat) : Int)) := by
      rw [hcast]
      simp [Level.park_vehicle, hg]
    have hspec := scan_spec v lvl v.spots_needed.toNat (by omega) hav lvl.spots 0 0 rfl
      (by omega) (Nat.le_refl 0) (fun j _ h2 => absurd h2 (by omega))
    rw [hp]
    exact ⟨hspec.1, hspec.2, fun _ => ⟨rfl, rfl, rfl⟩, hbus⟩

/-- C25, witness: on level 0 of `main`, after the two cars and the motorcycle,
the bus is parked in a block of 5 spots and the counter goes from 17 to 12. -/
theorem park_vehicle_consecutive_witness :
    (main_level.park_vehicle (Bus "BUS-1234")).1 = true ∧
    (∃ start, parked_block main_level (main_level.park_vehicle (Bus "BUS-1234")).2
      (Bus "BUS-1234") start 5) ∧
    (main_level.park_vehicle (Bus "BUS-1234")).2.available_spots = 12 :=
  ⟨by decide,
    (park_vehicle_consecutive main_level (Bus "BUS-1234") (by decide) (by decide)).1
      (by decide),
    by decide⟩

end ParkingLot
